import Mathlib

/-!
# Typewriter effect (`src/js/typewriter.js`)

A shallow embedding of the `TypewriterEffect` class: the engine's fields, the
sink element's child nodes and the host page's pending `setTimeout` callbacks
are one record, and each method is a function on that record.  A method that
can throw returns an `Outcome`: the record as it stands when the method
returns or throws, and the error thrown, if any.

A JavaScript string whose length or content the code inspects is a `JsString`,
the list of its UTF-16 code units: `length` and `substring` count code units,
so a character outside the Basic Multilingual Plane counts twice and can be
cut in half; `js` gives the JavaScript string a Lean string denotes.  Strings
that are only compared or passed on (error names, the cursor glyph) are Lean
strings.  Numbers are integers (milliseconds and counters).
-/

namespace Typewriter

/-- The UTF-16 code units of one character: the code point itself below
U+10000, else its high and low surrogate. -/
def utf16Char (c : Char) : List Nat :=
  if c.toNat < 0x10000 then [c.toNat]
  else [0xD800 + (c.toNat - 0x10000) / 0x400, 0xDC00 + (c.toNat - 0x10000) % 0x400]

/-- The UTF-16 encoding of a string, as JavaScript stores it. -/
def utf16 (s : String) : List Nat :=
  s.data.flatMap utf16Char

/-- A JavaScript string value: its UTF-16 code units (each below `0x10000`). -/
structure JsString where
  units : List Nat
deriving DecidableEq, Repr

/-- The JavaScript string that a Lean string denotes: its UTF-16 encoding. -/
def js (s : String) : JsString :=
  ⟨utf16 s⟩

/-- The property `s.length`: the number of UTF-16 code units. -/
def JsString.length (s : JsString) : Nat :=
  s.units.length

/-- A thrown JavaScript error, identified by its `name`. -/
structure JsError where
  name : String
deriving DecidableEq, Repr

/-- Reading a property of `undefined` or `null`. -/
def typeError : JsError := ⟨"TypeError"⟩

/-- The `DOMException` of `insertBefore` when the reference node is not a child. -/
def notFoundError : JsError := ⟨"NotFoundError"⟩

/-- Child nodes of the sink element.  `cursor` is the span made by `addCursor`
and kept in `this.cursor`; `other` is any other content that is not one text
node, named by the HTML source it was parsed from. -/
inductive DomNode where
  | text (content : JsString)
  | cursor (glyph : String)
  | other (html : JsString)
deriving DecidableEq, Repr

/-- The two closures handed to `setTimeout` in `type()`. -/
inductive Callback where
  /-- The closure `() => this.type()` of line 90. -/
  | tick
  /-- The closure of lines 67-71: clear `isWaiting`, set `isDeleting`, call `type()`. -/
  | pauseDone
deriving DecidableEq, Repr

/-- A pending `setTimeout` call: its callback and the delay it was given. -/
structure Timer where
  callback : Callback
  delay : Int
deriving DecidableEq, Repr

/-- The caller's `options` argument: each key is present (`some`) or absent. -/
structure RawOptions where
  strings : Option (List JsString) := none
  typeSpeed : Option Int := none
  deleteSpeed : Option Int := none
  delayBetween : Option Int := none
  loop : Option Bool := none
  cursor : Option String := none
deriving DecidableEq, Repr

/-- The record `this.options` built by the constructor. -/
structure Options where
  strings : List JsString
  typeSpeed : Int
  deleteSpeed : Int
  delayBetween : Int
  loop : Bool
  cursor : String
deriving DecidableEq, Repr

/-- The expression `options.key || dflt`: the default replaces an absent or falsy value. -/
def orDefault {α : Type} (falsy : α → Bool) (v : Option α) (dflt : α) : α :=
  match v with
  | none => dflt
  | some x => if falsy x then dflt else x

/-- The spread `...options` after a key: a present key overrides the value before it. -/
def spread {α : Type} (v : Option α) (before : α) : α :=
  match v with
  | none => before
  | some x => x

/-- The default of `strings` (line 11). -/
def defaultStrings : List JsString := [js "Web Developer", js "Designer", js "Storyteller"]

/-- Lines 10-18 of the constructor. -/
def mkOptions (o : RawOptions) : Options :=
  { strings := spread o.strings (orDefault (fun _ => false) o.strings defaultStrings)
    typeSpeed := spread o.typeSpeed (orDefault (fun n => n == 0) o.typeSpeed 100)
    deleteSpeed := spread o.deleteSpeed (orDefault (fun n => n == 0) o.deleteSpeed 50)
    delayBetween := spread o.delayBetween (orDefault (fun n => n == 0) o.delayBetween 2000)
    loop := spread o.loop (o.loop != some false)
    cursor := spread o.cursor (orDefault (fun s => s == "") o.cursor "|") }

/-- The engine object together with its sink and the host's pending timers.
`element = none` is a null element; `some cs` is an element with child nodes `cs`.
`timers` lists the pending `setTimeout` calls in the order they were made. -/
structure TypewriterEffect where
  element : Option (List DomNode)
  options : Options
  currentStringIndex : Nat
  currentCharIndex : Int
  isDeleting : Bool
  isWaiting : Bool
  timers : List Timer
deriving DecidableEq, Repr

/-- What a call leaves behind: the record when the call returns or throws, and
the error when it throws. -/
structure Outcome where
  world : TypewriterEffect
  thrown : Option JsError
deriving DecidableEq, Repr

/-- The call `s.substring(0, e)`: the end is clamped to `0` and to the length,
and the cut is by code unit. -/
def substring0 (s : JsString) (e : Int) : JsString :=
  ⟨s.units.take e.toNat⟩

/-- The call `parent.insertBefore(node, ref)` for a non-null `ref`: `none` when
`ref` is not a child (the call throws). -/
def insertBefore : List DomNode → DomNode → DomNode → Option (List DomNode)
  | [], _, _ => none
  | c :: cs, node, ref =>
    if c = ref then some (node :: c :: cs)
    else (insertBefore cs node ref).map (fun r => c :: r)

/-- Lines 56-61: write the text into the first child when that is a text node,
else insert a new text node before the cursor span. -/
def writeText (children : List DomNode) (displayText : JsString) (glyph : String) :
    Option (List DomNode) :=
  match children with
  | DomNode.text _ :: rest => some (DomNode.text displayText :: rest)
  | _ => insertBefore children (DomNode.text displayText) (DomNode.cursor glyph)

/-- The call `setTimeout(cb, delay)`. -/
def setTimeout (t : TypewriterEffect) (cb : Callback) (delay : Int) : TypewriterEffect :=
  { t with timers := t.timers ++ [⟨cb, delay⟩] }

/-- The method `type()` (lines 47-91). -/
def type (t : TypewriterEffect) : Outcome :=
  if t.isWaiting then ⟨t, none⟩ else
  match t.options.strings[t.currentStringIndex]? with
  | none => ⟨t, some typeError⟩
  | some currentString =>
    let displayText :=
      if t.isDeleting then substring0 currentString (t.currentCharIndex - 1)
      else substring0 currentString (t.currentCharIndex + 1)
    match t.element with
    | none => ⟨t, some typeError⟩
    | some children =>
      match writeText children displayText t.options.cursor with
      | none => ⟨t, some notFoundError⟩
      | some children1 =>
        let t1 := { t with element := some children1 }
        if !t1.isDeleting && t1.currentCharIndex == (currentString.length : Int) then
          ⟨setTimeout { t1 with isWaiting := true } Callback.pauseDone t1.options.delayBetween, none⟩
        else
          let finished := t1.isDeleting && t1.currentCharIndex == 0
          let t2 :=
            if finished then
              { t1 with
                isDeleting := false
                currentStringIndex := (t1.currentStringIndex + 1) % t1.options.strings.length }
            else t1
          if finished && !t2.options.loop && t2.currentStringIndex == 0 then
            ⟨t2, none⟩
          else
            let t3 :=
              { t2 with currentCharIndex := t2.currentCharIndex + (if t2.isDeleting then -1 else 1) }
            let speed := if t3.isDeleting then t3.options.deleteSpeed else t3.options.typeSpeed
            ⟨setTimeout t3 Callback.tick speed, none⟩

/-- The method `addCursor()` (lines 36-45); only called with a non-null element. -/
def addCursor (t : TypewriterEffect) : TypewriterEffect :=
  { t with element := t.element.map (fun cs => cs ++ [DomNode.cursor t.options.cursor]) }

/-- The method `init()` (lines 28-34). -/
def init (t : TypewriterEffect) : Outcome :=
  match t.element with
  | none => ⟨t, none⟩
  | some _ => type (addCursor { t with element := some [] })

/-- The constructor (lines 8-26), called with no timer of this engine pending. -/
def construct (element : Option (List DomNode)) (o : RawOptions) : Outcome :=
  init
    { element := element
      options := mkOptions o
      currentStringIndex := 0
      currentCharIndex := 0
      isDeleting := false
      isWaiting := false
      timers := [] }

/-- The method `destroy()` (lines 93-97).  `parse` is the browser's HTML parser
behind the `innerHTML` setter. -/
def destroy (parse : JsString → List DomNode) (t : TypewriterEffect) : TypewriterEffect :=
  match t.element with
  | none => t
  | some _ =>
    { t with element := some (parse (orDefault (fun s => s == js "") t.options.strings.head? (js ""))) }

/-- The source has nothing the HTML parser rewrites: no `<` (60), no `&` (38),
no NUL (0) and no carriage return (13). -/
def markupFree (s : JsString) : Bool :=
  s.units.all (fun u => u != 60 && u != 38 && u != 0 && u != 13)

/-- The `innerHTML` setter: no child for the empty source, one text node with
the source as its content for a markup-free source.  A source with markup is
not parsed further: it is kept as one node `other`, which stands for the
nodes the parser builds from it. -/
def parsePlain (s : JsString) : List DomNode :=
  if s == js "" then []
  else if markupFree s then [DomNode.text s]
  else [DomNode.other s]

/-- The host fires the pending timer at position `i`: the timer leaves the
pending list and its callback runs.  An error thrown by the callback goes to
the host's console; the record is left as it stood at the throw. -/
def fire (i : Nat) (t : TypewriterEffect) : TypewriterEffect :=
  match t.timers[i]? with
  | none => t
  | some tm =>
    let t1 := { t with timers := t.timers.eraseIdx i }
    match tm.callback with
    | Callback.tick => (type t1).world
    | Callback.pauseDone => (type { t1 with isWaiting := false, isDeleting := true }).world

/-- States the engine passes through from `start` as the host fires pending
timers, in any order. -/
inductive Reachable (start : TypewriterEffect) : TypewriterEffect → Prop where
  | start : Reachable start start
  | fire {t : TypewriterEffect} (i : Nat) : Reachable start t → i < t.timers.length →
      Reachable start (fire i t)

/-- The text shown in the sink: the content of its first child when that is a text node. -/
def sinkText (t : TypewriterEffect) : Option JsString :=
  match t.element with
  | some (DomNode.text s :: _) => some s
  | _ => none

/-- Fire the oldest pending timer `n` times and list the sink text after each. -/
def renderedTexts : Nat → TypewriterEffect → List (Option JsString)
  | 0, _ => []
  | n + 1, t => sinkText (fire 0 t) :: renderedTexts n (fire 0 t)

/-- Fire the oldest pending timer `n` times. -/
def run : Nat → TypewriterEffect → TypewriterEffect
  | 0, t => t
  | n + 1, t => run n (fire 0 t)

/-- The write of lines 56-61 does not throw: the sink is non-null and either
starts with a text node or still holds the cursor span. -/
def sinkReady (t : TypewriterEffect) : Bool :=
  match t.element with
  | none => false
  | some (DomNode.text _ :: _) => true
  | some cs => decide (DomNode.cursor t.options.cursor ∈ cs)

/-- The engine's own fields and the pending timers, the sink left out. -/
def engineState (t : TypewriterEffect) : Options × Nat × Int × Bool × Bool × List Timer :=
  (t.options, t.currentStringIndex, t.currentCharIndex, t.isDeleting, t.isWaiting, t.timers)

/-- The scenario configuration: `["Hi", "Yo"]`, speeds 10 and 5, pause 20, looping. -/
def hiYo : RawOptions :=
  { strings := some [js "Hi", js "Yo"]
    typeSpeed := some 10
    deleteSpeed := some 5
    delayBetween := some 20
    loop := some true }

/-- The outcome of the callback of the pending timer at position `i`: as
`fire`, with the error the callback throws, if any. -/
def fireOutcome (i : Nat) (t : TypewriterEffect) : Outcome :=
  match t.timers[i]? with
  | none => ⟨t, none⟩
  | some tm =>
    let t1 := { t with timers := t.timers.eraseIdx i }
    match tm.callback with
    | Callback.tick => type t1
    | Callback.pauseDone => type { t1 with isWaiting := false, isDeleting := true }

/-- Exactly one timer is pending and its callback gets past the `isWaiting`
guard of `type()`: it is the pause callback, which clears the flag first, or a
tick on a non-waiting engine. -/
def live (u : TypewriterEffect) : Bool :=
  match u.timers with
  | [tm] => tm.callback == Callback.pauseDone || !u.isWaiting
  | _ => false

/-- `Steps u n v`: from `u`, `n` timers fire one after the other and lead to `v`;
each is the only pending timer when it fires and each invokes `type()` past
the `isWaiting` guard. -/
inductive Steps : TypewriterEffect → Nat → TypewriterEffect → Prop where
  | done (u : TypewriterEffect) : Steps u 0 u
  | step {u v : TypewriterEffect} {n : Nat} : live u = true → Steps (fire 0 u) n v →
      Steps u (n + 1) v

/-- The engine with options `opts` stands at index `idx` and count `cnt` with
the given flags and pending timers, and its sink starts with a text node. -/
def Stage (opts : Options) (u : TypewriterEffect) (idx : Nat) (cnt : Int)
    (deleting waiting : Bool) (timers : List Timer) : Prop :=
  u.options = opts ∧ (∃ x rest, u.element = some (DomNode.text x :: rest)) ∧
  u.currentStringIndex = idx ∧ u.currentCharIndex = cnt ∧
  u.isDeleting = deleting ∧ u.isWaiting = waiting ∧ u.timers = timers

/-- The number of timers that fire for a list of strings: one per character
typed, one per character deleted and one more per string. -/
def stepsFor (strings : List JsString) : Nat :=
  (strings.map (fun s => 2 * s.length + 1)).sum

end Typewriter

/-!
# Contact form (`src/js/forms.js`)

The `FormController` object with the form's controls, the error elements of
the document and the `isSubmitting` flag.  A control is referred to by its
position in the form.  A control's value is a Lean string, the sequence of its
characters; its `length` is that of `js`, the count of UTF-16 code units.
-/

namespace Forms

open Typewriter (JsError typeError js)

/-- White space and line terminators: the characters `\s` matches and `trim()` strips. -/
def isWhiteSpace (c : Char) : Bool :=
  let n := c.toNat
  n == 9 || n == 10 || n == 11 || n == 12 || n == 13 || n == 32 || n == 160 || n == 5760 ||
    (8192 ≤ n && n ≤ 8202) || n == 8232 || n == 8233 || n == 8239 || n == 8287 ||
    n == 12288 || n == 65279

/-- The call `s.trim()`. -/
def trim (s : String) : String :=
  ⟨((s.data.dropWhile isWhiteSpace).reverse.dropWhile isWhiteSpace).reverse⟩

/-- A character of the class `[^\s@]`. -/
def isAddressChar (c : Char) : Bool :=
  !isWhiteSpace c && c != '@'

/-- The test of `/^[^\s@]+@[^\s@]+\.[^\s@]+$/` (line 16): the whole string is a
non-empty run of the class, `@` at position `i`, a non-empty run, `.` at
position `j`, a non-empty run. -/
def emailPattern (s : String) : Bool :=
  (List.range s.data.length).any fun i =>
    (List.range s.data.length).any fun j =>
      decide (0 < i) && decide (i + 1 < j) && decide (j + 1 < s.data.length) &&
        s.data[i]? == some '@' && s.data[j]? == some '.' &&
        (s.data.take i).all isAddressChar &&
        ((s.data.drop (i + 1)).take (j - (i + 1))).all isAddressChar &&
        (s.data.drop (j + 1)).all isAddressChar

/-- One entry of `validationRules`; an absent key is `false` or `none`. -/
structure Rules where
  required : Bool := false
  minLength : Option Nat := none
  pattern : Option (String → Bool) := none

/-- The object `this.validationRules` (lines 14-19), in key order. -/
def validationRules : List (String × Rules) :=
  [("name", { required := true, minLength := some 2 }),
   ("email", { required := true, pattern := some emailPattern }),
   ("subject", { required := true, minLength := some 3 }),
   ("message", { required := true, minLength := some 10 })]

/-- An element looked up by `${field.name}Error`: its text and its `show` class. -/
structure ErrorElement where
  textContent : String
  shown : Bool
deriving DecidableEq, Repr

/-- An `input` or `textarea` of the form.  `disabled` controls are left out of
`FormData`; `errorClass` is the `error` class. -/
structure Field where
  name : String
  type : String
  value : String
  disabled : Bool
  errorClass : Bool
  ariaInvalid : Option String
  ariaDescribedby : Option String
deriving DecidableEq, Repr

/-- The controller and the part of the document it touches.  `form = none` is
a page without `#contactForm`; `errors` lists the document's elements by id. -/
structure FormController where
  form : Option (List Field)
  errors : List (String × ErrorElement)
  isSubmitting : Bool
deriving DecidableEq, Repr

/-- What a method call leaves behind: the controller, and the value returned
or the error thrown. -/
structure Call (α : Type) where
  controller : FormController
  result : Except JsError α

/-- The method `getFieldLabel` (lines 131-139), on own keys of `labelMap`. -/
def getFieldLabel (fieldName : String) : String :=
  if fieldName = "name" then "Name"
  else if fieldName = "email" then "Email"
  else if fieldName = "subject" then "Subject"
  else if fieldName = "message" then "Message"
  else fieldName

/-- The test `!value || value.trim().length === 0` of line 82. -/
def isBlank (value : Option String) : Bool :=
  match value with
  | none => true
  | some v => v == "" || (js (trim v)).length == 0

/-- Lines 90-96: the message of a failed pattern test, else the empty string.
A `null` value is tested as the string `null`. -/
def patternMessage (field : Field) (value : Option String) (rules : Rules) : String :=
  match rules.pattern with
  | none => ""
  | some test =>
    if !test (value.getD "null") then
      if field.type = "email" then "Please enter a valid email address"
      else getFieldLabel field.name ++ " format is invalid"
    else ""

/-- Lines 79-96: the value of `errorMessage` when the checks are done.  The
length check on a `null` value throws. -/
def errorMessage (field : Field) (value : Option String) (rules : Rules) :
    Except JsError String :=
  if rules.required && isBlank value then
    Except.ok (getFieldLabel field.name ++ " is required")
  else if rules.minLength.getD 0 ≠ 0 then
    match value with
    | none => Except.error typeError
    | some v =>
      if (js (trim v)).length < rules.minLength.getD 0 then
        Except.ok (getFieldLabel field.name ++ " must be at least "
          ++ toString (rules.minLength.getD 0) ++ " characters")
      else Except.ok (patternMessage field value rules)
  else Except.ok (patternMessage field value rules)

/-- The call `document.getElementById(id)` on the error elements. -/
def getElementById : List (String × ErrorElement) → String → Option ErrorElement
  | [], _ => none
  | (k, e) :: rest, id => if k = id then some e else getElementById rest id

/-- Replace the element that `getElementById` finds; nothing changes when there
is none (the `if (errorElement)` guards of lines 109 and 121). -/
def setElement : List (String × ErrorElement) → String → ErrorElement →
    List (String × ErrorElement)
  | [], _, _ => []
  | (k, e) :: rest, id, e1 =>
    if k = id then (k, e1) :: rest else (k, e) :: setElement rest id e1

/-- The control at position `i` of the form. -/
def fieldAt (c : FormController) (i : Nat) : Option Field :=
  match c.form with
  | none => none
  | some fs => fs[i]?

/-- The method `showFieldError` (lines 107-117), called with a control of the form. -/
def showFieldError (c : FormController) (i : Nat) (message : String) : FormController :=
  match fieldAt c i with
  | none => c
  | some f =>
    { c with
      errors := setElement c.errors (f.name ++ "Error") ⟨message, true⟩
      form := c.form.map fun fs =>
        fs.set i { f with
          errorClass := true
          ariaInvalid := some "true"
          ariaDescribedby := some (f.name ++ "Error") } }

/-- The method `clearFieldError` (lines 119-129), called with a control of the form. -/
def clearFieldError (c : FormController) (i : Nat) : FormController :=
  match fieldAt c i with
  | none => c
  | some f =>
    { c with
      errors := setElement c.errors (f.name ++ "Error") ⟨"", false⟩
      form := c.form.map fun fs =>
        fs.set i { f with
          errorClass := false
          ariaInvalid := some "false"
          ariaDescribedby := none } }

/-- The method `validateFieldValue` (lines 77-105).  `field = none` is a `null`
reference: reading `field.name` throws. -/
def validateFieldValue (c : FormController) (field : Option Nat) (value : Option String)
    (rules : Rules) : Call Bool :=
  match field with
  | none => ⟨c, Except.error typeError⟩
  | some i =>
    match fieldAt c i with
    | none => ⟨c, Except.error typeError⟩
    | some f =>
      match errorMessage f value rules with
      | Except.error e => ⟨c, Except.error e⟩
      | Except.ok msg =>
        if msg ≠ "" then ⟨showFieldError c i msg, Except.ok false⟩
        else ⟨clearFieldError c i, Except.ok true⟩

/-- The call `this.form.querySelector('[name="..."]')`: the first control of that name. -/
def querySelectorByName : List Field → String → Option Nat
  | [], _ => none
  | f :: fs, n => if f.name = n then some 0 else (querySelectorByName fs n).map (· + 1)

/-- The call `formData.get(name)` on `new FormData(form)`: the value of the
first enabled control of that name, else `null`. -/
def formDataGet : List Field → String → Option String
  | [], _ => none
  | f :: fs, n => if f.disabled = false ∧ f.name = n then some f.value else formDataGet fs n

/-- The loop of lines 57-64 over the remaining rules; `formData` is the form as
it stood when `validateForm` was entered. -/
def validateLoop (formData : List Field) :
    List (String × Rules) → FormController → Bool → Call Bool
  | [], c, isValid => ⟨c, Except.ok isValid⟩
  | (fieldName, rules) :: rest, c, isValid =>
    match validateFieldValue c (querySelectorByName (c.form.getD []) fieldName)
        (formDataGet formData fieldName) rules with
    | ⟨c1, Except.error e⟩ => ⟨c1, Except.error e⟩
    | ⟨c1, Except.ok r⟩ => validateLoop formData rest c1 (if !r then false else isValid)

/-- The method `validateForm` (lines 52-67). -/
def validateForm (c : FormController) : Call Bool :=
  match c.form with
  | none => ⟨c, Except.error typeError⟩
  | some fs => validateLoop fs validationRules c true

/-- Lines 98-104 without the return: show the message, or clear the error
when the message is empty. -/
def markField (c : FormController) (i : Nat) (msg : String) : FormController :=
  if msg ≠ "" then showFieldError c i msg else clearFieldError c i

/-- The part of a control that validation reads and never writes. -/
def fixedPart (f : Field) : String × String × String × Bool :=
  (f.name, f.type, f.value, f.disabled)

/-- The message `validateFieldValue` computes for one rule on the form `fs`
with the submitted data `formData`; empty when the control is missing. -/
def messageFor (fs formData : List Field) (nr : String × Rules) : String :=
  match querySelectorByName fs nr.1 with
  | none => ""
  | some i =>
    match fs[i]? with
    | none => ""
    | some f =>
      match errorMessage f (formDataGet formData nr.1) nr.2 with
      | Except.ok m => m
      | Except.error _ => ""

/-- The control at position `i`, of name `n`, shows the outcome `msg` of its
validation: error class, `aria-invalid`, `aria-describedby` and, when the
document has the element `${n}Error`, its text and `show` class; all cleared
for the empty message. -/
def displays (c : FormController) (i : Nat) (n msg : String) : Bool :=
  match fieldAt c i with
  | none => false
  | some f =>
    f.errorClass == (msg != "") &&
    f.ariaInvalid == some (if msg != "" then "true" else "false") &&
    f.ariaDescribedby == (if msg != "" then some (n ++ "Error") else none) &&
    (match getElementById c.errors (n ++ "Error") with
     | none => true
     | some e => e == ⟨msg, msg != ""⟩)

/-- A control with nothing displayed yet. -/
def freshField (name type value : String) : Field :=
  { name := name, type := type, value := value, disabled := false,
    errorClass := false, ariaInvalid := none, ariaDescribedby := none }

/-- A contact form with a one-letter name, a blank subject and valid email and
message; the document has error elements for `name` and `email` only. -/
def demoForm : FormController :=
  { form := some [freshField "name" "text" "A", freshField "email" "email" "a@b.c",
                  freshField "subject" "text" "   ",
                  freshField "message" "textarea" "hello world!"]
    errors := [("nameError", ⟨"", false⟩), ("emailError", ⟨"stale", true⟩)]
    isSubmitting := false }

/-- The acceptance condition for an email value, in words: no white space, exactly
one `@`, at least one character before it, and after it a `.` that is neither
the first nor the last character of that part. -/
def EmailAccepted (s : String) : Prop :=
  (∀ c ∈ s.data, isWhiteSpace c = false) ∧
  s.data.count '@' = 1 ∧
  ∃ before after, s.data = before ++ '@' :: after ∧ before ≠ [] ∧
    ∃ p q, after = p ++ '.' :: q ∧ p ≠ [] ∧ q ≠ []

/-- The shape of a match of the email pattern: three non-empty runs of the class
`[^\s@]`, the first two followed by `@` and by `.`. -/
def AddressSplit (l : List Char) : Prop :=
  ∃ a b c, l = a ++ '@' :: (b ++ '.' :: c) ∧ a ≠ [] ∧ b ≠ [] ∧ c ≠ [] ∧
    (∀ x ∈ a, isAddressChar x = true) ∧ (∀ x ∈ b, isAddressChar x = true) ∧
    (∀ x ∈ c, isAddressChar x = true)

/-- The method `validateField` (lines 69-75), the `blur` handler of a control.
A control whose name has no entry in `validationRules` makes `rules.required`
throw. -/
def validateField (c : FormController) (i : Nat) : Call Bool :=
  match fieldAt c i with
  | none => ⟨c, Except.error typeError⟩
  | some f =>
    match validationRules.find? (fun nr => nr.1 == f.name) with
    | none => ⟨c, Except.error typeError⟩
    | some nr => validateFieldValue c (some i) (some f.value) nr.2

/-- The submit button: the `display` of its `.btn-text` and `.btn-loading`
children (`none` for a missing child), `disabled` and `aria-busy`. -/
structure SubmitButton where
  btnText : Option String
  btnLoading : Option String
  disabled : Bool
  ariaBusy : Option String
deriving DecidableEq, Repr

/-- Work the host runs later for the form. -/
inductive Task where
  /-- The rest of `submitForm` after its `await`, run when the 2000 ms timer of
  `simulateFormSubmission` has resolved the promise. -/
  | resumeSubmit
  /-- The 5000 ms callback of `showSuccess` (lines 201-204). -/
  | reshowForm
deriving DecidableEq, Repr

/-- The page as the controller sees it: the controller itself, the submit
button (`none` when `#submitBtn` is missing), the `display` of
`#successMessage` (`none` when the element is missing) and of the form, the
default values of the controls by position, whether `window.portfolioApp` is
there, the messages announced or shown to the user, and the pending work. -/
structure Page where
  controller : FormController
  submitBtn : Option SubmitButton
  successMessage : Option String
  formDisplay : String
  defaults : List String
  hasApp : Bool
  notices : List String
  tasks : List Task
deriving DecidableEq, Repr

/-- What a call on the page leaves behind: the page, and the error thrown (for
an `async` method, the rejection of its promise). -/
structure PageCall where
  page : Page
  thrown : Option JsError
deriving DecidableEq, Repr

/-- The method `setSubmitButtonState` (lines 170-185). -/
def setSubmitButtonState (p : Page) (isLoading : Bool) : PageCall :=
  match p.submitBtn with
  | none => ⟨p, some typeError⟩
  | some b =>
    match b.btnText with
    | none => ⟨p, some typeError⟩
    | some _ =>
      let b1 := { b with btnText := some (if isLoading then "none" else "inline") }
      match b.btnLoading with
      | none => ⟨{ p with submitBtn := some b1 }, some typeError⟩
      | some _ =>
        ⟨{ p with submitBtn := some { b1 with
            btnLoading := some (if isLoading then "inline" else "none")
            disabled := isLoading
            ariaBusy := some (if isLoading then "true" else "false") } }, none⟩

/-- The method `showSuccess` (lines 187-205). -/
def showSuccess (p : Page) : PageCall :=
  match p.controller.form with
  | none => ⟨p, some typeError⟩
  | some _ =>
    let p1 := { p with formDisplay := "none" }
    match p1.successMessage with
    | none => ⟨p1, some typeError⟩
    | some _ =>
      ⟨{ p1 with
          successMessage := some "block"
          notices := if p1.hasApp then p1.notices ++ ["Message sent successfully!"]
                     else p1.notices
          tasks := p1.tasks ++ [Task.reshowForm] }, none⟩

/-- The method `showError` (lines 207-213): the message goes to the user
through `showMessage` or `alert`. -/
def showError (p : Page) (message : String) : Page :=
  { p with notices := p.notices ++ [message] }

/-- The method `resetForm` (lines 215-221): every control gets its default
value back and its error is cleared. -/
def resetForm (p : Page) : PageCall :=
  match p.controller.form with
  | none => ⟨p, some typeError⟩
  | some fs =>
    let c1 : FormController :=
      { p.controller with
        form := some (fs.enum.map fun x => { x.2 with value := p.defaults.getD x.1 "" }) }
    ⟨{ p with controller := (List.range fs.length).foldl clearFieldError c1 }, none⟩

/-- The method `submitForm` up to its `await` (lines 141-147): a throw here
rejects the promise and nothing is left pending. -/
def submitForm (p : Page) : PageCall :=
  let p1 := { p with controller := { p.controller with isSubmitting := true } }
  match setSubmitButtonState p1 true with
  | ⟨p2, some e⟩ => ⟨p2, some e⟩
  | ⟨p2, none⟩ => ⟨{ p2 with tasks := p2.tasks ++ [Task.resumeSubmit] }, none⟩

/-- The method `submitForm` after its `await` (lines 149-158): the `try` block,
the `catch` block when it threw, and the `finally` block. -/
def resumeSubmit (p : Page) : PageCall :=
  let tried : PageCall :=
    match showSuccess p with
    | ⟨q, some e⟩ => ⟨q, some e⟩
    | ⟨q, none⟩ => resetForm q
  let caught : Page :=
    match tried.thrown with
    | some _ => showError tried.page "Failed to send message. Please try again."
    | none => tried.page
  setSubmitButtonState
    { caught with controller := { caught.controller with isSubmitting := false } } false

/-- The method `handleSubmit` (lines 42-50), the `submit` handler.  A rejection
of the promise of `submitForm` is not thrown to the handler. -/
def handleSubmit (p : Page) : PageCall :=
  if p.controller.isSubmitting then ⟨p, none⟩
  else
    match validateForm p.controller with
    | ⟨c1, Except.error e⟩ => ⟨{ p with controller := c1 }, some e⟩
    | ⟨c1, Except.ok true⟩ => ⟨(submitForm { p with controller := c1 }).page, none⟩
    | ⟨c1, Except.ok false⟩ => ⟨{ p with controller := c1 }, none⟩

/-- The host runs the pending work at position `i`. -/
def runTask (i : Nat) (p : Page) : Page :=
  match p.tasks[i]? with
  | none => p
  | some Task.resumeSubmit => (resumeSubmit { p with tasks := p.tasks.eraseIdx i }).page
  | some Task.reshowForm =>
    { p with
      tasks := p.tasks.eraseIdx i
      successMessage := p.successMessage.map fun _ => "none"
      formDisplay := "block" }

/-- The user changes the value of the control at position `i`; its `input`
listener clears the error (line 38). -/
def inputEvent (p : Page) (i : Nat) (value : String) : Page :=
  { p with
    controller := clearFieldError
      { p.controller with
        form := p.controller.form.map fun fs =>
          match fs[i]? with
          | none => fs
          | some f => fs.set i { f with value := value } } i }

/-- The control at position `i` loses focus; its `blur` listener validates it
(line 37). -/
def blurEvent (p : Page) (i : Nat) : Page :=
  { p with controller := (validateField p.controller i).controller }

/-- Pages reached from `start` by submit events, pending work, and the user's
input and blur events. -/
inductive PageReachable (start : Page) : Page → Prop where
  | start : PageReachable start start
  | submit {p : Page} : PageReachable start p → PageReachable start (handleSubmit p).page
  | task {p : Page} (i : Nat) : PageReachable start p → PageReachable start (runTask i p)
  | input {p : Page} (i : Nat) (value : String) : PageReachable start p →
      PageReachable start (inputEvent p i value)
  | blur {p : Page} (i : Nat) : PageReachable start p → PageReachable start (blurEvent p i)

/-- The number of submissions in flight: calls of `submitForm` waiting at
their `await`. -/
def inFlight (p : Page) : Nat :=
  p.tasks.count Task.resumeSubmit

/-- A page with the valid form `name = Al`, `email = a@b.c`, `subject = Hey`,
`message = hello world!`, a complete submit button and a success message. -/
def demoPage : Page :=
  { controller :=
      { form := some [freshField "name" "text" "Al", freshField "email" "email" "a@b.c",
                      freshField "subject" "text" "Hey",
                      freshField "message" "textarea" "hello world!"]
        errors := []
        isSubmitting := false }
    submitBtn := some ⟨some "inline", some "none", false, none⟩
    successMessage := some "none"
    formDisplay := "block"
    defaults := []
    hasApp := true
    notices := []
    tasks := [] }

/-- The page of `demoPage` without the element `#submitBtn`: the constructor's
`getElementById('submitBtn')` gave `null`. -/
def noButtonPage : Page :=
  { demoPage with submitBtn := none }

end Forms

/-!
# Konami code (`src/js/main.js`, `setupKonamiCode`)

The `keydown` listener and its closure variable `konamiSequence`; key codes are
natural numbers.
-/

namespace Konami

/-- The constant `konamiCode` (line 269). -/
def konamiCode : List Nat := [38, 38, 40, 40, 37, 39, 37, 39, 66, 65]

/-- The call `a.toString()` on an array of key codes: the decimal numerals
joined by commas. -/
def arrayToString : List Nat → String
  | [] => ""
  | [a] => toString a
  | a :: b :: rest => toString a ++ "," ++ arrayToString (b :: rest)

/-- The call `a.slice(-10)`: the last ten entries, or all of them when there
are fewer. -/
def sliceLast10 (a : List Nat) : List Nat :=
  a.drop (a.length - 10)

/-- The `keydown` listener (lines 271-278): the new value of `konamiSequence`
and whether `triggerKonamiEffect` is called. -/
def keydown (konamiSequence : List Nat) (keyCode : Nat) : List Nat × Bool :=
  let pushed := konamiSequence ++ [keyCode]
  let sliced := sliceLast10 pushed
  (sliced, arrayToString sliced == arrayToString konamiCode)

/-- The value of `konamiSequence` after the key codes `keys`, oldest first,
starting from the empty array of line 268. -/
def afterKeys (keys : List Nat) : List Nat :=
  keys.foldl (fun s k => (keydown s k).1) []

/-- The number a decimal numeral stands for. -/
def numeralValue (l : List Char) : Nat :=
  l.foldl (fun acc c => acc * 10 + (c.toNat - 48)) 0

end Konami

namespace Typewriter

/-! ## Lemmas on the sink write -/

/-- The insertion succeeds exactly when the reference node is a child. -/
theorem insertBefore_isSome (cs : List DomNode) (node ref : DomNode) :
    (insertBefore cs node ref).isSome = decide (ref ∈ cs) := by
  induction cs with
  | nil => simp [insertBefore]
  | cons c cs ih =>
    by_cases h : c = ref
    · simp [insertBefore, h]
    · have h2 : ¬ ref = c := fun e => h e.symm
      simp [insertBefore, h, h2, ih]

/-- The write succeeds exactly on a ready sink, whatever the text. -/
theorem writeText_isSome (t : TypewriterEffect) (cs : List DomNode) (txt : JsString)
    (hel : t.element = some cs) :
    (writeText cs txt t.options.cursor).isSome = sinkReady t := by
  unfold sinkReady writeText
  rw [hel]
  cases cs with
  | nil => simp [insertBefore]
  | cons c rest =>
    cases c with
    | text s => simp
    | cursor g => simp [insertBefore_isSome]
    | other h => simp [insertBefore_isSome]

/-- On a ready sink the write yields new child nodes. -/
theorem writeText_ready (t : TypewriterEffect) (txt : JsString) (hready : sinkReady t = true) :
    ∃ cs cs1, t.element = some cs ∧ writeText cs txt t.options.cursor = some cs1 := by
  cases hel : t.element with
  | none => simp [sinkReady, hel] at hready
  | some cs =>
    have h := writeText_isSome t cs txt hel
    rw [hready] at h
    obtain ⟨cs1, h1⟩ := Option.isSome_iff_exists.mp h
    exact ⟨cs, cs1, rfl, h1⟩

/-- The reference node is still a child after the insertion. -/
theorem insertBefore_mem (cs r : List DomNode) (node ref : DomNode)
    (h : insertBefore cs node ref = some r) : ref ∈ r := by
  induction cs generalizing r with
  | nil => simp [insertBefore] at h
  | cons c cs ih =>
    by_cases hc : c = ref
    · simp [insertBefore, hc] at h
      subst h
      simp
    · simp only [insertBefore, hc, if_false, Option.map_eq_some'] at h
      obtain ⟨r1, h1, h2⟩ := h
      subst h2
      exact List.mem_cons_of_mem _ (ih r1 h1)

/-- After a write the sink is still writable. -/
theorem sinkReady_of_writeText (t u : TypewriterEffect) (cs cs1 : List DomNode) (txt : JsString)
    (hwr : writeText cs txt t.options.cursor = some cs1)
    (hel : u.element = some cs1) (hopt : u.options = t.options) :
    sinkReady u = true := by
  unfold sinkReady
  rw [hel, hopt]
  unfold writeText at hwr
  split at hwr
  · simp only [Option.some.injEq] at hwr
    subst hwr
    rfl
  · have hm := insertBefore_mem _ _ _ _ hwr
    cases cs1 with
    | nil => simp at hm
    | cons c rest =>
      cases c with
      | text s => rfl
      | cursor g => simpa using hm
      | other h => simpa using hm

/-! ## The count bound and the rendered scenario -/

/-- C1: the count bound fails on the code.  With `strings: [""]` the state
reached after the pause callback has `currentCharIndex = 1` while the active
string has length 0. -/
theorem count_exceeds_length_on_empty_string :
    Reachable (construct (some []) { strings := some [js ""] }).world
        (fire 0 (construct (some []) { strings := some [js ""] }).world) ∧
      (fire 0 (construct (some []) { strings := some [js ""] }).world).options.strings.get?
        (fire 0 (construct (some []) { strings := some [js ""] }).world).currentStringIndex
          = some (js "") ∧
      (fire 0 (construct (some []) { strings := some [js ""] }).world).currentCharIndex = 1 ∧
      ¬ ((fire 0 (construct (some []) { strings := some [js ""] }).world).currentCharIndex
          ≤ ((js "").length : Int)) := by
  refine ⟨Reachable.fire 0 Reachable.start (by decide), by decide, by decide, by decide⟩

/-- C2: the texts in the sink after construction and after each of the next
twelve steps of the `["Hi", "Yo"]` scenario.  After the first string is deleted
the sink goes from the empty text straight to `"Yo"`, and on the next round
straight to `"Hi"`: the one-character prefix is rendered only while deleting. -/
theorem hiYo_rendered_texts :
    sinkText (construct (some []) hiYo).world ::
        renderedTexts 12 (construct (some []) hiYo).world
      = ([some (js "H"), some (js "Hi"), some (js "Hi"), some (js "H"), some (js ""), some (js ""),
          some (js "Yo"), some (js "Yo"), some (js "Y"), some (js ""), some (js ""), some (js "Hi"), some (js "Hi")] :
          List (Option JsString)) := by
  decide

/-! ## Single steps of `type()` -/

/-- The step that ends typing: the text is written, `isWaiting` is set and the
pause callback is scheduled. -/
theorem type_pause_eq (t : TypewriterEffect) (s : JsString) (cs cs1 : List DomNode)
    (hw : t.isWaiting = false) (hd : t.isDeleting = false)
    (hs : t.options.strings[t.currentStringIndex]? = some s)
    (hc : t.currentCharIndex = (s.length : Int))
    (hel : t.element = some cs)
    (hwr : writeText cs (substring0 s (t.currentCharIndex + 1)) t.options.cursor = some cs1) :
    type t =
      ⟨{ t with element := some cs1, isWaiting := true,
                timers := t.timers ++ [⟨Callback.pauseDone, t.options.delayBetween⟩] }, none⟩ := by
  unfold type
  simp only [hw, hd, hs, hel, hwr, Bool.false_eq_true, if_false]
  simp [hc, setTimeout]

/-- The step that ends deleting: the text is written, `isDeleting` is cleared
and the index advances; the step then stops or counts up and schedules a tick. -/
theorem type_finish_eq (t : TypewriterEffect) (s : JsString) (cs cs1 : List DomNode)
    (hw : t.isWaiting = false) (hd : t.isDeleting = true)
    (hs : t.options.strings[t.currentStringIndex]? = some s)
    (hc : t.currentCharIndex = 0)
    (hel : t.element = some cs)
    (hwr : writeText cs (substring0 s (t.currentCharIndex - 1)) t.options.cursor = some cs1) :
    type t =
      if t.options.loop = false ∧ (t.currentStringIndex + 1) % t.options.strings.length = 0 then
        ⟨{ t with element := some cs1, isDeleting := false,
                  currentStringIndex := (t.currentStringIndex + 1) % t.options.strings.length },
          none⟩
      else
        ⟨{ t with element := some cs1, isDeleting := false,
                  currentStringIndex := (t.currentStringIndex + 1) % t.options.strings.length,
                  currentCharIndex := 1,
                  timers := t.timers ++ [⟨Callback.tick, t.options.typeSpeed⟩] }, none⟩ := by
  unfold type
  simp only [hw, hd, hs, hel, hwr, Bool.false_eq_true, if_false, if_true]
  simp [hc, setTimeout]

/-- Any other non-waiting step: the text is written, the count moves by one and
a tick is scheduled. -/
theorem type_move_eq (t : TypewriterEffect) (s : JsString) (cs cs1 : List DomNode)
    (hw : t.isWaiting = false)
    (hs : t.options.strings[t.currentStringIndex]? = some s)
    (hp : ¬ (t.isDeleting = false ∧ t.currentCharIndex = (s.length : Int)))
    (hf : ¬ (t.isDeleting = true ∧ t.currentCharIndex = 0))
    (hel : t.element = some cs)
    (hwr : writeText cs
        (if t.isDeleting then substring0 s (t.currentCharIndex - 1)
         else substring0 s (t.currentCharIndex + 1)) t.options.cursor = some cs1) :
    type t =
      ⟨{ t with element := some cs1,
                currentCharIndex := t.currentCharIndex + (if t.isDeleting then -1 else 1),
                timers := t.timers ++
                  [⟨Callback.tick,
                    if t.isDeleting then t.options.deleteSpeed else t.options.typeSpeed⟩] },
        none⟩ := by
  unfold type
  simp only [hw, hs, hel, hwr, Bool.false_eq_true, if_false]
  cases hd : t.isDeleting
  · have h1 : ¬ t.currentCharIndex = (s.length : Int) := fun h => hp ⟨hd, h⟩
    simp [hd, h1, setTimeout]
  · have h1 : ¬ t.currentCharIndex = 0 := fun h => hf ⟨hd, h⟩
    simp [hd, h1, setTimeout]

/-- Line 48: while waiting, `type()` returns at once. -/
theorem type_waiting (t : TypewriterEffect) (hw : t.isWaiting = true) :
    type t = ⟨t, none⟩ := by
  unfold type
  rw [if_pos hw]

/-- A call of `type()` that throws leaves the record as it was. -/
theorem type_world_of_thrown (t : TypewriterEffect) (h : (type t).thrown ≠ none) :
    (type t).world = t := by
  cases hw : t.isWaiting with
  | true => simp [type, hw]
  | false =>
    cases hs : t.options.strings[t.currentStringIndex]? with
    | none => simp [type, hw, hs]
    | some s =>
      cases hel : t.element with
      | none => simp [type, hw, hs, hel]
      | some cs =>
        cases hwr : writeText cs
            (if t.isDeleting then substring0 s (t.currentCharIndex - 1)
             else substring0 s (t.currentCharIndex + 1)) t.options.cursor with
        | none => simp [type, hw, hs, hel, hwr]
        | some cs1 =>
          exfalso
          by_cases hp : t.isDeleting = false ∧ t.currentCharIndex = (s.length : Int)
          · have hwr2 := hwr
            simp only [hp.1, Bool.false_eq_true, if_false] at hwr2
            rw [type_pause_eq t s cs cs1 hw hp.1 hs hp.2 hel hwr2] at h
            exact h rfl
          · by_cases hf : t.isDeleting = true ∧ t.currentCharIndex = 0
            · have hwr2 := hwr
              simp only [hf.1, if_true] at hwr2
              rw [type_finish_eq t s cs cs1 hw hf.1 hs hf.2 hel hwr2] at h
              split at h <;> exact h rfl
            · rw [type_move_eq t s cs cs1 hw hs hp hf hel hwr] at h
              exact h rfl

/-- C3: a non-waiting step from a deleting state with count 0, on a valid index
and a writable sink, returns normally with the index advanced by one modulo the
number of strings and `isDeleting` cleared; a non-waiting step from any other
state leaves the index as it was. -/
theorem type_advances_index (t : TypewriterEffect) (hw : t.isWaiting = false) :
    (t.currentStringIndex < t.options.strings.length → sinkReady t = true →
      t.isDeleting = true → t.currentCharIndex = 0 →
        (type t).thrown = none ∧
        (type t).world.currentStringIndex
          = (t.currentStringIndex + 1) % t.options.strings.length ∧
        (type t).world.isDeleting = false) ∧
    (¬ (t.isDeleting = true ∧ t.currentCharIndex = 0) →
        (type t).world.currentStringIndex = t.currentStringIndex) := by
  constructor
  · intro hidx hready hd hc
    obtain ⟨s, hs⟩ : ∃ s, t.options.strings[t.currentStringIndex]? = some s :=
      ⟨_, List.getElem?_eq_getElem hidx⟩
    obtain ⟨cs, cs1, hel, hwr⟩ :=
      writeText_ready t (substring0 s (t.currentCharIndex - 1)) hready
    rw [type_finish_eq t s cs cs1 hw hd hs hc hel hwr]
    split <;> simp
  · intro hne
    by_cases hth : (type t).thrown = none
    swap
    · rw [type_world_of_thrown t hth]
    · cases hs : t.options.strings[t.currentStringIndex]? with
      | none => simp [type, hw, hs, typeError] at hth
      | some s =>
        cases hel : t.element with
        | none => simp [type, hw, hs, hel, typeError] at hth
        | some cs =>
          cases hwr : writeText cs
              (if t.isDeleting then substring0 s (t.currentCharIndex - 1)
               else substring0 s (t.currentCharIndex + 1)) t.options.cursor with
          | none => simp [type, hw, hs, hel, hwr, notFoundError] at hth
          | some cs1 =>
            by_cases hp : t.isDeleting = false ∧ t.currentCharIndex = (s.length : Int)
            · have hwr2 := hwr
              simp only [hp.1, Bool.false_eq_true, if_false] at hwr2
              rw [type_pause_eq t s cs cs1 hw hp.1 hs hp.2 hel hwr2]
            · rw [type_move_eq t s cs cs1 hw hs hp hne hel hwr]

/-- Instances of the two parts of C3: the step after `"Yo"` is deleted moves
the index from 1 to 0, and a typing step at index 0 keeps it. -/
theorem type_advances_index_witness :
    (type { element := some [DomNode.text (js ""), DomNode.cursor "|"]
            options := mkOptions hiYo
            currentStringIndex := 1
            currentCharIndex := 0
            isDeleting := true
            isWaiting := false
            timers := [] }).world.currentStringIndex = (1 + 1) % 2 ∧
    (type { element := some [DomNode.text (js "H"), DomNode.cursor "|"]
            options := mkOptions hiYo
            currentStringIndex := 0
            currentCharIndex := 1
            isDeleting := false
            isWaiting := false
            timers := [] }).world.currentStringIndex = 0 :=
  ⟨((type_advances_index
      { element := some [DomNode.text (js ""), DomNode.cursor "|"]
        options := mkOptions hiYo
        currentStringIndex := 1
        currentCharIndex := 0
        isDeleting := true
        isWaiting := false
        timers := [] } rfl).1 (by decide) (by decide) rfl rfl).2.1,
   (type_advances_index
      { element := some [DomNode.text (js "H"), DomNode.cursor "|"]
        options := mkOptions hiYo
        currentStringIndex := 0
        currentCharIndex := 1
        isDeleting := false
        isWaiting := false
        timers := [] } rfl).2 (by decide)⟩

/-- With no timer pending nothing more happens. -/
theorem reachable_of_no_timer (w u : TypewriterEffect) (hw : w.timers = [])
    (h : Reachable w u) : u = w := by
  induction h with
  | start => rfl
  | fire i _ hi ih =>
    rw [ih, hw] at hi
    simp at hi

/-- A non-waiting deleting step never sets `isWaiting`. -/
theorem type_deleting_not_waiting (u : TypewriterEffect)
    (huw : u.isWaiting = false) (hud : u.isDeleting = true) :
    (type u).world.isWaiting = false := by
  by_cases hth : (type u).thrown = none
  swap
  · rw [type_world_of_thrown u hth, huw]
  · cases hs : u.options.strings[u.currentStringIndex]? with
    | none => simp [type, huw, hs, typeError] at hth
    | some s =>
      cases hel : u.element with
      | none => simp [type, huw, hs, hel, typeError] at hth
      | some cs =>
        cases hwr : writeText cs (substring0 s (u.currentCharIndex - 1)) u.options.cursor with
        | none => simp [type, huw, hs, hel, hud, hwr, notFoundError] at hth
        | some cs1 =>
          by_cases hz : u.currentCharIndex = 0
          · rw [type_finish_eq u s cs cs1 huw hud hs hz hel hwr]
            split <;> exact huw
          · have hwr3 : writeText cs
                (if u.isDeleting then substring0 s (u.currentCharIndex - 1)
                 else substring0 s (u.currentCharIndex + 1)) u.options.cursor = some cs1 := by
              simpa [hud] using hwr
            rw [type_move_eq u s cs cs1 huw hs (by simp [hud]) (fun h => hz h.2) hel hwr3]
            exact huw

/-- A deleting step at a positive count: the count goes down by one and the
next tick is scheduled after `deleteSpeed`. -/
theorem type_deleting_step (u : TypewriterEffect) (s : JsString)
    (huw : u.isWaiting = false) (hud : u.isDeleting = true)
    (hs : u.options.strings[u.currentStringIndex]? = some s)
    (hz : u.currentCharIndex ≠ 0) (hur : sinkReady u = true) :
    (type u).world.isDeleting = true ∧
    (type u).world.currentCharIndex = u.currentCharIndex - 1 ∧
    (type u).world.timers = u.timers ++ [⟨Callback.tick, u.options.deleteSpeed⟩] := by
  obtain ⟨cs, cs1, hel, hwr⟩ :=
    writeText_ready u (substring0 s (u.currentCharIndex - 1)) hur
  have hwr3 : writeText cs
      (if u.isDeleting then substring0 s (u.currentCharIndex - 1)
       else substring0 s (u.currentCharIndex + 1)) u.options.cursor = some cs1 := by
    simpa [hud] using hwr
  rw [type_move_eq u s cs cs1 huw hs (by simp [hud]) (fun h => hz h.2) hel hwr3]
  simp [hud]
  omega

/-- C4: a non-waiting, non-deleting step whose count equals the active string's
length returns with `isWaiting` set, count and index unchanged, and exactly one
new timer: the pause callback with delay `delayBetween`.  Firing that callback
clears `isWaiting`, sets `isDeleting` and runs `type()`, which for a non-empty
string is the first deleting step (count down by one, next tick after
`deleteSpeed`).  Until then `type()` is a no-op and a pending tick that fires
only leaves the pending list. -/
theorem type_enters_pause (t : TypewriterEffect) (s : JsString)
    (hw : t.isWaiting = false) (hd : t.isDeleting = false)
    (hs : t.options.strings[t.currentStringIndex]? = some s)
    (hc : t.currentCharIndex = (s.length : Int))
    (hready : sinkReady t = true) :
    (type t).thrown = none ∧
    (type t).world.isWaiting = true ∧
    (type t).world.isDeleting = false ∧
    (type t).world.currentCharIndex = t.currentCharIndex ∧
    (type t).world.currentStringIndex = t.currentStringIndex ∧
    (type t).world.timers = t.timers ++ [⟨Callback.pauseDone, t.options.delayBetween⟩] ∧
    fire t.timers.length (type t).world
      = (type { (type t).world with
                timers := t.timers, isWaiting := false, isDeleting := true }).world ∧
    (fire t.timers.length (type t).world).isWaiting = false ∧
    (0 < s.length →
      (fire t.timers.length (type t).world).isDeleting = true ∧
      (fire t.timers.length (type t).world).currentCharIndex = (s.length : Int) - 1 ∧
      (fire t.timers.length (type t).world).timers
        = t.timers ++ [⟨Callback.tick, t.options.deleteSpeed⟩]) ∧
    type (type t).world = ⟨(type t).world, none⟩ ∧
    (∀ i d, (type t).world.timers[i]? = some ⟨Callback.tick, d⟩ →
      fire i (type t).world
        = { (type t).world with timers := (type t).world.timers.eraseIdx i }) := by
  obtain ⟨cs, cs1, hel, hwr⟩ :=
    writeText_ready t (substring0 s (t.currentCharIndex + 1)) hready
  have heq := type_pause_eq t s cs cs1 hw hd hs hc hel hwr
  have h1 : (type t).world.isWaiting = true := by rw [heq]
  have h2 : (type t).world.options = t.options := by rw [heq]
  have h3 : (type t).world.currentCharIndex = t.currentCharIndex := by rw [heq]
  have h4 : (type t).world.currentStringIndex = t.currentStringIndex := by rw [heq]
  have h5 : (type t).world.timers
      = t.timers ++ [⟨Callback.pauseDone, t.options.delayBetween⟩] := by rw [heq]
  have h6 : (type t).world.element = some cs1 := by rw [heq]
  have hfire : fire t.timers.length (type t).world
      = (type { (type t).world with
                timers := t.timers, isWaiting := false, isDeleting := true }).world := by
    unfold fire
    rw [h5]
    simp [List.eraseIdx_append_of_length_le]
  rw [hfire]
  refine ⟨by rw [heq], h1, by rw [heq]; exact hd, h3, h4, h5, rfl, ?_, ?_, ?_, ?_⟩
  · exact type_deleting_not_waiting _ rfl rfl
  · intro hpos
    have hstep := type_deleting_step
      { (type t).world with timers := t.timers, isWaiting := false, isDeleting := true } s
      rfl rfl (by show (type t).world.options.strings[(type t).world.currentStringIndex]? = _
                  rw [h2, h4]; exact hs)
      (by show (type t).world.currentCharIndex ≠ 0
          rw [h3, hc]; omega)
      (sinkReady_of_writeText t _ cs cs1 _ hwr h6 h2)
    refine ⟨hstep.1, ?_, ?_⟩
    · rw [hstep.2.1]
      show (type t).world.currentCharIndex - 1 = _
      rw [h3, hc]
    · rw [hstep.2.2]
      show t.timers ++ [⟨Callback.tick, (type t).world.options.deleteSpeed⟩] = _
      rw [h2]
  · exact type_waiting _ h1
  · intro i d hi
    unfold fire
    rw [hi]
    exact congrArg Outcome.world
      (type_waiting { (type t).world with timers := (type t).world.timers.eraseIdx i } h1)

/-- An instance of C4: `"Hi"` fully typed; the step schedules the pause callback
with delay 20, and the callback leaves the count at 1 in deleting mode. -/
theorem type_enters_pause_witness :
    (type { element := some [DomNode.text (js "Hi"), DomNode.cursor "|"]
            options := mkOptions hiYo
            currentStringIndex := 0
            currentCharIndex := 2
            isDeleting := false
            isWaiting := false
            timers := [] }).world.timers = [] ++ [⟨Callback.pauseDone, 20⟩] ∧
    (fire 0 (type { element := some [DomNode.text (js "Hi"), DomNode.cursor "|"]
                    options := mkOptions hiYo
                    currentStringIndex := 0
                    currentCharIndex := 2
                    isDeleting := false
                    isWaiting := false
                    timers := [] }).world).currentCharIndex = 2 - 1 :=
  ⟨(type_enters_pause
      { element := some [DomNode.text (js "Hi"), DomNode.cursor "|"]
        options := mkOptions hiYo
        currentStringIndex := 0
        currentCharIndex := 2
        isDeleting := false
        isWaiting := false
        timers := [] } (js "Hi") rfl rfl (by decide) (by decide) (by decide)).2.2.2.2.2.1,
   ((type_enters_pause
      { element := some [DomNode.text (js "Hi"), DomNode.cursor "|"]
        options := mkOptions hiYo
        currentStringIndex := 0
        currentCharIndex := 2
        isDeleting := false
        isWaiting := false
        timers := [] } (js "Hi") rfl rfl (by decide) (by decide) (by decide)).2.2.2.2.2.2.2.2.1
      (by decide)).2.1⟩

/-- C5: without looping, the step that finishes deleting the last string
returns with the index wrapped to 0 and the count still 0, writes the empty
text and schedules nothing.  When no other timer was pending the state then
reached has none at all, so no later state differs from it. -/
theorem type_stops_after_last_string (t : TypewriterEffect)
    (hloop : t.options.loop = false) (hw : t.isWaiting = false)
    (hd : t.isDeleting = true) (hc : t.currentCharIndex = 0)
    (hne : t.options.strings ≠ [])
    (hidx : t.currentStringIndex = t.options.strings.length - 1)
    (hready : sinkReady t = true) :
    (type t).thrown = none ∧
    (type t).world.currentStringIndex = 0 ∧
    (type t).world.currentCharIndex = 0 ∧
    (type t).world.isDeleting = false ∧
    (type t).world.isWaiting = false ∧
    (type t).world.timers = t.timers ∧
    (∃ cs cs1, t.element = some cs ∧ writeText cs (js "") t.options.cursor = some cs1 ∧
      (type t).world.element = some cs1) ∧
    (t.timers = [] → ∀ u, Reachable (type t).world u → u = (type t).world) := by
  have hlen : 0 < t.options.strings.length := List.length_pos.mpr hne
  have hlt : t.currentStringIndex < t.options.strings.length := by omega
  obtain ⟨s, hs⟩ : ∃ s, t.options.strings[t.currentStringIndex]? = some s :=
    ⟨_, List.getElem?_eq_getElem hlt⟩
  obtain ⟨cs, cs1, hel, hwr⟩ :=
    writeText_ready t (substring0 s (t.currentCharIndex - 1)) hready
  have hwrap : (t.currentStringIndex + 1) % t.options.strings.length = 0 := by
    rw [hidx, Nat.sub_add_cancel hlen, Nat.mod_self]
  have hempty : substring0 s (t.currentCharIndex - 1) = js "" := by
    rw [hc]
    rfl
  have heq := type_finish_eq t s cs cs1 hw hd hs hc hel hwr
  rw [if_pos ⟨hloop, hwrap⟩] at heq
  have htm : (type t).world.timers = t.timers := by rw [heq]
  refine ⟨by rw [heq], by rw [heq]; exact hwrap, by rw [heq]; exact hc, by rw [heq],
    by rw [heq]; exact hw, htm, ⟨cs, cs1, hel, by rw [← hempty]; exact hwr, by rw [heq]⟩, ?_⟩
  intro hnil u hu
  exact reachable_of_no_timer _ u (by rw [htm, hnil]) hu

/-- An instance of C5: `"Yo"` fully deleted with `loop: false`; no timer is
pending after the step and firing changes nothing. -/
theorem type_stops_after_last_string_witness :
    (type { element := some [DomNode.text (js ""), DomNode.cursor "|"]
            options := { mkOptions hiYo with loop := false }
            currentStringIndex := 1
            currentCharIndex := 0
            isDeleting := true
            isWaiting := false
            timers := [] }).world.timers = [] ∧
    ∀ u, Reachable
        (type { element := some [DomNode.text (js ""), DomNode.cursor "|"]
                options := { mkOptions hiYo with loop := false }
                currentStringIndex := 1
                currentCharIndex := 0
                isDeleting := true
                isWaiting := false
                timers := [] }).world u →
      u = (type { element := some [DomNode.text (js ""), DomNode.cursor "|"]
                  options := { mkOptions hiYo with loop := false }
                  currentStringIndex := 1
                  currentCharIndex := 0
                  isDeleting := true
                  isWaiting := false
                  timers := [] }).world :=
  ⟨(type_stops_after_last_string
      { element := some [DomNode.text (js ""), DomNode.cursor "|"]
        options := { mkOptions hiYo with loop := false }
        currentStringIndex := 1
        currentCharIndex := 0
        isDeleting := true
        isWaiting := false
        timers := [] } rfl rfl rfl rfl (by decide) (by decide) (by decide)).2.2.2.2.2.1,
   (type_stops_after_last_string
      { element := some [DomNode.text (js ""), DomNode.cursor "|"]
        options := { mkOptions hiYo with loop := false }
        currentStringIndex := 1
        currentCharIndex := 0
        isDeleting := true
        isWaiting := false
        timers := [] } rfl rfl rfl rfl (by decide) (by decide) (by decide)).2.2.2.2.2.2.2 rfl⟩

/-! ## Construction -/

/-- C6, as stated, fails: with an empty `strings` list the constructor throws,
but the error is the `TypeError` of `undefined.substring` in `type()`. -/
theorem construct_empty_strings_error_name :
    (construct (some []) { strings := some [] }).thrown = some ⟨"TypeError"⟩ ∧
    (construct (some []) { strings := some [] }).thrown ≠ some ⟨"ConfigurationError"⟩ := by
  decide

/-- C6, amended: constructing with a non-null element and `strings: []` throws
a `TypeError` to the caller, and no timer is scheduled. -/
theorem construct_empty_strings_throws (cs : List DomNode) (o : RawOptions)
    (h : o.strings = some []) :
    (construct (some cs) o).thrown = some typeError ∧
    (construct (some cs) o).world.timers = [] := by
  simp [construct, init, type, addCursor, mkOptions, spread, h]

/-- An instance of C6 as amended, on a sink holding the text `hello`. -/
theorem construct_empty_strings_throws_witness :
    (construct (some [DomNode.text (js "hello")]) { strings := some [] }).thrown = some typeError ∧
    (construct (some [DomNode.text (js "hello")]) { strings := some [] }).world.timers = [] :=
  construct_empty_strings_throws [DomNode.text (js "hello")] { strings := some [] } rfl

/-- C7, as stated, fails: with a null element the constructor returns normally. -/
theorem construct_null_element_no_error :
    (construct none hiYo).thrown = none := by
  decide

/-- C7, amended: with a null element the constructor throws nothing, for every
configuration; it returns the initial state, with no sink and no timer. -/
theorem construct_null_element (o : RawOptions) :
    construct none o =
      ⟨{ element := none
         options := mkOptions o
         currentStringIndex := 0
         currentCharIndex := 0
         isDeleting := false
         isWaiting := false
         timers := [] }, none⟩ := by
  rfl

/-- C8, as stated, fails: the construction with `strings: []` on a sink holding
the text `hello` throws, and the sink then holds the cursor span alone. -/
theorem construct_failure_mutates_sink :
    (construct (some [DomNode.text (js "hello")]) { strings := some [] }).thrown ≠ none ∧
    (construct (some [DomNode.text (js "hello")]) { strings := some [] }).world.element
      = some [DomNode.cursor "|"] ∧
    (construct (some [DomNode.text (js "hello")]) { strings := some [] }).world.element
      ≠ some [DomNode.text (js "hello")] := by
  decide

/-- C8, amended: whenever the constructor throws, no timer has been scheduled
and the engine is in its initial state, while the sink, which was non-null,
has been emptied and holds the cursor span alone. -/
theorem construct_failure_state (el : Option (List DomNode)) (o : RawOptions)
    (h : (construct el o).thrown ≠ none) :
    (construct el o).world.timers = [] ∧
    el ≠ none ∧
    (construct el o).world.element = some [DomNode.cursor (mkOptions o).cursor] ∧
    (construct el o).world.currentStringIndex = 0 ∧
    (construct el o).world.currentCharIndex = 0 ∧
    (construct el o).world.isDeleting = false ∧
    (construct el o).world.isWaiting = false := by
  cases el with
  | none => exact absurd rfl h
  | some cs =>
    have hc : construct (some cs) o
        = type { element := some [DomNode.cursor (mkOptions o).cursor]
                 options := mkOptions o
                 currentStringIndex := 0
                 currentCharIndex := 0
                 isDeleting := false
                 isWaiting := false
                 timers := [] } := rfl
    rw [hc] at h ⊢
    rw [type_world_of_thrown _ h]
    simp

/-- An instance of C8 as amended: the failed construction with `strings: []`. -/
theorem construct_failure_state_witness :
    (construct (some [DomNode.text (js "hello")]) { strings := some [] }).world.timers = [] :=
  (construct_failure_state (some [DomNode.text (js "hello")]) { strings := some [] }
    (by decide)).1

/-- C9, as stated, fails: with `typeSpeed: 0` and `deleteSpeed: -5` the
constructor returns normally, the first step is performed and the next one is
scheduled with delay 0. -/
theorem construct_nonpositive_speed_no_error :
    (construct (some []) { strings := some [js "Hi"], typeSpeed := some 0,
                           deleteSpeed := some (-5) }).thrown = none ∧
    (construct (some []) { strings := some [js "Hi"], typeSpeed := some 0,
                           deleteSpeed := some (-5) }).world.currentCharIndex = 1 ∧
    (construct (some []) { strings := some [js "Hi"], typeSpeed := some 0,
                           deleteSpeed := some (-5) }).world.timers = [⟨Callback.tick, 0⟩] := by
  decide

/-- C9, amended: the speeds are not validated.  For a non-null element, a
non-empty effective `strings` list and any given `typeSpeed` and `deleteSpeed`,
zero and negative included, the constructor returns normally with both values
kept as given, having written the first text and scheduled one timer: the
pause callback when the first string is empty, else a tick after `typeSpeed`. -/
theorem construct_accepts_any_speed (cs : List DomNode) (o : RawOptions)
    (s : JsString) (rest : List JsString) (v d : Int)
    (hstr : (mkOptions o).strings = s :: rest)
    (hv : o.typeSpeed = some v) (hd : o.deleteSpeed = some d) :
    (construct (some cs) o).thrown = none ∧
    (construct (some cs) o).world.options.typeSpeed = v ∧
    (construct (some cs) o).world.options.deleteSpeed = d ∧
    sinkText (construct (some cs) o).world = some (substring0 s 1) ∧
    (construct (some cs) o).world.timers
      = [if s.length = 0 then ⟨Callback.pauseDone, (mkOptions o).delayBetween⟩
         else ⟨Callback.tick, v⟩] := by
  have hc : construct (some cs) o
      = type { element := some [DomNode.cursor (mkOptions o).cursor]
               options := mkOptions o
               currentStringIndex := 0
               currentCharIndex := 0
               isDeleting := false
               isWaiting := false
               timers := [] } := rfl
  have hts : (mkOptions o).typeSpeed = v := by simp [mkOptions, spread, hv]
  have hds : (mkOptions o).deleteSpeed = d := by simp [mkOptions, spread, hd]
  have hs : (mkOptions o).strings[0]? = some s := by rw [hstr]; simp
  have hwr : writeText [DomNode.cursor (mkOptions o).cursor] (substring0 s (0 + 1))
      (mkOptions o).cursor
        = some [DomNode.text (substring0 s 1), DomNode.cursor (mkOptions o).cursor] := by
    simp [writeText, insertBefore]
  rw [hc]
  by_cases hlen : s.length = 0
  · rw [type_pause_eq _ s _ _ rfl rfl hs (by simp [hlen]) rfl hwr]
    simp [hts, hds, hlen, sinkText]
  · rw [type_move_eq _ s _ _ rfl hs (by simp; omega) (by simp) rfl hwr]
    simp [hts, hds, hlen, sinkText]

/-- An instance of C9 as amended, with speeds 0 and -5. -/
theorem construct_accepts_any_speed_witness :
    (construct (some []) { strings := some [js "Hi"], typeSpeed := some 0,
                           deleteSpeed := some (-5) }).thrown = none :=
  (construct_accepts_any_speed []
    { strings := some [js "Hi"], typeSpeed := some 0, deleteSpeed := some (-5) }
    (js "Hi") [] 0 (-5) rfl rfl rfl).1

/-! ## `destroy()` -/

/-- On a writable sink the engine fields and timers after `type()` do not
depend on what the sink holds. -/
theorem type_engineState_congr (a b : TypewriterEffect)
    (h : engineState a = engineState b)
    (ha : sinkReady a = true) (hb : sinkReady b = true) :
    engineState (type a).world = engineState (type b).world := by
  simp only [engineState, Prod.mk.injEq] at h
  obtain ⟨ho, hi, hc, hd, hw, ht⟩ := h
  cases hwa : a.isWaiting with
  | true =>
    rw [type_waiting a hwa, type_waiting b (hw ▸ hwa)]
    simp [engineState, ho, hi, hc, hd, hw, ht]
  | false =>
    have hwb : b.isWaiting = false := hw ▸ hwa
    cases hs : a.options.strings[a.currentStringIndex]? with
    | none =>
      have hsb : b.options.strings[b.currentStringIndex]? = none := by rw [← ho, ← hi]; exact hs
      have e1 : type a = ⟨a, some typeError⟩ := by simp [type, hwa, hs]
      have e2 : type b = ⟨b, some typeError⟩ := by simp [type, hwb, hsb]
      rw [e1, e2]
      simp [engineState, ho, hi, hc, hd, hw, ht]
    | some s =>
      have hsb : b.options.strings[b.currentStringIndex]? = some s := by rw [← ho, ← hi]; exact hs
      obtain ⟨cs, cs1, hel, hwr⟩ := writeText_ready a
        (if a.isDeleting then substring0 s (a.currentCharIndex - 1)
         else substring0 s (a.currentCharIndex + 1)) ha
      obtain ⟨ds, ds1, hel2, hwr2⟩ := writeText_ready b
        (if b.isDeleting then substring0 s (b.currentCharIndex - 1)
         else substring0 s (b.currentCharIndex + 1)) hb
      by_cases hp : a.isDeleting = false ∧ a.currentCharIndex = (s.length : Int)
      · have hpb : b.isDeleting = false ∧ b.currentCharIndex = (s.length : Int) := by
          rw [← hd, ← hc]; exact hp
        simp only [hp.1, Bool.false_eq_true, if_false] at hwr
        simp only [hpb.1, Bool.false_eq_true, if_false] at hwr2
        rw [type_pause_eq a s cs cs1 hwa hp.1 hs hp.2 hel hwr,
          type_pause_eq b s ds ds1 hwb hpb.1 hsb hpb.2 hel2 hwr2]
        simp [engineState, ho, hi, hc, hd, ht]
      · have hpb : ¬ (b.isDeleting = false ∧ b.currentCharIndex = (s.length : Int)) := by
          rw [← hd, ← hc]; exact hp
        by_cases hf : a.isDeleting = true ∧ a.currentCharIndex = 0
        · have hfb : b.isDeleting = true ∧ b.currentCharIndex = 0 := by
            rw [← hd, ← hc]; exact hf
          simp only [hf.1, if_true] at hwr
          simp only [hfb.1, if_true] at hwr2
          rw [type_finish_eq a s cs cs1 hwa hf.1 hs hf.2 hel hwr,
            type_finish_eq b s ds ds1 hwb hfb.1 hsb hfb.2 hel2 hwr2]
          rw [← ho, ← hi, ← ht]
          split <;> simp [engineState, hc, hw]
        · have hfb : ¬ (b.isDeleting = true ∧ b.currentCharIndex = 0) := by
            rw [← hd, ← hc]; exact hf
          rw [type_move_eq a s cs cs1 hwa hs hp hf hel hwr,
            type_move_eq b s ds ds1 hwb hsb hpb hfb hel2 hwr2]
          simp [engineState, ho, hi, hc, hd, hw, ht]

/-- C10, as stated, fails: after `destroy()` on the running `["Hi", "Yo"]`
engine the tick scheduled by the constructor is still pending; when it fires
the count moves from 1 to 2, and two timers later the sink text has changed
from `"Hi"` to `"H"`. -/
theorem destroy_leaves_engine_running :
    (destroy parsePlain (construct (some []) hiYo).world).timers = [⟨Callback.tick, 10⟩] ∧
    (destroy parsePlain (construct (some []) hiYo).world).currentCharIndex = 1 ∧
    (fire 0 (destroy parsePlain (construct (some []) hiYo).world)).currentCharIndex = 2 ∧
    sinkText (destroy parsePlain (construct (some []) hiYo).world) = some (js "Hi") ∧
    sinkText (run 3 (destroy parsePlain (construct (some []) hiYo).world)) = some (js "H") := by
  decide

/-- C10, amended: `destroy()` cancels nothing.  The pending timers and the
engine's options, index, count and flags are the same after the call as before
it; and when the sink is writable both before and after the reset, a pending
timer that fires after `destroy()` updates index, count, flags and pending
timers exactly as it would have without the call. -/
theorem destroy_cancels_nothing (parse : JsString → List DomNode) (t : TypewriterEffect) :
    (destroy parse t).timers = t.timers ∧
    engineState (destroy parse t) = engineState t ∧
    (∀ i, sinkReady t = true → sinkReady (destroy parse t) = true →
      engineState (fire i (destroy parse t)) = engineState (fire i t)) := by
  have he : engineState (destroy parse t) = engineState t := by
    unfold destroy
    split <;> rfl
  have ht : (destroy parse t).timers = t.timers := by
    unfold destroy
    split <;> rfl
  refine ⟨ht, he, ?_⟩
  intro i hr hrd
  simp only [engineState, Prod.mk.injEq] at he
  obtain ⟨ho, hi, hc, hd, hw, _⟩ := he
  unfold fire
  rw [ht]
  cases hti : t.timers[i]? with
  | none => simp [engineState, ho, hi, hc, hd, hw, ht]
  | some tm =>
    cases htc : tm.callback with
    | tick =>
      simp only [htc]
      apply type_engineState_congr
      · simp [engineState, ho, hi, hc, hd, hw]
      · exact hrd
      · exact hr
    | pauseDone =>
      simp only [htc]
      apply type_engineState_congr
      · simp [engineState, ho, hi, hc]
      · exact hrd
      · exact hr

/-- An instance of C10 as amended: on the running `["Hi", "Yo"]` engine the tick
pending across `destroy()` moves the engine as it would have without it. -/
theorem destroy_cancels_nothing_witness :
    (destroy parsePlain (construct (some []) hiYo).world).timers
      = (construct (some []) hiYo).world.timers ∧
    engineState (fire 0 (destroy parsePlain (construct (some []) hiYo).world))
      = engineState (fire 0 (construct (some []) hiYo).world) :=
  ⟨(destroy_cancels_nothing parsePlain (construct (some []) hiYo).world).1,
   (destroy_cancels_nothing parsePlain (construct (some []) hiYo).world).2.2 0
      (by decide) (by decide)⟩

/-! ## Case analysis of a step -/

/-- Every call of `type()` is of one of five kinds: the no-op while waiting, a
throw that changes nothing, the step into the pause, the step that finishes
deleting, or a step that moves the count by one. -/
theorem type_cases (t : TypewriterEffect) :
    (t.isWaiting = true ∧ type t = ⟨t, none⟩) ∨
    (t.isWaiting = false ∧ ∃ e, type t = ⟨t, some e⟩ ∧
      (t.options.strings[t.currentStringIndex]? = none ∨ sinkReady t = false)) ∨
    (∃ s cs cs1, t.isWaiting = false ∧ t.isDeleting = false ∧
      t.options.strings[t.currentStringIndex]? = some s ∧
      t.currentCharIndex = (s.length : Int) ∧ t.element = some cs ∧
      writeText cs (substring0 s (t.currentCharIndex + 1)) t.options.cursor = some cs1 ∧
      type t =
        ⟨{ t with element := some cs1, isWaiting := true,
                  timers := t.timers ++ [⟨Callback.pauseDone, t.options.delayBetween⟩] },
          none⟩) ∨
    (∃ s cs cs1, t.isWaiting = false ∧ t.isDeleting = true ∧
      t.options.strings[t.currentStringIndex]? = some s ∧
      t.currentCharIndex = 0 ∧ t.element = some cs ∧
      writeText cs (substring0 s (t.currentCharIndex - 1)) t.options.cursor = some cs1 ∧
      type t =
        if t.options.loop = false ∧
            (t.currentStringIndex + 1) % t.options.strings.length = 0 then
          ⟨{ t with element := some cs1, isDeleting := false,
                    currentStringIndex :=
                      (t.currentStringIndex + 1) % t.options.strings.length },
            none⟩
        else
          ⟨{ t with element := some cs1, isDeleting := false,
                    currentStringIndex :=
                      (t.currentStringIndex + 1) % t.options.strings.length,
                    currentCharIndex := 1,
                    timers := t.timers ++ [⟨Callback.tick, t.options.typeSpeed⟩] }, none⟩) ∨
    (∃ s cs cs1, t.isWaiting = false ∧
      t.options.strings[t.currentStringIndex]? = some s ∧
      ¬ (t.isDeleting = false ∧ t.currentCharIndex = (s.length : Int)) ∧
      ¬ (t.isDeleting = true ∧ t.currentCharIndex = 0) ∧ t.element = some cs ∧
      writeText cs
        (if t.isDeleting then substring0 s (t.currentCharIndex - 1)
         else substring0 s (t.currentCharIndex + 1)) t.options.cursor = some cs1 ∧
      type t =
        ⟨{ t with element := some cs1,
                  currentCharIndex := t.currentCharIndex + (if t.isDeleting then -1 else 1),
                  timers := t.timers ++
                    [⟨Callback.tick,
                      if t.isDeleting then t.options.deleteSpeed else t.options.typeSpeed⟩] },
          none⟩) := by
  rcases Bool.eq_false_or_eq_true t.isWaiting with hw | hw
  · exact Or.inl ⟨hw, type_waiting t hw⟩
  · right
    cases hs : t.options.strings[t.currentStringIndex]? with
    | none =>
      exact Or.inl ⟨hw, typeError, by simp [type, hw, hs], Or.inl rfl⟩
    | some s =>
      cases hel : t.element with
      | none =>
        exact Or.inl ⟨hw, typeError, by simp [type, hw, hs, hel],
          Or.inr (by simp [sinkReady, hel])⟩
      | some cs =>
        cases hwr : writeText cs
            (if t.isDeleting then substring0 s (t.currentCharIndex - 1)
             else substring0 s (t.currentCharIndex + 1)) t.options.cursor with
        | none =>
          refine Or.inl ⟨hw, notFoundError, by simp [type, hw, hs, hel, hwr], Or.inr ?_⟩
          have h := writeText_isSome t cs
            (if t.isDeleting then substring0 s (t.currentCharIndex - 1)
             else substring0 s (t.currentCharIndex + 1)) hel
          rw [hwr] at h
          simpa using h.symm
        | some cs1 =>
          right
          by_cases hp : t.isDeleting = false ∧ t.currentCharIndex = (s.length : Int)
          · have hwr2 := hwr
            simp only [hp.1, Bool.false_eq_true, if_false] at hwr2
            exact Or.inl ⟨s, cs, cs1, hw, hp.1, rfl, hp.2, rfl, hwr2,
              type_pause_eq t s cs cs1 hw hp.1 hs hp.2 hel hwr2⟩
          · by_cases hf : t.isDeleting = true ∧ t.currentCharIndex = 0
            · have hwr2 := hwr
              simp only [hf.1, if_true] at hwr2
              exact Or.inr (Or.inl ⟨s, cs, cs1, hw, hf.1, rfl, hf.2, rfl, hwr2,
                type_finish_eq t s cs cs1 hw hf.1 hs hf.2 hel hwr2⟩)
            · exact Or.inr (Or.inr ⟨s, cs, cs1, hw, rfl, hp, hf, rfl, hwr,
                type_move_eq t s cs cs1 hw hs hp hf hel hwr⟩)

/-- The worlds of `fire` and `fireOutcome` agree. -/
theorem fire_eq_fireOutcome (i : Nat) (t : TypewriterEffect) :
    fire i t = (fireOutcome i t).world := by
  unfold fire fireOutcome
  cases t.timers[i]? with
  | none => rfl
  | some tm =>
    obtain ⟨cb, d⟩ := tm
    cases cb <;> rfl

/-- A call of `type()` never changes the options. -/
theorem type_options (t : TypewriterEffect) : (type t).world.options = t.options := by
  rcases type_cases t with ⟨_, h⟩ | ⟨_, e, h, _⟩ | ⟨s, cs, cs1, _, _, _, _, _, _, h⟩ |
    ⟨s, cs, cs1, _, _, _, _, _, _, h⟩ | ⟨s, cs, cs1, _, _, _, _, _, _, h⟩
  · rw [h]
  · rw [h]
  · rw [h]
  · rw [h]; split <;> rfl
  · rw [h]

/-- On a valid index and a writable sink `type()` returns normally, and index
and sink stay valid and writable. -/
theorem type_ok_of_ready (t : TypewriterEffect)
    (hidx : t.currentStringIndex < t.options.strings.length)
    (hready : sinkReady t = true) :
    (type t).thrown = none ∧
    (type t).world.currentStringIndex < (type t).world.options.strings.length ∧
    sinkReady (type t).world = true := by
  have hpos : 0 < t.options.strings.length := by omega
  rcases type_cases t with ⟨_, h⟩ | ⟨_, e, h, hbad⟩ | ⟨s, cs, cs1, _, _, _, _, _, hwr, h⟩ |
    ⟨s, cs, cs1, _, _, _, _, _, hwr, h⟩ | ⟨s, cs, cs1, _, _, _, _, _, hwr, h⟩
  · rw [h]; exact ⟨rfl, hidx, hready⟩
  · exfalso
    rcases hbad with hb | hb
    · rw [List.getElem?_eq_getElem hidx] at hb
      exact absurd hb (by simp)
    · rw [hready] at hb
      exact absurd hb (by simp)
  · rw [h]
    exact ⟨rfl, hidx, sinkReady_of_writeText t _ cs cs1 _ hwr rfl rfl⟩
  · rw [h]
    split
    · exact ⟨rfl, Nat.mod_lt _ hpos, sinkReady_of_writeText t _ cs cs1 _ hwr rfl rfl⟩
    · exact ⟨rfl, Nat.mod_lt _ hpos, sinkReady_of_writeText t _ cs cs1 _ hwr rfl rfl⟩
  · rw [h]
    exact ⟨rfl, hidx, sinkReady_of_writeText t _ cs cs1 _ hwr rfl rfl⟩

/-- A call of `type()` never leaves both flags set when they were not both set. -/
theorem type_flags_exclusive (t : TypewriterEffect)
    (hx : ¬ (t.isWaiting = true ∧ t.isDeleting = true)) :
    ¬ ((type t).world.isWaiting = true ∧ (type t).world.isDeleting = true) := by
  rcases type_cases t with ⟨_, h⟩ | ⟨_, e, h, _⟩ | ⟨s, cs, cs1, _, hd, _, _, _, _, h⟩ |
    ⟨s, cs, cs1, hw, _, _, _, _, _, h⟩ | ⟨s, cs, cs1, hw, _, _, _, _, _, h⟩
  · rw [h]; exact hx
  · rw [h]; exact hx
  · rw [h]; simp [hd]
  · rw [h]; split <;> simp [hw]
  · rw [h]; simp [hw]

/-- The unparsed-markup parser never yields the engine's cursor span. -/
theorem parsePlain_no_cursor (s : JsString) (g : String) : DomNode.cursor g ∉ parsePlain s := by
  unfold parsePlain
  split
  · simp
  · split <;> simp

/-! ## `destroy()`, continued -/

/-- C11: `destroy()` is idempotent.  For every engine state, sink content and
pending timers, a second call leaves the whole record (engine fields, sink,
timers) as the first call left it; the method has no throwing path. -/
theorem destroy_idempotent (parse : JsString → List DomNode) (t : TypewriterEffect) :
    destroy parse (destroy parse t) = destroy parse t := by
  unfold destroy
  cases hel : t.element with
  | none => simp [hel]
  | some cs => simp

/-- C12, as stated, fails: with `strings: ["<b>x"]` and a non-null element the
sink after `destroy()` holds what the `innerHTML` setter parses from `<b>x`, a
node that is not text, and not the non-empty string `strings[0]` itself. -/
theorem destroy_markup_not_text :
    (construct (some []) { strings := some [js "<b>x"] }).world.element
      = some [DomNode.text (js "<"), DomNode.cursor "|"] ∧
    (construct (some []) { strings := some [js "<b>x"] }).world.options.strings[0]?
      = some (js "<b>x") ∧
    (destroy parsePlain (construct (some []) { strings := some [js "<b>x"] }).world).element
      = some [DomNode.other (js "<b>x")] ∧
    sinkText (destroy parsePlain (construct (some []) { strings := some [js "<b>x"] }).world)
      ≠ some (js "<b>x") := by
  decide

/-- C12, amended: on a non-null element `destroy()` sets the sink's content to
what the `innerHTML` setter parses from `strings[0]`: the one text node
`strings[0]` when that is a non-empty string free of markup, and no child when
`strings[0]` is the empty string or absent; the cursor span is not among the
children afterwards, and index, count and flags are as before. -/
theorem destroy_resets_sink (t : TypewriterEffect)
    (cs : List DomNode) (hel : t.element = some cs) :
    (∀ s, t.options.strings[0]? = some s → s ≠ js "" → markupFree s = true →
      (destroy parsePlain t).element = some [DomNode.text s] ∧
      sinkText (destroy parsePlain t) = some s) ∧
    (t.options.strings[0]? = none ∨ t.options.strings[0]? = some (js "") →
      (destroy parsePlain t).element = some []) ∧
    (∀ children, (destroy parsePlain t).element = some children →
      DomNode.cursor t.options.cursor ∉ children) ∧
    (destroy parsePlain t).currentStringIndex = t.currentStringIndex ∧
    (destroy parsePlain t).currentCharIndex = t.currentCharIndex ∧
    (destroy parsePlain t).isDeleting = t.isDeleting ∧
    (destroy parsePlain t).isWaiting = t.isWaiting := by
  have hd : destroy parsePlain t = { t with
      element := some (parsePlain (orDefault (fun s => s == js "") t.options.strings.head? (js ""))) } := by
    unfold destroy
    rw [hel]
  rw [hd]
  refine ⟨?_, ?_, ?_, rfl, rfl, rfl, rfl⟩
  · intro s hs hne hfree
    cases hstr : t.options.strings with
    | nil => simp [hstr] at hs
    | cons s0 rest =>
      simp only [hstr, List.getElem?_cons_zero, Option.some.injEq] at hs
      subst hs
      simp [sinkText, orDefault, parsePlain, hne, hfree]
  · intro h
    cases hstr : t.options.strings with
    | nil => simp [orDefault, parsePlain]
    | cons s0 rest =>
      rcases h with h | h
      · simp [hstr] at h
      · simp only [hstr, List.getElem?_cons_zero, Option.some.injEq] at h
        subst h
        simp [orDefault, parsePlain]
  · intro children hch
    simp only [Option.some.injEq] at hch
    rw [← hch]
    exact parsePlain_no_cursor _ _

/-- An instance of C12: `destroy()` on the running `["Hi", "Yo"]` engine, whose
sink holds the text `H` and the cursor span, leaves the text `Hi` alone. -/
theorem destroy_resets_sink_witness :
    (construct (some []) hiYo).world.element = some [DomNode.text (js "H"), DomNode.cursor "|"] ∧
    (destroy parsePlain (construct (some []) hiYo).world).element
      = some [DomNode.text (js "Hi")] ∧
    sinkText (destroy parsePlain (construct (some []) hiYo).world)
      = some (js "Hi") ∧
    (destroy parsePlain (construct (some []) hiYo).world).currentCharIndex = 1 :=
  ⟨by decide,
   ((destroy_resets_sink (construct (some []) hiYo).world
      [DomNode.text (js "H"), DomNode.cursor "|"] (by decide)).1
        (js "Hi") (by decide) (by decide) (by decide)).1,
   ((destroy_resets_sink (construct (some []) hiYo).world
      [DomNode.text (js "H"), DomNode.cursor "|"] (by decide)).1
        (js "Hi") (by decide) (by decide) (by decide)).2,
   (destroy_resets_sink (construct (some []) hiYo).world
      [DomNode.text (js "H"), DomNode.cursor "|"] (by decide)).2.2.2.2.1⟩

/-! ## Effective configuration -/

/-- C13: each of the six effective options is the default when the caller's
record lacks the key and the caller's value when the record holds it; the
engine built by the constructor carries exactly these options. -/
theorem effective_options (el : Option (List DomNode)) (o : RawOptions) :
    mkOptions o =
      { strings := o.strings.getD [js "Web Developer", js "Designer", js "Storyteller"]
        typeSpeed := o.typeSpeed.getD 100
        deleteSpeed := o.deleteSpeed.getD 50
        delayBetween := o.delayBetween.getD 2000
        loop := o.loop.getD true
        cursor := o.cursor.getD "|" } ∧
    (construct el o).world.options = mkOptions o := by
  constructor
  · obtain ⟨a, b, c, d, e, f⟩ := o
    cases a <;> cases b <;> cases c <;> cases d <;> cases e <;> cases f <;>
      simp [mkOptions, spread, orDefault, defaultStrings]
  · cases el with
    | none => rfl
    | some cs =>
      have hc : construct (some cs) o
          = type { element := some [DomNode.cursor (mkOptions o).cursor]
                   options := mkOptions o
                   currentStringIndex := 0
                   currentCharIndex := 0
                   isDeleting := false
                   isWaiting := false
                   timers := [] } := rfl
      rw [hc, type_options]

/-! ## Steps, continued -/

/-- C14: the written length and the new count differ on the code.  In the
`["Hi", "Yo"]` scenario the fifth timer fires in the deleting state with count
0: the step writes the empty text, of length 0, and leaves `currentCharIndex`
at 1 on the next string. -/
theorem advance_step_length_mismatch :
    (run 4 (construct (some []) hiYo).world).isDeleting = true ∧
    (run 4 (construct (some []) hiYo).world).isWaiting = false ∧
    (run 4 (construct (some []) hiYo).world).currentCharIndex = 0 ∧
    sinkText (run 5 (construct (some []) hiYo).world) = some (js "") ∧
    (run 5 (construct (some []) hiYo).world).currentStringIndex = 1 ∧
    (run 5 (construct (some []) hiYo).world).currentCharIndex = 1 ∧
    (((js "").length : Int) ≠ (run 5 (construct (some []) hiYo).world).currentCharIndex) := by
  decide

/-- C15: while `isWaiting` is set, `type()` returns at once without throwing:
index, count, both flags, the sink and the pending timers are as before. -/
theorem type_noop_while_waiting (t : TypewriterEffect) (hw : t.isWaiting = true) :
    (type t).thrown = none ∧
    (type t).world.currentStringIndex = t.currentStringIndex ∧
    (type t).world.currentCharIndex = t.currentCharIndex ∧
    (type t).world.isDeleting = t.isDeleting ∧
    (type t).world.isWaiting = t.isWaiting ∧
    (type t).world.element = t.element ∧
    (type t).world.timers = t.timers ∧
    (type t).world = t := by
  rw [type_waiting t hw]
  exact ⟨rfl, rfl, rfl, rfl, rfl, rfl, rfl, rfl⟩

/-- An instance of C15: the paused `["Hi", "Yo"]` engine, `"Hi"` fully typed. -/
theorem type_noop_while_waiting_witness :
    (type (run 2 (construct (some []) hiYo).world)).world
      = run 2 (construct (some []) hiYo).world :=
  (type_noop_while_waiting (run 2 (construct (some []) hiYo).world)
    (by decide)).2.2.2.2.2.2.2

/-- C16: a non-waiting step on a valid index and a writable sink that neither
enters the pause nor stops adds exactly one timer, a tick, whose delay is
`deleteSpeed` when `isDeleting` holds after the step and `typeSpeed` otherwise;
the step that finishes deleting schedules its tick after `typeSpeed`. -/
theorem type_schedules_next (t : TypewriterEffect) (s : JsString)
    (hw : t.isWaiting = false)
    (hs : t.options.strings[t.currentStringIndex]? = some s)
    (hready : sinkReady t = true)
    (hpause : ¬ (t.isDeleting = false ∧ t.currentCharIndex = (s.length : Int)))
    (hstop : ¬ (t.isDeleting = true ∧ t.currentCharIndex = 0 ∧ t.options.loop = false ∧
      (t.currentStringIndex + 1) % t.options.strings.length = 0)) :
    (type t).thrown = none ∧
    (type t).world.timers = t.timers ++
      [⟨Callback.tick,
        if (type t).world.isDeleting then t.options.deleteSpeed else t.options.typeSpeed⟩] ∧
    (t.isDeleting = true → t.currentCharIndex = 0 →
      (type t).world.timers = t.timers ++ [⟨Callback.tick, t.options.typeSpeed⟩]) := by
  rcases type_cases t with ⟨hw2, _⟩ | ⟨_, e, _, hbad⟩ | ⟨s2, cs, cs1, _, hd, hs2, hc, _, _, _⟩ |
    ⟨s2, cs, cs1, _, hd, hs2, hc, _, hwr, h⟩ | ⟨s2, cs, cs1, _, hs2, _, hf, _, hwr, h⟩
  · rw [hw] at hw2
    exact absurd hw2 (by simp)
  · exfalso
    rcases hbad with hb | hb
    · rw [hs] at hb
      exact absurd hb (by simp)
    · rw [hready] at hb
      exact absurd hb (by simp)
  · rw [hs] at hs2
    simp only [Option.some.injEq] at hs2
    subst hs2
    exact absurd ⟨hd, hc⟩ hpause
  · have hno : ¬ (t.options.loop = false ∧
        (t.currentStringIndex + 1) % t.options.strings.length = 0) :=
      fun hx => hstop ⟨hd, hc, hx.1, hx.2⟩
    rw [if_neg hno] at h
    rw [h]
    exact ⟨rfl, by simp, fun _ _ => rfl⟩
  · rw [h]
    refine ⟨rfl, rfl, ?_⟩
    intro hd hc
    exact absurd ⟨hd, hc⟩ hf

/-- An instance of C16: the second step of the `["Hi", "Yo"]` engine. -/
theorem type_schedules_next_witness :
    (type { (construct (some []) hiYo).world with timers := [] }).world.timers
      = [] ++ [⟨Callback.tick,
          if (type { (construct (some []) hiYo).world with timers := [] }).world.isDeleting
          then 5 else 10⟩] :=
  (type_schedules_next { (construct (some []) hiYo).world with timers := [] } (js "Hi")
    (by decide) (by decide) (by decide) (by decide) (by decide)).2.1

/-! ## Invariants of the reachable states -/

/-- The constructor called on a non-null element is the first `type()` call on
the emptied sink holding the cursor span. -/
theorem construct_some_eq (cs : List DomNode) (o : RawOptions) :
    construct (some cs) o
      = type { element := some [DomNode.cursor (mkOptions o).cursor]
               options := mkOptions o
               currentStringIndex := 0
               currentCharIndex := 0
               isDeleting := false
               isWaiting := false
               timers := [] } := rfl

/-- Firing a timer never leaves both flags set when they were not both set. -/
theorem fire_flags_exclusive (i : Nat) (t : TypewriterEffect)
    (hx : ¬ (t.isWaiting = true ∧ t.isDeleting = true)) :
    ¬ ((fire i t).isWaiting = true ∧ (fire i t).isDeleting = true) := by
  unfold fire
  cases t.timers[i]? with
  | none => exact hx
  | some tm =>
    obtain ⟨cb, d⟩ := tm
    cases cb with
    | tick => exact type_flags_exclusive _ hx
    | pauseDone => exact type_flags_exclusive _ (by simp)

/-- C17: in every state reachable from the constructor's result by firing
pending timers (ticks and pause callbacks, in any order), `isWaiting` and
`isDeleting` are not both set. -/
theorem flags_exclusive (el : Option (List DomNode)) (o : RawOptions) (u : TypewriterEffect)
    (h : Reachable (construct el o).world u) :
    ¬ (u.isWaiting = true ∧ u.isDeleting = true) := by
  induction h with
  | start =>
    cases el with
    | none => simp [construct, init]
    | some cs =>
      rw [construct_some_eq]
      exact type_flags_exclusive _ (by simp)
  | fire i _ _ ih => exact fire_flags_exclusive i _ ih

/-- An instance of C17: the state of the `["Hi", "Yo"]` engine after its first
pending tick. -/
theorem flags_exclusive_witness :
    ¬ ((fire 0 (construct (some []) hiYo).world).isWaiting = true ∧
       (fire 0 (construct (some []) hiYo).world).isDeleting = true) :=
  flags_exclusive (some []) hiYo (fire 0 (construct (some []) hiYo).world)
    (Reachable.fire 0 Reachable.start (by decide))

/-- A timer fired on a valid index, with the sink writable unless nothing is
pending, throws nothing and keeps the options, the valid index and the
writable sink. -/
theorem fireOutcome_ok (i : Nat) (u : TypewriterEffect)
    (hidx : u.currentStringIndex < u.options.strings.length)
    (hr : sinkReady u = true ∨ u.timers = []) :
    (fireOutcome i u).thrown = none ∧
    (fireOutcome i u).world.options = u.options ∧
    (fireOutcome i u).world.currentStringIndex
      < (fireOutcome i u).world.options.strings.length ∧
    (sinkReady (fireOutcome i u).world = true ∨ (fireOutcome i u).world.timers = []) := by
  unfold fireOutcome
  cases hti : u.timers[i]? with
  | none => exact ⟨rfl, rfl, hidx, hr⟩
  | some tm =>
    have hready : sinkReady u = true := by
      rcases hr with h | h
      · exact h
      · rw [h] at hti
        simp at hti
    obtain ⟨cb, d⟩ := tm
    cases cb with
    | tick =>
      have h := type_ok_of_ready { u with timers := u.timers.eraseIdx i } hidx hready
      exact ⟨h.1, type_options _, h.2.1, Or.inl h.2.2⟩
    | pauseDone =>
      have h := type_ok_of_ready
        { u with timers := u.timers.eraseIdx i, isWaiting := false, isDeleting := true }
        hidx hready
      exact ⟨h.1, type_options _, h.2.1, Or.inl h.2.2⟩

/-- C18: for a non-empty effective `strings` list the constructor returns
normally, and every state reachable from its result keeps the constructor's
options and an index below `strings.length`, so that `strings[index]` is
defined; no callback fired in such a state throws. -/
theorem index_in_range (el : Option (List DomNode)) (o : RawOptions)
    (hne : (mkOptions o).strings ≠ []) :
    (construct el o).thrown = none ∧
    ∀ u, Reachable (construct el o).world u →
      u.options = mkOptions o ∧
      u.currentStringIndex < u.options.strings.length ∧
      (∃ s, u.options.strings[u.currentStringIndex]? = some s) ∧
      ∀ i, (fireOutcome i u).thrown = none := by
  have hpos : 0 < (mkOptions o).strings.length := List.length_pos.mpr hne
  have hstart : (construct el o).thrown = none ∧
      (construct el o).world.options = mkOptions o ∧
      (construct el o).world.currentStringIndex
        < (construct el o).world.options.strings.length ∧
      (sinkReady (construct el o).world = true ∨ (construct el o).world.timers = []) := by
    cases el with
    | none => exact ⟨rfl, rfl, hpos, Or.inr rfl⟩
    | some cs =>
      rw [construct_some_eq]
      have h := type_ok_of_ready
        { element := some [DomNode.cursor (mkOptions o).cursor]
          options := mkOptions o
          currentStringIndex := 0
          currentCharIndex := 0
          isDeleting := false
          isWaiting := false
          timers := [] } hpos (by simp [sinkReady])
      exact ⟨h.1, type_options _, h.2.1, Or.inl h.2.2⟩
  refine ⟨hstart.1, ?_⟩
  intro u hu
  have hinv : u.options = mkOptions o ∧
      u.currentStringIndex < u.options.strings.length ∧
      (sinkReady u = true ∨ u.timers = []) := by
    induction hu with
    | start => exact hstart.2
    | fire i _ _ ih =>
      rw [fire_eq_fireOutcome]
      have h := fireOutcome_ok i _ ih.2.1 ih.2.2
      exact ⟨h.2.1.trans ih.1, h.2.2.1, h.2.2.2⟩
  exact ⟨hinv.1, hinv.2.1, ⟨_, List.getElem?_eq_getElem hinv.2.1⟩,
    fun i => (fireOutcome_ok i u hinv.2.1 hinv.2.2).1⟩

/-- An instance of C18: the `["Hi", "Yo"]` engine after its first pending tick. -/
theorem index_in_range_witness :
    (fire 0 (construct (some []) hiYo).world).currentStringIndex
      < (fire 0 (construct (some []) hiYo).world).options.strings.length :=
  ((index_in_range (some []) hiYo (by decide)).2
    (fire 0 (construct (some []) hiYo).world)
    (Reachable.fire 0 Reachable.start (by decide))).2.1

/-- C19: a non-waiting step on a valid index and a writable sink writes a
prefix of the string at the index in force when the step starts: the text is
`substring(0, count - 1)` while deleting and `substring(0, count + 1)`
otherwise, with out-of-range ends clamped, and it is what the sink's first
text node holds after the step when the sink started with a text node or with
the cursor span. -/
theorem type_writes_prefix (t : TypewriterEffect) (s : JsString)
    (hw : t.isWaiting = false)
    (hs : t.options.strings[t.currentStringIndex]? = some s)
    (hready : sinkReady t = true) :
    ∃ txt cs cs1,
      txt = (if t.isDeleting then substring0 s (t.currentCharIndex - 1)
             else substring0 s (t.currentCharIndex + 1)) ∧
      t.element = some cs ∧
      writeText cs txt t.options.cursor = some cs1 ∧
      (type t).world.element = some cs1 ∧
      txt.units <+: s.units ∧
      ((∃ x rest, cs = DomNode.text x :: rest) ∨
          (∃ rest, cs = DomNode.cursor t.options.cursor :: rest) →
        sinkText (type t).world = some txt) := by
  have hpre : ∀ e : Int, (substring0 s e).units <+: s.units := by
    intro e
    exact List.take_prefix _ _
  have hwrite : ∀ (txt : JsString) (cs cs1 : List DomNode) (u : TypewriterEffect),
      writeText cs txt t.options.cursor = some cs1 → u.element = some cs1 →
      (∃ x rest, cs = DomNode.text x :: rest) ∨
          (∃ rest, cs = DomNode.cursor t.options.cursor :: rest) →
      sinkText u = some txt := by
    intro txt cs cs1 u hwr hu hx
    rcases hx with ⟨x, rest, hcs⟩ | ⟨rest, hcs⟩
    · subst hcs
      simp only [writeText, Option.some.injEq] at hwr
      subst hwr
      simp [sinkText, hu]
    · subst hcs
      simp only [writeText, insertBefore, if_true, Option.some.injEq] at hwr
      subst hwr
      simp [sinkText, hu]
  rcases type_cases t with ⟨hw2, _⟩ | ⟨_, e, _, hbad⟩ | ⟨s2, cs, cs1, _, hd, hs2, _, hel, hwr, h⟩ |
    ⟨s2, cs, cs1, _, hd, hs2, _, hel, hwr, h⟩ | ⟨s2, cs, cs1, _, hs2, _, _, hel, hwr, h⟩
  · rw [hw] at hw2
    exact absurd hw2 (by simp)
  · exfalso
    rcases hbad with hb | hb
    · rw [hs] at hb
      exact absurd hb (by simp)
    · rw [hready] at hb
      exact absurd hb (by simp)
  · rw [hs] at hs2
    simp only [Option.some.injEq] at hs2
    subst hs2
    have he : (type t).world.element = some cs1 := by rw [h]
    refine ⟨_, cs, cs1, ?_, hel, hwr, he, hpre _, hwrite _ cs cs1 _ hwr he⟩
    simp [hd]
  · rw [hs] at hs2
    simp only [Option.some.injEq] at hs2
    subst hs2
    have he : (type t).world.element = some cs1 := by
      rw [h]
      split <;> rfl
    refine ⟨_, cs, cs1, ?_, hel, hwr, he, hpre _, hwrite _ cs cs1 _ hwr he⟩
    simp [hd]
  · rw [hs] at hs2
    simp only [Option.some.injEq] at hs2
    subst hs2
    have he : (type t).world.element = some cs1 := by rw [h]
    refine ⟨_, cs, cs1, rfl, hel, hwr, he, ?_, hwrite _ cs cs1 _ hwr he⟩
    split
    · exact hpre _
    · exact hpre _

/-- An instance of C19: the second step of the `["Hi", "Yo"]` engine writes `"Hi"`. -/
theorem type_writes_prefix_witness :
    ∃ txt cs cs1,
      txt = (if (fire 0 (construct (some []) hiYo).world).isDeleting
             then substring0 (js "Hi") ((fire 0 (construct (some []) hiYo).world).currentCharIndex - 1)
             else substring0 (js "Hi")
              ((fire 0 (construct (some []) hiYo).world).currentCharIndex + 1)) ∧
      (fire 0 (construct (some []) hiYo).world).element = some cs ∧
      writeText cs txt (fire 0 (construct (some []) hiYo).world).options.cursor = some cs1 ∧
      (type (fire 0 (construct (some []) hiYo).world)).world.element = some cs1 ∧
      txt.units <+: (js "Hi").units ∧
      ((∃ x rest, cs = DomNode.text x :: rest) ∨
          (∃ rest, cs = DomNode.cursor
            (fire 0 (construct (some []) hiYo).world).options.cursor :: rest) →
        sinkText (type (fire 0 (construct (some []) hiYo).world)).world = some txt) :=
  type_writes_prefix (fire 0 (construct (some []) hiYo).world) (js "Hi")
    (by decide) (by decide) (by decide)

/-! ## The count bound for non-empty strings -/

/-- A character has at least one code unit. -/
theorem utf16Char_ne_nil (c : Char) : utf16Char c ≠ [] := by
  unfold utf16Char
  split <;> simp

/-- Only the empty string has no code unit. -/
theorem js_length_eq_zero (s : String) : (js s).length = 0 ↔ s.data = [] := by
  unfold js JsString.length utf16
  cases hd : s.data with
  | nil => simp
  | cons c l =>
    have := utf16Char_ne_nil c
    simp [List.flatMap_cons, this]

/-- A non-empty string has a positive length. -/
theorem length_pos_of_ne_empty (s : JsString) (h : s ≠ js "") : 0 < s.length := by
  have hd : s.units ≠ [] := fun hd => h (by cases s; cases hd; rfl)
  exact List.length_pos.mpr hd

/-- With no empty string in the list, `type()` keeps the count between 0 and
the length of the active string. -/
theorem type_count_bound (t : TypewriterEffect)
    (hall : ∀ s ∈ t.options.strings, s ≠ js "")
    (hinv : ∃ s, t.options.strings[t.currentStringIndex]? = some s ∧
      0 ≤ t.currentCharIndex ∧ t.currentCharIndex ≤ (s.length : Int)) :
    ∃ s, (type t).world.options.strings[(type t).world.currentStringIndex]? = some s ∧
      0 ≤ (type t).world.currentCharIndex ∧
      (type t).world.currentCharIndex ≤ (s.length : Int) := by
  obtain ⟨s0, hs0, hlo, hhi⟩ := hinv
  have hidx : t.currentStringIndex < t.options.strings.length := by
    by_contra hge
    rw [List.getElem?_eq_none (by omega)] at hs0
    simp at hs0
  have hnext : ∃ s1, t.options.strings[(t.currentStringIndex + 1)
      % t.options.strings.length]? = some s1 ∧ 0 < s1.length := by
    have hlt : (t.currentStringIndex + 1) % t.options.strings.length
        < t.options.strings.length := Nat.mod_lt _ (by omega)
    refine ⟨_, List.getElem?_eq_getElem hlt, ?_⟩
    exact length_pos_of_ne_empty _ (hall _ (List.getElem_mem _))
  rcases type_cases t with ⟨_, h⟩ | ⟨_, e, h, _⟩ | ⟨s, cs, cs1, _, _, _, _, _, _, h⟩ |
    ⟨s, cs, cs1, _, _, _, hc, _, _, h⟩ | ⟨s, cs, cs1, _, hs, hp, hf, _, _, h⟩
  · rw [h]; exact ⟨s0, hs0, hlo, hhi⟩
  · rw [h]; exact ⟨s0, hs0, hlo, hhi⟩
  · rw [h]; exact ⟨s0, hs0, hlo, hhi⟩
  · obtain ⟨s1, hs1, hpos⟩ := hnext
    rw [h]
    split
    · exact ⟨s1, hs1, by simp [hc], by simp [hc]⟩
    · refine ⟨s1, hs1, by simp, ?_⟩
      simp only
      omega
  · rw [hs] at hs0
    simp only [Option.some.injEq] at hs0
    subst hs0
    rw [h]
    refine ⟨s, hs, ?_, ?_⟩
    · simp only
      rcases Bool.eq_false_or_eq_true t.isDeleting with hd | hd
      · have : t.currentCharIndex ≠ 0 := fun h0 => hf ⟨hd, h0⟩
        simp [hd]
        omega
      · simp [hd]
        omega
    · simp only
      rcases Bool.eq_false_or_eq_true t.isDeleting with hd | hd
      · simp [hd]
        omega
      · have : t.currentCharIndex ≠ (s.length : Int) := fun h0 => hp ⟨hd, h0⟩
        simp [hd]
        omega

/-- Firing a timer keeps the options and, with no empty string in the list,
the count bound. -/
theorem fire_count_bound (i : Nat) (t : TypewriterEffect)
    (hall : ∀ s ∈ t.options.strings, s ≠ js "")
    (hinv : ∃ s, t.options.strings[t.currentStringIndex]? = some s ∧
      0 ≤ t.currentCharIndex ∧ t.currentCharIndex ≤ (s.length : Int)) :
    (fire i t).options = t.options ∧
    ∃ s, (fire i t).options.strings[(fire i t).currentStringIndex]? = some s ∧
      0 ≤ (fire i t).currentCharIndex ∧ (fire i t).currentCharIndex ≤ (s.length : Int) := by
  unfold fire
  cases t.timers[i]? with
  | none => exact ⟨rfl, hinv⟩
  | some tm =>
    obtain ⟨cb, d⟩ := tm
    cases cb with
    | tick => exact ⟨type_options _, type_count_bound _ hall hinv⟩
    | pauseDone => exact ⟨type_options _, type_count_bound _ hall hinv⟩

/-- C25: when the effective `strings` list is non-empty and holds no empty
string, every state reachable from the constructor's result, for either value
of `loop` and any firing order of the timers, has its count between 0 and the
length of the string at the current index. -/
theorem count_in_bounds (el : Option (List DomNode)) (o : RawOptions)
    (hne : (mkOptions o).strings ≠ [])
    (hall : ∀ s ∈ (mkOptions o).strings, s ≠ js "")
    (u : TypewriterEffect) (hu : Reachable (construct el o).world u) :
    ∃ s, u.options.strings[u.currentStringIndex]? = some s ∧
      0 ≤ u.currentCharIndex ∧ u.currentCharIndex ≤ (s.length : Int) := by
  have hpos : 0 < (mkOptions o).strings.length := List.length_pos.mpr hne
  have hinit : ∃ s, (mkOptions o).strings[0]? = some s ∧
      (0 : Int) ≤ 0 ∧ (0 : Int) ≤ (s.length : Int) :=
    ⟨_, List.getElem?_eq_getElem hpos, le_refl _, by omega⟩
  have key : u.options = mkOptions o ∧
      ∃ s, u.options.strings[u.currentStringIndex]? = some s ∧
        0 ≤ u.currentCharIndex ∧ u.currentCharIndex ≤ (s.length : Int) := by
    induction hu with
    | start =>
      cases el with
      | none => exact ⟨rfl, hinit⟩
      | some cs =>
        rw [construct_some_eq]
        exact ⟨type_options _, type_count_bound _ hall hinit⟩
    | fire i _ _ ih =>
      obtain ⟨hopt, hinv⟩ := ih
      have h := fire_count_bound i _ (by rw [hopt]; exact hall) hinv
      exact ⟨h.1.trans hopt, h.2⟩
  exact key.2

/-- An instance of C25: the engine on the one string of one emoji, two code
units long, after its first pending tick: the count is 2. -/
theorem count_in_bounds_witness :
    (js "😀").length = 2 ∧
    (fire 0 (construct (some []) { strings := some [js "😀"] }).world).currentCharIndex = 2 ∧
    ∃ s, (fire 0 (construct (some []) { strings := some [js "😀"] }).world).options.strings[
        (fire 0 (construct (some []) { strings := some [js "😀"] }).world).currentStringIndex]?
          = some s ∧
      0 ≤ (fire 0 (construct (some []) { strings := some [js "😀"] }).world).currentCharIndex ∧
      (fire 0 (construct (some []) { strings := some [js "😀"] }).world).currentCharIndex
        ≤ (s.length : Int) :=
  ⟨by decide, by decide,
   count_in_bounds (some []) { strings := some [js "😀"] } (by decide) (by decide)
    (fire 0 (construct (some []) { strings := some [js "😀"] }).world)
    (Reachable.fire 0 Reachable.start (by decide))⟩

/-! ## Runs of the engine, one pending timer at a time -/

/-- Firing the only pending timer, a tick, is a call of `type()`. -/
theorem fire_single_tick (u : TypewriterEffect) (d : Int)
    (h : u.timers = [⟨Callback.tick, d⟩]) :
    fire 0 u = (type { u with timers := [] }).world := by
  unfold fire
  rw [h]
  rfl

/-- Firing the only pending timer, the pause callback, sets the flags and calls `type()`. -/
theorem fire_single_pause (u : TypewriterEffect) (d : Int)
    (h : u.timers = [⟨Callback.pauseDone, d⟩]) :
    fire 0 u = (type { u with timers := [], isWaiting := false, isDeleting := true }).world := by
  unfold fire
  rw [h]
  rfl

/-- A typing tick below the full length: the count goes up by one, the text of
that length is written and the next tick is scheduled after `typeSpeed`. -/
theorem stage_type (o : Options) (u : TypewriterEffect) (idx : Nat) (c d : Int) (s : JsString)
    (hst : Stage o u idx c false false [⟨Callback.tick, d⟩])
    (hs : o.strings[idx]? = some s) (hc : c ≠ (s.length : Int)) :
    Stage o (fire 0 u) idx (c + 1) false false [⟨Callback.tick, o.typeSpeed⟩] ∧
    sinkText (fire 0 u) = some (substring0 s (c + 1)) ∧ live u = true := by
  obtain ⟨hopt, ⟨x, rest, hel⟩, hidx, hcnt, hdel, hwait, htm⟩ := hst
  have hlive : live u = true := by simp [live, htm, hwait]
  rw [fire_single_tick u d htm]
  rw [type_move_eq { u with timers := [] } s (DomNode.text x :: rest)
    (DomNode.text (substring0 s (c + 1)) :: rest) hwait
    (by show u.options.strings[u.currentStringIndex]? = some s
        rw [hopt, hidx]; exact hs)
    (by show ¬ (u.isDeleting = false ∧ u.currentCharIndex = (s.length : Int))
        rw [hcnt]; exact fun h => hc h.2)
    (by show ¬ (u.isDeleting = true ∧ u.currentCharIndex = 0)
        rw [hdel]; exact fun h => absurd h.1 (by simp))
    hel
    (by show writeText (DomNode.text x :: rest)
          (if u.isDeleting then substring0 s (u.currentCharIndex - 1)
           else substring0 s (u.currentCharIndex + 1)) u.options.cursor = _
        rw [hdel, hcnt]; rfl)]
  refine ⟨⟨hopt, ⟨_, _, rfl⟩, hidx, ?_, hdel, hwait, ?_⟩, rfl, hlive⟩
  · show u.currentCharIndex + (if u.isDeleting then -1 else 1) = c + 1
    rw [hdel, hcnt]; rfl
  · show ([] : List Timer) ++ [⟨Callback.tick,
      if u.isDeleting then u.options.deleteSpeed else u.options.typeSpeed⟩] = _
    rw [hdel, hopt]; rfl

/-- The tick at the full length: the engine starts waiting and the pause
callback is scheduled. -/
theorem stage_pause (o : Options) (u : TypewriterEffect) (idx : Nat) (d : Int) (s : JsString)
    (hst : Stage o u idx (s.length : Int) false false [⟨Callback.tick, d⟩])
    (hs : o.strings[idx]? = some s) :
    Stage o (fire 0 u) idx (s.length : Int) false true
      [⟨Callback.pauseDone, o.delayBetween⟩] ∧ live u = true := by
  obtain ⟨hopt, ⟨x, rest, hel⟩, hidx, hcnt, hdel, hwait, htm⟩ := hst
  have hlive : live u = true := by simp [live, htm, hwait]
  rw [fire_single_tick u d htm]
  rw [type_pause_eq { u with timers := [] } s (DomNode.text x :: rest)
    (DomNode.text (substring0 s (u.currentCharIndex + 1)) :: rest) hwait hdel
    (by show u.options.strings[u.currentStringIndex]? = some s
        rw [hopt, hidx]; exact hs)
    hcnt hel rfl]
  refine ⟨⟨hopt, ⟨_, _, rfl⟩, hidx, hcnt, hdel, rfl, ?_⟩, hlive⟩
  show ([] : List Timer) ++ [⟨Callback.pauseDone, u.options.delayBetween⟩] = _
  rw [hopt]; rfl

/-- A deleting call of `type()` at a positive count, made by a tick or by the
pause callback: the count goes down by one, the text of that length is
written and the next tick is scheduled after `deleteSpeed`. -/
theorem stage_delete (o : Options) (u : TypewriterEffect) (idx : Nat) (c : Int)
    (tm : Timer) (s : JsString) (w : Bool)
    (hst : Stage o u idx c (tm.callback == Callback.tick) w [tm])
    (hw : tm.callback = Callback.tick → w = false)
    (hs : o.strings[idx]? = some s) (hc : c ≠ 0) :
    Stage o (fire 0 u) idx (c - 1) true false [⟨Callback.tick, o.deleteSpeed⟩] ∧
    live u = true := by
  obtain ⟨hopt, ⟨x, rest, hel⟩, hidx, hcnt, hdel, hwait, htm⟩ := hst
  obtain ⟨cb, d⟩ := tm
  have key : ∀ t : TypewriterEffect, t.options = o → t.element = some (DomNode.text x :: rest) →
      t.currentStringIndex = idx → t.currentCharIndex = c → t.isDeleting = true →
      t.isWaiting = false → t.timers = [] →
      Stage o (type t).world idx (c - 1) true false [⟨Callback.tick, o.deleteSpeed⟩] := by
    intro t h1 h2 h3 h4 h5 h6 h7
    rw [type_move_eq t s (DomNode.text x :: rest)
      (DomNode.text (substring0 s (c - 1)) :: rest) h6
      (by rw [h1, h3]; exact hs)
      (by rw [h5]; exact fun h => absurd h.1 (by simp))
      (by rw [h4]; exact fun h => hc h.2)
      h2 (by rw [h5, h4]; rfl)]
    refine ⟨h1, ⟨_, _, rfl⟩, h3, ?_, h5, h6, ?_⟩
    · show t.currentCharIndex + (if t.isDeleting then -1 else 1) = c - 1
      rw [h5, h4]; rfl
    · show t.timers ++ [⟨Callback.tick,
        if t.isDeleting then t.options.deleteSpeed else t.options.typeSpeed⟩] = _
      rw [h5, h1, h7]; rfl
  cases cb with
  | tick =>
    have hwf : w = false := hw rfl
    subst hwf
    refine ⟨?_, by simp [live, htm, hwait]⟩
    rw [fire_single_tick u d htm]
    exact key _ hopt hel hidx hcnt (by simpa using hdel) hwait rfl
  | pauseDone =>
    refine ⟨?_, by simp [live, htm]⟩
    rw [fire_single_pause u d htm]
    exact key _ hopt hel hidx hcnt rfl rfl rfl

/-- The deleting tick at count 0: the index advances; the engine stops when
`loop` is off and the index wrapped to 0, else the count becomes 1 and the next
tick is scheduled after `typeSpeed`. -/
theorem stage_finish (o : Options) (u : TypewriterEffect) (idx : Nat) (d : Int) (s : JsString)
    (hst : Stage o u idx 0 true false [⟨Callback.tick, d⟩])
    (hs : o.strings[idx]? = some s) :
    (if o.loop = false ∧ (idx + 1) % o.strings.length = 0 then
      Stage o (fire 0 u) ((idx + 1) % o.strings.length) 0 false false []
    else
      Stage o (fire 0 u) ((idx + 1) % o.strings.length) 1 false false
        [⟨Callback.tick, o.typeSpeed⟩]) ∧
    live u = true := by
  obtain ⟨hopt, ⟨x, rest, hel⟩, hidx, hcnt, hdel, hwait, htm⟩ := hst
  have hlive : live u = true := by simp [live, htm, hwait]
  refine ⟨?_, hlive⟩
  rw [fire_single_tick u d htm]
  rw [type_finish_eq { u with timers := [] } s (DomNode.text x :: rest)
    (DomNode.text (substring0 s (u.currentCharIndex - 1)) :: rest) hwait hdel
    (by show u.options.strings[u.currentStringIndex]? = some s
        rw [hopt, hidx]; exact hs)
    hcnt hel rfl]
  simp only [hopt, hidx]
  split
  · exact ⟨rfl, ⟨_, _, rfl⟩, rfl, hcnt, rfl, hwait, rfl⟩
  · exact ⟨rfl, ⟨_, _, rfl⟩, rfl, rfl, rfl, hwait, rfl⟩

/-- Runs compose. -/
theorem steps_trans {u v w : TypewriterEffect} {a b : Nat}
    (h1 : Steps u a v) (h2 : Steps v b w) : Steps u (a + b) w := by
  induction h1 with
  | done _ => simpa using h2
  | step hl _ ih =>
    rw [Nat.add_right_comm]
    exact Steps.step hl (ih h2)

/-- One live timer fired is a run of length one. -/
theorem steps_one (u : TypewriterEffect) (h : live u = true) : Steps u 1 (fire 0 u) :=
  Steps.step h (Steps.done _)

/-- A run is the iteration of `fire 0`. -/
theorem steps_eq_run {u v : TypewriterEffect} {n : Nat} (h : Steps u n v) : v = run n u := by
  induction h with
  | done _ => rfl
  | step _ _ ih => exact ih

/-- A run that ends with nothing pending is the longest run from its start. -/
theorem steps_le_of_halted {u v w : TypewriterEffect} {a b : Nat}
    (h1 : Steps u a v) (hv : v.timers = []) (h2 : Steps u b w) : b ≤ a := by
  induction h1 generalizing b w with
  | done u0 =>
    cases h2 with
    | done _ => exact Nat.le_refl _
    | step hl _ => simp [live, hv] at hl
  | step _ _ ih =>
    cases h2 with
    | done _ => exact Nat.zero_le _
    | step _ hrest => exact Nat.succ_le_succ (ih hv hrest)

/-- Typing from count `c` up to the full length takes one tick per character. -/
theorem typing_run (o : Options) (idx : Nat) (s : JsString) (hs : o.strings[idx]? = some s) :
    ∀ (k : Nat) (u : TypewriterEffect) (c d : Int), c + (k : Int) = (s.length : Int) →
      Stage o u idx c false false [⟨Callback.tick, d⟩] →
      ∃ v d1, Steps u k v ∧ Stage o v idx (s.length : Int) false false [⟨Callback.tick, d1⟩] := by
  intro k
  induction k with
  | zero =>
    intro u c d hck hst
    have hc : c = (s.length : Int) := by simpa using hck
    subst hc
    exact ⟨u, d, Steps.done _, hst⟩
  | succ k ih =>
    intro u c d hck hst
    have hc : c ≠ (s.length : Int) := by
      intro h
      rw [h] at hck
      push_cast at hck
      omega
    obtain ⟨h1, _, hl⟩ := stage_type o u idx c d s hst hs hc
    obtain ⟨v, d1, hsteps, hv⟩ := ih (fire 0 u) (c + 1) o.typeSpeed
      (by push_cast at hck; omega) h1
    exact ⟨v, d1, Steps.step hl hsteps, hv⟩

/-- Deleting from count `k` down to 0 takes one tick per character. -/
theorem deleting_run (o : Options) (idx : Nat) (s : JsString) (hs : o.strings[idx]? = some s) :
    ∀ (k : Nat) (u : TypewriterEffect) (d : Int),
      Stage o u idx (k : Int) true false [⟨Callback.tick, d⟩] →
      ∃ v d1, Steps u k v ∧ Stage o v idx 0 true false [⟨Callback.tick, d1⟩] := by
  intro k
  induction k with
  | zero =>
    intro u d hst
    exact ⟨u, d, Steps.done _, hst⟩
  | succ k ih =>
    intro u d hst
    obtain ⟨h1, hl⟩ := stage_delete o u idx ((k + 1 : Nat) : Int) ⟨Callback.tick, d⟩ s false
      hst (fun _ => rfl) hs (by push_cast; omega)
    have h2 : Stage o (fire 0 u) idx (k : Int) true false
        [⟨Callback.tick, o.deleteSpeed⟩] := by
      have : (((k + 1 : Nat) : Int) - 1) = (k : Int) := by push_cast; omega
      rw [this] at h1
      exact h1
    obtain ⟨v, d1, hsteps, hv⟩ := ih (fire 0 u) o.deleteSpeed h2
    exact ⟨v, d1, Steps.step hl hsteps, hv⟩

/-- A non-empty string entered at count 1 is typed, held and deleted in
`2 * length` timers. -/
theorem process_string (o : Options) (idx : Nat) (s : JsString)
    (hs : o.strings[idx]? = some s) (hpos : 0 < s.length)
    (u : TypewriterEffect) (d : Int)
    (hst : Stage o u idx 1 false false [⟨Callback.tick, d⟩]) :
    ∃ v d1, Steps u (2 * s.length) v ∧ Stage o v idx 0 true false [⟨Callback.tick, d1⟩] := by
  obtain ⟨v1, d1, hs1, hv1⟩ := typing_run o idx s hs (s.length - 1) u 1 d
    (by omega) hst
  obtain ⟨hv2, hl2⟩ := stage_pause o v1 idx d1 s hv1 hs
  obtain ⟨hv3, hl3⟩ := stage_delete o (fire 0 v1) idx (s.length : Int)
    ⟨Callback.pauseDone, o.delayBetween⟩ s true hv2 (fun h => absurd h (by simp)) hs
    (by omega)
  have hv3b : Stage o (fire 0 (fire 0 v1)) idx ((s.length - 1 : Nat) : Int) true false
      [⟨Callback.tick, o.deleteSpeed⟩] := by
    have : ((s.length : Int) - 1) = ((s.length - 1 : Nat) : Int) := by omega
    rw [this] at hv3
    exact hv3
  obtain ⟨v4, d4, hs4, hv4⟩ := deleting_run o idx s hs (s.length - 1) _ _ hv3b
  refine ⟨v4, d4, ?_, hv4⟩
  have htot : 2 * s.length = (s.length - 1) + (1 + (1 + (s.length - 1))) := by omega
  rw [htot]
  exact steps_trans hs1 (steps_trans (steps_one _ hl2) (steps_trans (steps_one _ hl3) hs4))

/-- The non-empty strings of a stretch of the list that is not at its end are
each processed in `2 * length + 1` timers, the engine arriving at count 1 on
the string after the stretch. -/
theorem process_stretch (o : Options) :
    ∀ (mid done tail : List JsString), o.strings = done ++ (mid ++ tail) → tail ≠ [] →
      (∀ s ∈ mid, s ≠ js "") → ∀ (u : TypewriterEffect) (d : Int),
      Stage o u done.length 1 false false [⟨Callback.tick, d⟩] →
      ∃ v d1, Steps u (stepsFor mid) v ∧
        Stage o v (done.length + mid.length) 1 false false [⟨Callback.tick, d1⟩] := by
  intro mid
  induction mid with
  | nil =>
    intro done tail _ _ _ u d hst
    exact ⟨u, d, Steps.done _, by simpa using hst⟩
  | cons s mid ih =>
    intro done tail hstr htail hall u d hst
    have hs : o.strings[done.length]? = some s := by
      rw [hstr, List.getElem?_append_right (Nat.le_refl _), Nat.sub_self]
      simp
    have hpos : 0 < s.length := length_pos_of_ne_empty s (hall s (List.mem_cons_self _ _))
    have htl : 0 < tail.length := List.length_pos.mpr htail
    have hlen : o.strings.length = done.length + (mid.length + 1 + tail.length) := by
      rw [hstr]
      simp only [List.length_append, List.length_cons]
    have hmod : (done.length + 1) % o.strings.length = done.length + 1 :=
      Nat.mod_eq_of_lt (by omega)
    obtain ⟨v1, d1, hs1, hv1⟩ := process_string o done.length s hs hpos u d hst
    obtain ⟨hfin, hl⟩ := stage_finish o v1 done.length d1 s hv1 hs
    rw [if_neg (by rw [hmod]; exact fun h => absurd h.2 (by omega)), hmod] at hfin
    have hfin2 : Stage o (fire 0 v1) (done ++ [s]).length 1 false false
        [⟨Callback.tick, o.typeSpeed⟩] := by
      simpa using hfin
    obtain ⟨v2, d2, hs2, hv2⟩ := ih (done ++ [s]) tail
      (by rw [hstr]; simp) htail (fun x hx => hall x (List.mem_cons_of_mem _ hx))
      (fire 0 v1) o.typeSpeed hfin2
    refine ⟨v2, d2, ?_, ?_⟩
    · have htot : stepsFor (s :: mid) = 2 * s.length + (1 + stepsFor mid) := by
        simp only [stepsFor, List.map_cons, List.sum_cons]
        omega
      rw [htot]
      exact steps_trans hs1 (steps_trans (steps_one _ hl) hs2)
    · have : (done ++ [s]).length + mid.length = done.length + (s :: mid).length := by
        simp only [List.length_append, List.length_cons, List.length_nil]
        omega
      rw [this] at hv2
      exact hv2

/-- With a non-empty first string the constructor returns normally and leaves
the engine at index 0 and count 1 with one tick pending. -/
theorem construct_stage (cs : List DomNode) (o : RawOptions) (s0 : JsString)
    (rest : List JsString) (hstr : (mkOptions o).strings = s0 :: rest) (hne : s0 ≠ js "") :
    (construct (some cs) o).thrown = none ∧
    Stage (mkOptions o) (construct (some cs) o).world 0 1 false false
      [⟨Callback.tick, (mkOptions o).typeSpeed⟩] := by
  have hs : (mkOptions o).strings[0]? = some s0 := by rw [hstr]; simp
  have hpos := length_pos_of_ne_empty s0 hne
  have hwr : writeText [DomNode.cursor (mkOptions o).cursor] (substring0 s0 (0 + 1))
      (mkOptions o).cursor
        = some [DomNode.text (substring0 s0 1), DomNode.cursor (mkOptions o).cursor] := by
    simp [writeText, insertBefore]
  rw [construct_some_eq]
  rw [type_move_eq _ s0 _ _ rfl hs (by simp; omega) (by simp) rfl hwr]
  exact ⟨rfl, rfl, ⟨_, _, rfl⟩, rfl, rfl, rfl, rfl, rfl⟩

/-- The timers for a list are one per string and two per character. -/
theorem stepsFor_eq (l : List JsString) :
    stepsFor l = l.length + 2 * (l.map JsString.length).sum := by
  induction l with
  | nil => rfl
  | cons s l ih =>
    simp only [stepsFor, List.map_cons, List.sum_cons, List.length_cons] at ih ⊢
    omega

/-- The timers for a list followed by one more string. -/
theorem stepsFor_concat (l : List JsString) (s : JsString) :
    stepsFor (l ++ [s]) = stepsFor l + (2 * s.length + 1) := by
  simp [stepsFor, List.map_append, List.sum_append]

/-- A live engine has a pending timer. -/
theorem timers_pos_of_live (u : TypewriterEffect) (h : live u = true) :
    0 < u.timers.length := by
  cases htm : u.timers with
  | nil => simp [live, htm] at h
  | cons _ _ => simp

/-- A run stays within the reachable states. -/
theorem reachable_of_steps {start u v : TypewriterEffect} {n : Nat}
    (h : Steps u n v) (hu : Reachable start u) : Reachable start v := by
  induction h with
  | done _ => exact hu
  | step hl _ ih => exact ih (Reachable.fire 0 hu (timers_pos_of_live _ hl))

/-- C26: with `loop` off, a non-null element and a non-empty list of non-empty
strings, the constructor's call of `type()` is followed by exactly
`n + 2 * (sum of the lengths)` timer callbacks, each the only pending timer
and each calling `type()` past the `isWaiting` guard; then no timer is
pending, index and count are 0 and both flags are off, and nothing changes any
more. -/
theorem halts_without_loop (cs : List DomNode) (o : RawOptions)
    (hloop : (mkOptions o).loop = false)
    (hne : (mkOptions o).strings ≠ [])
    (hall : ∀ s ∈ (mkOptions o).strings, s ≠ js "") :
    (construct (some cs) o).thrown = none ∧
    ∃ final,
      Steps (construct (some cs) o).world
        ((mkOptions o).strings.length
          + 2 * ((mkOptions o).strings.map JsString.length).sum) final ∧
      final.timers = [] ∧ final.currentStringIndex = 0 ∧ final.currentCharIndex = 0 ∧
      final.isDeleting = false ∧ final.isWaiting = false ∧
      (∀ m w, Steps (construct (some cs) o).world m w →
        m ≤ (mkOptions o).strings.length
          + 2 * ((mkOptions o).strings.map JsString.length).sum) ∧
      (∀ w, Reachable final w → w = final) := by
  obtain ⟨s0, rest, hcons⟩ := List.exists_cons_of_ne_nil hne
  have hsplit : (mkOptions o).strings
      = [] ++ ((mkOptions o).strings.dropLast ++ [(mkOptions o).strings.getLast hne]) := by
    rw [List.nil_append, List.dropLast_append_getLast]
  have hlast_mem : (mkOptions o).strings.getLast hne ∈ (mkOptions o).strings :=
    List.getLast_mem hne
  have hlast_pos := length_pos_of_ne_empty _ (hall _ hlast_mem)
  obtain ⟨hthrown, hstart⟩ := construct_stage cs o s0 rest hcons
    (hall s0 (by rw [hcons]; exact List.mem_cons_self _ _))
  obtain ⟨v1, d1, hs1, hv1⟩ := process_stretch (mkOptions o) (mkOptions o).strings.dropLast []
    [(mkOptions o).strings.getLast hne] hsplit (by simp)
    (fun s hs => hall s (List.mem_of_mem_dropLast hs)) _ _ hstart
  simp only [List.length_nil, Nat.zero_add] at hv1
  have hidx : (mkOptions o).strings[(mkOptions o).strings.dropLast.length]?
      = some ((mkOptions o).strings.getLast hne) := by
    conv_lhs => rw [show (mkOptions o).strings = (mkOptions o).strings.dropLast
      ++ [(mkOptions o).strings.getLast hne] from (List.dropLast_append_getLast hne).symm]
    rw [List.getElem?_append_right (by simp)]
    simp
  obtain ⟨v2, d2, hs2, hv2⟩ := process_string (mkOptions o) _ _ hidx hlast_pos v1 d1 hv1
  obtain ⟨hfin, hl⟩ := stage_finish (mkOptions o) v2 _ d2 _ hv2 hidx
  have hlen : (mkOptions o).strings.dropLast.length + 1 = (mkOptions o).strings.length := by
    rw [List.length_dropLast]
    have := List.length_pos.mpr hne
    omega
  have hwrap : ((mkOptions o).strings.dropLast.length + 1) % (mkOptions o).strings.length = 0 := by
    rw [hlen, Nat.mod_self]
  rw [if_pos ⟨hloop, hwrap⟩, hwrap] at hfin
  obtain ⟨_, _, hi, hc, hd, hw, ht⟩ := hfin
  have htotal : (mkOptions o).strings.length
      + 2 * ((mkOptions o).strings.map JsString.length).sum
        = stepsFor (mkOptions o).strings.dropLast
          + (2 * ((mkOptions o).strings.getLast hne).length + 1) := by
    rw [← stepsFor_eq, ← stepsFor_concat, List.dropLast_append_getLast]
  have hsteps : Steps (construct (some cs) o).world
      ((mkOptions o).strings.length
        + 2 * ((mkOptions o).strings.map JsString.length).sum) (fire 0 v2) := by
    rw [htotal]
    exact steps_trans hs1 (steps_trans hs2 (steps_one _ hl))
  exact ⟨hthrown, fire 0 v2, hsteps, ht, hi, hc, hd, hw,
    fun m w hm => steps_le_of_halted hsteps ht hm,
    fun w hw2 => reachable_of_no_timer _ w ht hw2⟩

/-- An instance of C26: the one string of one emoji, two code units long,
without looping: the engine halts after `1 + 2 * 2` timers. -/
theorem halts_without_loop_witness :
    (js "😀").length = 2 ∧
    ∃ final,
      Steps (construct (some []) { strings := some [js "😀"], loop := some false }).world
        (1 + 2 * 2) final ∧
      final.timers = [] ∧ final.currentStringIndex = 0 ∧ final.currentCharIndex = 0 ∧
      final.isDeleting = false ∧ final.isWaiting = false :=
  ⟨by decide,
   (halts_without_loop [] { strings := some [js "😀"], loop := some false } (by decide)
    (by decide) (by decide)).2.imp
      fun _ h => ⟨h.1, h.2.1, h.2.2.1, h.2.2.2.1, h.2.2.2.2.1, h.2.2.2.2.2.1⟩⟩

/-- On an empty string entered at a positive count every tick counts up,
writes the empty text and schedules the next tick: the engine stays on the
same index, typing, with one tick pending. -/
theorem runaway_on_empty_string (o : Options) (k : Nat) (hs : o.strings[k]? = some (js "")) :
    ∀ (m : Nat) (u : TypewriterEffect) (c d : Int), 1 ≤ c →
      Stage o u k c false false [⟨Callback.tick, d⟩] →
      (∃ d1, Stage o (run m u) k (c + m) false false [⟨Callback.tick, d1⟩]) ∧
      live (run m u) = true ∧
      sinkText (run (m + 1) u) = some (js "") := by
  intro m
  induction m with
  | zero =>
    intro u c d hc hst
    obtain ⟨_, htxt, hl⟩ := stage_type o u k c d (js "") hst hs
      (by simp [JsString.length, js, utf16]; omega)
    refine ⟨⟨d, by simpa using hst⟩, hl, ?_⟩
    show sinkText (fire 0 u) = some (js "")
    rw [htxt]
    simp [substring0, js, utf16]
  | succ m ih =>
    intro u c d hc hst
    obtain ⟨hnext, _, _⟩ := stage_type o u k c d (js "") hst hs
      (by simp [JsString.length, js, utf16]; omega)
    obtain ⟨⟨d1, h1⟩, h2, h3⟩ := ih (fire 0 u) (c + 1) o.typeSpeed (by omega) hnext
    refine ⟨⟨d1, ?_⟩, h2, h3⟩
    have : c + ((m + 1 : Nat) : Int) = c + 1 + (m : Int) := by push_cast; omega
    rw [this]
    exact h1

/-- C27: when `strings[k]` is empty for some `k ≥ 1` and the strings before it
are not, the engine on a non-null element, whatever `loop` is, reaches a state
with index `k` and count 1; from there, after any number `m` of further
timers, the index is still `k`, the count is `1 + m`, neither flag is set, one
tick is pending and will call `type()`, and the text written by each of these
ticks is empty. -/
theorem empty_string_never_ends (cs : List DomNode) (o : RawOptions)
    (pre post : List JsString)
    (hstr : (mkOptions o).strings = pre ++ (js "") :: post)
    (hpre : pre ≠ []) (hall : ∀ s ∈ pre, s ≠ js "") :
    ∃ v, Steps (construct (some cs) o).world (stepsFor pre) v ∧
      Reachable (construct (some cs) o).world v ∧
      v.currentStringIndex = pre.length ∧ v.currentCharIndex = 1 ∧
      ∀ m : Nat,
        (run m v).currentStringIndex = pre.length ∧
        (run m v).currentCharIndex = 1 + (m : Int) ∧
        (run m v).isWaiting = false ∧ (run m v).isDeleting = false ∧
        (∃ d, (run m v).timers = [⟨Callback.tick, d⟩]) ∧
        live (run m v) = true ∧
        sinkText (run (m + 1) v) = some (js "") := by
  obtain ⟨s0, rest, hcons⟩ := List.exists_cons_of_ne_nil hpre
  have hstr0 : (mkOptions o).strings = s0 :: (rest ++ (js "") :: post) := by
    rw [hstr, hcons]
    rfl
  obtain ⟨_, hstart⟩ := construct_stage cs o s0 _ hstr0
    (hall s0 (by rw [hcons]; exact List.mem_cons_self _ _))
  obtain ⟨v, d, hsteps, hv⟩ := process_stretch (mkOptions o) pre [] ((js "") :: post)
    (by rw [hstr]; rfl) (by simp) hall _ _ hstart
  simp only [List.length_nil, Nat.zero_add] at hv
  have hs : (mkOptions o).strings[pre.length]? = some (js "") := by
    rw [hstr, List.getElem?_append_right (Nat.le_refl _), Nat.sub_self]
    simp
  refine ⟨v, hsteps, reachable_of_steps hsteps Reachable.start, hv.2.2.1, hv.2.2.2.1, ?_⟩
  intro m
  obtain ⟨⟨d1, hst⟩, hl, htxt⟩ :=
    runaway_on_empty_string (mkOptions o) pre.length hs m v 1 d (le_refl _) hv
  exact ⟨hst.2.2.1, hst.2.2.2.1, hst.2.2.2.2.2.1, hst.2.2.2.2.1, ⟨d1, hst.2.2.2.2.2.2⟩,
    hl, htxt⟩

/-- An instance of C27: `["Hi", ""]` without looping reaches index 1 with
count 1 after five timers and counts on from there. -/
theorem empty_string_never_ends_witness :
    ∃ v, Steps (construct (some [])
          { strings := some [js "Hi", js ""], loop := some false }).world (stepsFor [js "Hi"]) v ∧
      v.currentStringIndex = 1 ∧ v.currentCharIndex = 1 ∧
      ∀ m : Nat, (run m v).currentCharIndex = 1 + (m : Int) ∧ live (run m v) = true :=
  (empty_string_never_ends [] { strings := some [js "Hi", js ""], loop := some false }
    [js "Hi"] [] rfl (by decide) (by decide)).imp
    fun _ h => ⟨h.1, h.2.2.1, h.2.2.2.1, fun m => ⟨(h.2.2.2.2 m).2.1, (h.2.2.2.2 m).2.2.2.2.2.1⟩⟩

end Typewriter

/-!
# Contact form: validation
-/

namespace Forms

open Typewriter (JsError typeError js)

/-- With a `required` rule the checks never throw. -/
theorem errorMessage_required (f : Field) (v : Option String) (r : Rules)
    (h : r.required = true) : ∃ m, errorMessage f v r = Except.ok m := by
  unfold errorMessage
  cases v with
  | none => exact ⟨getFieldLabel f.name ++ " is required", by simp [h, isBlank]⟩
  | some x =>
    by_cases hb : isBlank (some x) = true
    · exact ⟨getFieldLabel f.name ++ " is required", by simp [h, hb]⟩
    · simp only [h, hb, Bool.and_false, Bool.false_eq_true, if_false]
      split
      · split
        · exact ⟨_, rfl⟩
        · exact ⟨_, rfl⟩
      · exact ⟨_, rfl⟩

/-- The checks read only the name and the type of the control. -/
theorem errorMessage_congr (f g : Field) (v : Option String) (r : Rules)
    (h : fixedPart g = fixedPart f) : errorMessage g v r = errorMessage f v r := by
  simp only [fixedPart, Prod.mk.injEq] at h
  obtain ⟨h1, h2, _, _⟩ := h
  simp [errorMessage, patternMessage, h1, h2]

/-- The control found by name has that name. -/
theorem querySelectorByName_some (fs : List Field) (n : String) (i : Nat)
    (h : querySelectorByName fs n = some i) : ∃ f, fs[i]? = some f ∧ f.name = n := by
  induction fs generalizing i with
  | nil => simp [querySelectorByName] at h
  | cons f fs ih =>
    by_cases hn : f.name = n
    · simp only [querySelectorByName, hn, if_true, Option.some.injEq] at h
      subst h
      exact ⟨f, by simp, hn⟩
    · simp only [querySelectorByName, hn, if_false, Option.map_eq_some'] at h
      obtain ⟨j, hj, hij⟩ := h
      subst hij
      obtain ⟨g, hg, hgn⟩ := ih j hj
      exact ⟨g, by simpa using hg, hgn⟩

/-- The lookup by name reads only the names. -/
theorem querySelectorByName_congr (cur fs : List Field) (n : String)
    (h : cur.map fixedPart = fs.map fixedPart) :
    querySelectorByName cur n = querySelectorByName fs n := by
  induction cur generalizing fs with
  | nil =>
    cases fs with
    | nil => rfl
    | cons g gs => simp at h
  | cons f cur ih =>
    cases fs with
    | nil => simp at h
    | cons g gs =>
      simp only [List.map_cons, List.cons.injEq] at h
      have hname : f.name = g.name := by
        have := h.1
        simp only [fixedPart, Prod.mk.injEq] at this
        exact this.1
      simp only [querySelectorByName, hname, ih gs h.2]

/-- Two names with the same error id are the same name. -/
theorem errorId_inj (n m : String) (h : n ++ "Error" = m ++ "Error") : n = m := by
  have hd := congrArg String.data h
  simp only [String.data_append] at hd
  exact String.ext (List.append_cancel_right hd)

/-- The replaced element is the one found under its id. -/
theorem getElementById_setElement_same (es : List (String × ErrorElement)) (id : String)
    (e1 : ErrorElement) :
    getElementById (setElement es id e1) id = (getElementById es id).map (fun _ => e1) := by
  induction es with
  | nil => rfl
  | cons p es ih =>
    obtain ⟨k, e⟩ := p
    by_cases hk : k = id
    · simp [getElementById, setElement, hk]
    · simp [getElementById, setElement, hk, ih]

/-- Elements under other ids are untouched. -/
theorem getElementById_setElement_ne (es : List (String × ErrorElement)) (id id2 : String)
    (e1 : ErrorElement) (hne : id2 ≠ id) :
    getElementById (setElement es id e1) id2 = getElementById es id2 := by
  induction es with
  | nil => rfl
  | cons p es ih =>
    obtain ⟨k, e⟩ := p
    by_cases hk : k = id
    · have hk2 : ¬ k = id2 := fun h => hne (h.symm.trans hk)
      have hk3 : ¬ id = id2 := fun h => hne h.symm
      simp [getElementById, setElement, hk, hk3]
    · by_cases hk2 : k = id2
      · subst hk2
        simp [getElementById, setElement, hk]
      · simp [getElementById, setElement, hk, hk2, ih]

/-- On a control of the form whose checks return `msg`, `validateFieldValue`
marks the control and returns whether the message is empty. -/
theorem validateFieldValue_found (c : FormController) (cur : List Field) (i : Nat)
    (f : Field) (v : Option String) (r : Rules) (msg : String)
    (hform : c.form = some cur) (hf : cur[i]? = some f)
    (hmsg : errorMessage f v r = Except.ok msg) :
    validateFieldValue c (some i) v r = ⟨markField c i msg, Except.ok (msg == "")⟩ := by
  by_cases hm : msg = ""
  · simp [validateFieldValue, fieldAt, hform, hf, hmsg, hm, markField]
  · simp [validateFieldValue, fieldAt, hform, hf, hmsg, hm, markField]

/-- What marking a control changes: the control's display attributes and the
element under its error id. -/
theorem markField_effect (c : FormController) (cur : List Field) (i : Nat) (f : Field)
    (msg : String) (hform : c.form = some cur) (hf : cur[i]? = some f) :
    ∃ g, (markField c i msg).form = some (cur.set i g) ∧
      fixedPart g = fixedPart f ∧
      g.errorClass = (msg != "") ∧
      g.ariaInvalid = some (if msg != "" then "true" else "false") ∧
      g.ariaDescribedby = (if msg != "" then some (f.name ++ "Error") else none) ∧
      (markField c i msg).errors
        = setElement c.errors (f.name ++ "Error") ⟨msg, msg != ""⟩ ∧
      (markField c i msg).isSubmitting = c.isSubmitting := by
  by_cases hm : msg = ""
  · refine ⟨{ f with errorClass := false, ariaInvalid := some "false",
                     ariaDescribedby := none }, ?_⟩
    simp [markField, clearFieldError, fieldAt, hform, hf, hm, fixedPart]
  · refine ⟨{ f with errorClass := true, ariaInvalid := some "true",
                     ariaDescribedby := some (f.name ++ "Error") }, ?_⟩
    have hb : (msg != "") = true := by simp [hm]
    simp [markField, showFieldError, fieldAt, hform, hf, hm, fixedPart, hb]

/-- Replacing a control by one with the same fixed part keeps the fixed parts. -/
theorem map_fixedPart_set (cur : List Field) (i : Nat) (f g : Field)
    (hf : cur[i]? = some f) (hg : fixedPart g = fixedPart f) :
    (cur.set i g).map fixedPart = cur.map fixedPart := by
  apply List.ext_getElem?
  intro j
  rw [List.map_set, List.getElem?_set]
  split
  · rename_i hij
    subst hij
    split
    · simp [hf, hg]
    · rename_i hlt
      simp only [List.length_map] at hlt
      rw [List.getElem?_eq_none (by simpa using hlt)]
  · rfl

/-- A marked control displays its message. -/
theorem displays_markField (c : FormController) (cur : List Field) (i : Nat) (f : Field)
    (msg : String) (hform : c.form = some cur) (hf : cur[i]? = some f) :
    displays (markField c i msg) i f.name msg = true := by
  obtain ⟨g, h1, _, h3, h4, h5, h6, _⟩ := markField_effect c cur i f msg hform hf
  have hlt : i < cur.length := by
    by_contra hge
    rw [List.getElem?_eq_none (by omega)] at hf
    simp at hf
  unfold displays fieldAt
  rw [h1, h6, getElementById_setElement_same]
  simp only [List.getElem?_set_self hlt, h3, h4, h5, beq_self_eq_true, Bool.true_and]
  cases getElementById c.errors (f.name ++ "Error") <;> simp

/-- Marking a control leaves what every other control displays. -/
theorem displays_markField_other (c : FormController) (cur : List Field) (i j : Nat)
    (f : Field) (msg n m : String) (hform : c.form = some cur) (hf : cur[i]? = some f)
    (hij : j ≠ i) (hn : n ≠ f.name) :
    displays (markField c i msg) j n m = displays c j n m := by
  obtain ⟨g, h1, _, _, _, _, h6, _⟩ := markField_effect c cur i f msg hform hf
  have hid : n ++ "Error" ≠ f.name ++ "Error" := fun h => hn (errorId_inj _ _ h)
  unfold displays fieldAt
  rw [h1, h6, hform, getElementById_setElement_ne _ _ _ _ hid]
  simp only [List.getElem?_set_ne (Ne.symm hij)]

/-- Controls with equal fixed parts at every position. -/
theorem getElem?_of_map_fixedPart (cur fs : List Field) (i : Nat) (f : Field)
    (h : cur.map fixedPart = fs.map fixedPart) (hf : cur[i]? = some f) :
    ∃ f0, fs[i]? = some f0 ∧ fixedPart f = fixedPart f0 := by
  have h1 : (cur.map fixedPart)[i]? = (fs.map fixedPart)[i]? := by rw [h]
  rw [List.getElem?_map, List.getElem?_map, hf] at h1
  cases hfs : fs[i]? with
  | none => simp [hfs] at h1
  | some f0 =>
    refine ⟨f0, rfl, ?_⟩
    simpa [hfs] using h1

/-- The loop of `validateForm` over rules that are all `required`, with
distinct names that all name a control: it returns normally, the result is the
conjunction of the incoming flag and of all verdicts, every validated control
displays its message, and other controls display what they did. -/
theorem validateLoop_spec (fs formData : List Field) (L : List (String × Rules))
    (hreq : ∀ nr ∈ L, nr.2.required = true)
    (hnd : (L.map Prod.fst).Nodup)
    (hfound : ∀ nr ∈ L, querySelectorByName fs nr.1 ≠ none) :
    ∀ (c : FormController) (cur : List Field) (isValid : Bool),
      c.form = some cur → cur.map fixedPart = fs.map fixedPart →
      ∃ c1 cur1,
        validateLoop formData L c isValid
          = ⟨c1, Except.ok (isValid && L.all (fun nr => messageFor fs formData nr == ""))⟩ ∧
        c1.form = some cur1 ∧ cur1.map fixedPart = fs.map fixedPart ∧
        c1.isSubmitting = c.isSubmitting ∧
        (∀ nr ∈ L, ∀ i, querySelectorByName fs nr.1 = some i →
          displays c1 i nr.1 (messageFor fs formData nr) = true) ∧
        (∀ n i m, n ∉ L.map Prod.fst → querySelectorByName fs n = some i →
          displays c1 i n m = displays c i n m) := by
  induction L with
  | nil =>
    intro c cur isValid hform hfix
    exact ⟨c, cur, by simp [validateLoop], hform, hfix, rfl, by simp, fun _ _ _ _ _ => rfl⟩
  | cons nr rest ih =>
    intro c cur isValid hform hfix
    obtain ⟨n, r⟩ := nr
    have hr : r.required = true := hreq (n, r) (List.mem_cons_self _ _)
    simp only [List.map_cons, List.nodup_cons] at hnd
    obtain ⟨i, hi⟩ := Option.ne_none_iff_exists'.mp (hfound (n, r) (List.mem_cons_self _ _))
    have hicur : querySelectorByName cur n = some i := by
      rw [querySelectorByName_congr cur fs n hfix]; exact hi
    obtain ⟨f, hf, hfn⟩ := querySelectorByName_some cur n i hicur
    obtain ⟨f0, hf0, hff0⟩ := getElem?_of_map_fixedPart cur fs i f hfix hf
    obtain ⟨msg, hmsg0⟩ := errorMessage_required f0 (formDataGet formData n) r hr
    have hmsg : errorMessage f (formDataGet formData n) r = Except.ok msg := by
      rw [errorMessage_congr f0 f _ _ hff0]; exact hmsg0
    have hmf : messageFor fs formData (n, r) = msg := by
      simp [messageFor, hi, hf0, hmsg0]
    have hstep := validateFieldValue_found c cur i f (formDataGet formData n) r msg
      hform hf hmsg
    obtain ⟨g, hg1, hg2, _, _, _, _, hg7⟩ := markField_effect c cur i f msg hform hf
    have hfix1 : (cur.set i g).map fixedPart = fs.map fixedPart := by
      rw [map_fixedPart_set cur i f g hf hg2]; exact hfix
    obtain ⟨c1, cur1, h1, h2, h3, h4, h5, h6⟩ :=
      ih (fun x hx => hreq x (List.mem_cons_of_mem _ hx)) hnd.2
        (fun x hx => hfound x (List.mem_cons_of_mem _ hx))
        (markField c i msg) (cur.set i g) (if !(msg == "") then false else isValid) hg1 hfix1
    refine ⟨c1, cur1, ?_, h2, h3, h4.trans hg7, ?_, ?_⟩
    · have hunf : validateLoop formData ((n, r) :: rest) c isValid
          = validateLoop formData rest (markField c i msg)
              (if !(msg == "") then false else isValid) := by
        simp only [validateLoop, hform, Option.getD_some, hicur, hstep]
      rw [hunf, h1, List.all_cons, hmf]
      cases isValid <;> cases (msg == "") <;> simp
    · intro x hx j hj
      rcases List.mem_cons.mp hx with hx1 | hx1
      · subst hx1
        have hji : j = i := by
          rw [hi] at hj
          exact (Option.some.inj hj).symm
        subst hji
        rw [h6 n j _ hnd.1 hi, hmf, ← hfn]
        exact displays_markField c cur j f msg hform hf
      · exact h5 x hx1 j hj
    · intro n2 j m hn2 hj
      simp only [List.map_cons, List.mem_cons, not_or] at hn2
      rw [h6 n2 j m hn2.2 hj]
      obtain ⟨f2, hf2, hf2n⟩ := querySelectorByName_some fs n2 j hj
      have hji : j ≠ i := by
        intro hji
        subst hji
        rw [hf0] at hf2
        have hname : f.name = f0.name := by
          have := hff0
          simp only [fixedPart, Prod.mk.injEq] at this
          exact this.1
        have : f0 = f2 := Option.some.inj hf2
        subst this
        exact hn2.1 (hf2n.symm.trans (hname.symm.trans hfn))
      exact displays_markField_other c cur i j f msg n2 m hform hf hji
        (fun h => hn2.1 (h.trans hfn))

/-- Every entry of `validationRules` is `required`. -/
theorem validationRules_required (nr : String × Rules) (h : nr ∈ validationRules) :
    nr.2.required = true := by
  simp only [validationRules, List.mem_cons, List.mem_singleton, List.not_mem_nil,
    or_false] at h
  rcases h with h | h | h | h <;> rw [h]

/-- The names of `validationRules` are distinct. -/
theorem validationRules_nodup : (validationRules.map Prod.fst).Nodup := by
  simp [validationRules]

/-- The verdict of `validateFieldValue` on a control found by name, under a
`required` rule: it returns whether the computed message is empty. -/
theorem validateFieldValue_verdict (c : FormController) (fs formData : List Field)
    (nr : String × Rules) (hform : c.form = some fs) (hr : nr.2.required = true)
    (hfound : querySelectorByName fs nr.1 ≠ none) :
    (validateFieldValue c (querySelectorByName fs nr.1) (formDataGet formData nr.1) nr.2).result
      = Except.ok (messageFor fs formData nr == "") := by
  obtain ⟨i, hi⟩ := Option.ne_none_iff_exists'.mp hfound
  obtain ⟨f, hf, _⟩ := querySelectorByName_some fs nr.1 i hi
  obtain ⟨msg, hmsg⟩ := errorMessage_required f (formDataGet formData nr.1) nr.2 hr
  have hmf : messageFor fs formData nr = msg := by
    simp [messageFor, hi, hf, hmsg]
  rw [hi, validateFieldValue_found c fs i f _ _ msg hform hf hmsg, hmf]

/-- C20: on a form that has a control for each of `name`, `email`, `subject`
and `message`, `validateForm` returns normally; it returns `true` exactly when
`validateFieldValue` returns `true` for each of the four controls with its
submitted value and its rule; and whatever the verdicts, after the call each of
the four controls displays the outcome of its own validation: the message
shown when it is non-empty, the error cleared when it is empty, which is the
case exactly when its verdict is `true`. -/
theorem validateForm_all_fields (c : FormController) (fs : List Field)
    (hform : c.form = some fs)
    (hfound : ∀ nr ∈ validationRules, querySelectorByName fs nr.1 ≠ none) :
    ∃ b, (validateForm c).result = Except.ok b ∧
      (b = true ↔ ∀ nr ∈ validationRules,
        (validateFieldValue c (querySelectorByName fs nr.1)
          (formDataGet fs nr.1) nr.2).result = Except.ok true) ∧
      (∀ nr ∈ validationRules, ∀ i, querySelectorByName fs nr.1 = some i →
        displays (validateForm c).controller i nr.1 (messageFor fs fs nr) = true ∧
        (messageFor fs fs nr = "" ↔
          (validateFieldValue c (querySelectorByName fs nr.1)
            (formDataGet fs nr.1) nr.2).result = Except.ok true)) ∧
      (validateForm c).controller.isSubmitting = c.isSubmitting := by
  obtain ⟨c1, cur1, h1, _, _, h4, h5, _⟩ :=
    validateLoop_spec fs fs validationRules validationRules_required validationRules_nodup
      hfound c fs true hform rfl
  have hv : validateForm c = validateLoop fs validationRules c true := by
    unfold validateForm
    rw [hform]
  have hverdict : ∀ nr ∈ validationRules,
      ((validateFieldValue c (querySelectorByName fs nr.1)
          (formDataGet fs nr.1) nr.2).result = Except.ok true ↔
        messageFor fs fs nr = "") := by
    intro nr hnr
    rw [validateFieldValue_verdict c fs fs nr hform (validationRules_required nr hnr)
      (hfound nr hnr)]
    constructor
    · intro h
      have hb : (messageFor fs fs nr == "") = true := by
        injection h
      simpa using hb
    · intro h
      rw [h]
      rfl
  rw [hv, h1]
  refine ⟨_, rfl, ?_, ?_, h4⟩
  · simp only [Bool.true_and, List.all_eq_true, beq_iff_eq]
    constructor
    · intro h nr hnr
      exact (hverdict nr hnr).mpr (h nr hnr)
    · intro h nr hnr
      exact (hverdict nr hnr).mp (h nr hnr)
  · intro nr hnr i hi
    exact ⟨h5 nr hnr i hi, (hverdict nr hnr).symm⟩

/-- Every rule names a control of the demonstration form. -/
theorem demoForm_has_fields (nr : String × Rules) (h : nr ∈ validationRules) :
    querySelectorByName
      [freshField "name" "text" "A", freshField "email" "email" "a@b.c",
       freshField "subject" "text" "   ", freshField "message" "textarea" "hello world!"]
      nr.1 ≠ none := by
  simp only [validationRules, List.mem_cons, List.mem_singleton, List.not_mem_nil,
    or_false] at h
  rcases h with h | h | h | h <;> rw [h] <;> decide

/-- An instance of C20: the demonstration form, whose name is too short and
whose subject is blank. -/
theorem validateForm_all_fields_witness :
    ∃ b, (validateForm demoForm).result = Except.ok b ∧
      (b = true ↔ ∀ nr ∈ validationRules,
        (validateFieldValue demoForm
          (querySelectorByName
            [freshField "name" "text" "A", freshField "email" "email" "a@b.c",
             freshField "subject" "text" "   ",
             freshField "message" "textarea" "hello world!"] nr.1)
          (formDataGet
            [freshField "name" "text" "A", freshField "email" "email" "a@b.c",
             freshField "subject" "text" "   ",
             freshField "message" "textarea" "hello world!"] nr.1) nr.2).result
          = Except.ok true) :=
  (validateForm_all_fields demoForm
      [freshField "name" "text" "A", freshField "email" "email" "a@b.c",
       freshField "subject" "text" "   ", freshField "message" "textarea" "hello world!"]
      rfl demoForm_has_fields).imp fun _ h => ⟨h.1, h.2.1⟩

/-! ## The checks of `validateFieldValue` -/

/-- A string of white space only trims to the empty string. -/
theorem trim_length_of_blank (s : String) (h : ∀ ch ∈ s.data, isWhiteSpace ch = true) :
    (js (trim s)).length = 0 := by
  have hd : s.data.dropWhile isWhiteSpace = [] := by
    rw [List.dropWhile_eq_nil_iff]
    exact h
  simp [trim, hd, js, Typewriter.utf16, Typewriter.JsString.length]

/-- A message with a non-empty tail is non-empty. -/
theorem append_ne_empty (a b : String) (hb : b ≠ "") : a ++ b ≠ "" := by
  intro h
  have hd := congrArg String.data h
  simp only [String.data_append] at hd
  have hbd : b.data = [] := (List.append_eq_nil.mp hd).2
  exact hb (String.ext hbd)

/-- A value is blank exactly when its trimmed length is 0. -/
theorem isBlank_some (v : String) :
    isBlank (some v) = true ↔ (js (trim v)).length = 0 := by
  unfold isBlank
  simp only [Bool.or_eq_true, beq_iff_eq]
  constructor
  · intro h
    rcases h with h | h
    · subst h
      rfl
    · exact h
  · intro h
    exact Or.inr h

/-- C21: for a control of the form, a `required` rule and a value that is
`null`, empty or white space only, the computed message is `<label> is
required`, whatever the other keys of the rule; `validateFieldValue` shows it
through `showFieldError` and returns `false`; the labels of the four controls
are Name, Email, Subject and Message. -/
theorem required_check (c : FormController) (cur : List Field) (i : Nat) (f : Field)
    (v : Option String) (r : Rules)
    (hform : c.form = some cur) (hf : cur[i]? = some f)
    (hr : r.required = true)
    (hblank : v = none ∨ ∃ s, v = some s ∧ ∀ ch ∈ s.data, isWhiteSpace ch = true) :
    errorMessage f v r = Except.ok (getFieldLabel f.name ++ " is required") ∧
    validateFieldValue c (some i) v r
      = ⟨showFieldError c i (getFieldLabel f.name ++ " is required"), Except.ok false⟩ ∧
    displays (validateFieldValue c (some i) v r).controller i f.name
      (getFieldLabel f.name ++ " is required") = true ∧
    getFieldLabel "name" = "Name" ∧ getFieldLabel "email" = "Email" ∧
    getFieldLabel "subject" = "Subject" ∧ getFieldLabel "message" = "Message" := by
  have hb : isBlank v = true := by
    rcases hblank with h | ⟨s, h, hs⟩
    · rw [h]; rfl
    · rw [h]
      exact (isBlank_some s).mpr (trim_length_of_blank s hs)
  have hmsg : errorMessage f v r = Except.ok (getFieldLabel f.name ++ " is required") := by
    simp [errorMessage, hr, hb]
  have hne : getFieldLabel f.name ++ " is required" ≠ "" :=
    append_ne_empty _ _ (by decide)
  have hstep := validateFieldValue_found c cur i f v r _ hform hf hmsg
  have hmark : markField c i (getFieldLabel f.name ++ " is required")
      = showFieldError c i (getFieldLabel f.name ++ " is required") := by
    simp [markField, hne]
  refine ⟨hmsg, ?_, ?_, rfl, rfl, rfl, rfl⟩
  · rw [hstep, hmark]
    simp [hne]
  · rw [hstep]
    exact displays_markField c cur i f _ hform hf

/-- An instance of C21: the blank subject of the demonstration form. -/
theorem required_check_witness :
    errorMessage (freshField "subject" "text" "   ") (some "   ")
      { required := true, minLength := some 3 } = Except.ok ("Subject" ++ " is required") :=
  (required_check demoForm
    [freshField "name" "text" "A", freshField "email" "email" "a@b.c",
     freshField "subject" "text" "   ", freshField "message" "textarea" "hello world!"]
    2 (freshField "subject" "text" "   ") (some "   ")
    { required := true, minLength := some 3 } rfl rfl rfl
    (Or.inr ⟨"   ", rfl, by decide⟩)).1

/-- The checks for a `required` rule with a minimum length and no pattern, on a
string value: blank, too short, or accepted. -/
theorem errorMessage_minLength (f : Field) (v : String) (r : Rules) (k : Nat)
    (hr : r.required = true) (hk : r.minLength = some k) (hpos : 0 < k)
    (hp : r.pattern = none) :
    errorMessage f (some v) r =
      if (js (trim v)).length = 0 then Except.ok (getFieldLabel f.name ++ " is required")
      else if (js (trim v)).length < k then
        Except.ok (getFieldLabel f.name ++ " must be at least " ++ toString k ++ " characters")
      else Except.ok "" := by
  have hk0 : ¬ k = 0 := by omega
  by_cases hb : (js (trim v)).length = 0
  · have hbl : isBlank (some v) = true := (isBlank_some v).mpr hb
    simp [errorMessage, hr, hbl, hb]
  · have hbl : isBlank (some v) = false := by
      cases h : isBlank (some v) with
      | false => rfl
      | true => exact absurd ((isBlank_some v).mp h) hb
    by_cases hlt : (js (trim v)).length < k
    · simp [errorMessage, hr, hbl, hb, hk, hk0, hlt]
    · simp [errorMessage, hr, hbl, hb, hk, hk0, hlt, patternMessage, hp]

/-- C22: for the controls `name`, `subject` and `message`, whose rules have the
minimum lengths 2, 3 and 10, `validateFieldValue` returns `true` on a string
value exactly when its trimmed length, in UTF-16 code units as `length`
counts, is at least the minimum; a non-blank
value with a shorter trimmed length gets the message `<label> must be at least
<N> characters`, which is shown, and `false` is returned. -/
theorem minLength_check (c : FormController) (cur : List Field) (i : Nat) (f : Field)
    (v : String) (nr : String × Rules)
    (hform : c.form = some cur) (hf : cur[i]? = some f) (hname : f.name = nr.1)
    (hnr : nr ∈ validationRules) (hne : nr.1 ≠ "email") :
    (nr.1 = "name" ∧ nr.2.minLength = some 2 ∨ nr.1 = "subject" ∧ nr.2.minLength = some 3 ∨
      nr.1 = "message" ∧ nr.2.minLength = some 10) ∧
    ((validateFieldValue c (some i) (some v) nr.2).result = Except.ok true ↔
      nr.2.minLength.getD 0 ≤ (js (trim v)).length) ∧
    (isBlank (some v) = false → (js (trim v)).length < nr.2.minLength.getD 0 →
      errorMessage f (some v) nr.2
        = Except.ok (getFieldLabel nr.1 ++ " must be at least "
            ++ toString (nr.2.minLength.getD 0) ++ " characters") ∧
      (validateFieldValue c (some i) (some v) nr.2).result = Except.ok false ∧
      displays (validateFieldValue c (some i) (some v) nr.2).controller i nr.1
        (getFieldLabel nr.1 ++ " must be at least "
          ++ toString (nr.2.minLength.getD 0) ++ " characters") = true) := by
  obtain ⟨k, hk, hpos, hr, hp, hwhich⟩ : ∃ k, nr.2.minLength = some k ∧ 0 < k ∧
      nr.2.required = true ∧ nr.2.pattern = none ∧
      (nr.1 = "name" ∧ nr.2.minLength = some 2 ∨ nr.1 = "subject" ∧ nr.2.minLength = some 3 ∨
        nr.1 = "message" ∧ nr.2.minLength = some 10) := by
    simp only [validationRules, List.mem_cons, List.mem_singleton, List.not_mem_nil,
      or_false] at hnr
    rcases hnr with h | h | h | h
    · subst h; exact ⟨2, rfl, by decide, rfl, rfl, Or.inl ⟨rfl, rfl⟩⟩
    · subst h; exact absurd rfl hne
    · subst h; exact ⟨3, rfl, by decide, rfl, rfl, Or.inr (Or.inl ⟨rfl, rfl⟩)⟩
    · subst h; exact ⟨10, rfl, by decide, rfl, rfl, Or.inr (Or.inr ⟨rfl, rfl⟩)⟩
  have hmsg := errorMessage_minLength f v nr.2 k hr hk hpos hp
  have hgetD : nr.2.minLength.getD 0 = k := by rw [hk]; rfl
  rw [hgetD]
  refine ⟨hwhich, ?_, ?_⟩
  · by_cases hb : (js (trim v)).length = 0
    · rw [if_pos hb] at hmsg
      rw [validateFieldValue_found c cur i f _ _ _ hform hf hmsg]
      have hne2 : getFieldLabel f.name ++ " is required" ≠ "" :=
        append_ne_empty _ _ (by decide)
      constructor
      · intro h
        injection h with h
        simp [hne2] at h
      · intro h
        omega
    · rw [if_neg hb] at hmsg
      by_cases hlt : (js (trim v)).length < k
      · rw [if_pos hlt] at hmsg
        rw [validateFieldValue_found c cur i f _ _ _ hform hf hmsg]
        have hne2 : getFieldLabel f.name ++ " must be at least " ++ toString k
            ++ " characters" ≠ "" := append_ne_empty _ _ (by decide)
        constructor
        · intro h
          injection h with h
          simp [hne2] at h
        · intro h
          omega
      · rw [if_neg hlt] at hmsg
        rw [validateFieldValue_found c cur i f _ _ _ hform hf hmsg]
        constructor
        · intro _
          omega
        · intro _
          rfl
  · intro hbl hlt
    have hb : ¬ (js (trim v)).length = 0 := by
      intro h
      rw [(isBlank_some v).mpr h] at hbl
      exact absurd hbl (by simp)
    rw [if_neg hb, if_pos hlt, hname] at hmsg
    have hne2 : getFieldLabel nr.1 ++ " must be at least " ++ toString k
        ++ " characters" ≠ "" := append_ne_empty _ _ (by decide)
    rw [validateFieldValue_found c cur i f _ _ _ hform hf hmsg]
    refine ⟨hmsg, ?_, ?_⟩
    · simp [hne2]
    · rw [← hname]
      exact displays_markField c cur i f _ hform hf

/-- An instance of C22: the name ` A ` trims to one code unit and gets the
message; the name of one emoji between blanks trims to two code units, a
surrogate pair, and is accepted. -/
theorem minLength_check_witness :
    (js (trim " A ")).length = 1 ∧
    errorMessage (freshField "name" "text" "A") (some " A ")
        { required := true, minLength := some 2 }
      = Except.ok ("Name" ++ " must be at least " ++ "2" ++ " characters") ∧
    (js (trim " 😀 ")).length = 2 ∧
    (validateFieldValue demoForm (some 0) (some " 😀 ")
        { required := true, minLength := some 2 }).result = Except.ok true :=
  ⟨by decide,
   ((minLength_check demoForm
    [freshField "name" "text" "A", freshField "email" "email" "a@b.c",
     freshField "subject" "text" "   ", freshField "message" "textarea" "hello world!"]
    0 (freshField "name" "text" "A") " A "
    ("name", { required := true, minLength := some 2 }) rfl rfl rfl
    (by simp [validationRules]) (by decide)).2.2 (by decide) (by decide)).1,
   by decide,
   (minLength_check demoForm
    [freshField "name" "text" "A", freshField "email" "email" "a@b.c",
     freshField "subject" "text" "   ", freshField "message" "textarea" "hello world!"]
    0 (freshField "name" "text" "A") " 😀 "
    ("name", { required := true, minLength := some 2 }) rfl rfl rfl
    (by simp [validationRules]) (by decide)).2.1.mpr (by decide)⟩

/-- A list splits around any of its positions. -/
theorem split_at_getElem? (l : List Char) (i : Nat) (x : Char) (h : l[i]? = some x) :
    l = l.take i ++ x :: l.drop (i + 1) := by
  have hlt : i < l.length := by
    by_contra hge
    rw [List.getElem?_eq_none (by omega)] at h
    simp at h
  have hx : l[i] = x := by
    rw [List.getElem?_eq_getElem hlt] at h
    exact Option.some.inj h
  conv_lhs => rw [← List.take_append_drop i l]
  rw [List.drop_eq_getElem_cons hlt, hx]

/-- The pattern test succeeds exactly on the strings of the shape `AddressSplit`. -/
theorem emailPattern_iff_split (s : String) :
    emailPattern s = true ↔ AddressSplit s.data := by
  constructor
  · intro h
    unfold emailPattern at h
    simp only [List.any_eq_true, List.mem_range, Bool.and_eq_true, decide_eq_true_eq,
      beq_iff_eq, List.all_eq_true] at h
    obtain ⟨i, _, j, _, ⟨⟨⟨⟨⟨⟨⟨h0, h1⟩, h2⟩, h3⟩, h4⟩, h5⟩, h6⟩, h7⟩⟩ := h
    have e1 := split_at_getElem? s.data i '@' h3
    have h4b : (s.data.drop (i + 1))[j - (i + 1)]? = some '.' := by
      rw [List.getElem?_drop]
      have : i + 1 + (j - (i + 1)) = j := by omega
      rw [this]
      exact h4
    have e2 := split_at_getElem? (s.data.drop (i + 1)) (j - (i + 1)) '.' h4b
    have e3 : (s.data.drop (i + 1)).drop (j - (i + 1) + 1) = s.data.drop (j + 1) := by
      rw [List.drop_drop]
      congr 1
      omega
    rw [e3] at e2
    refine ⟨s.data.take i, (s.data.drop (i + 1)).take (j - (i + 1)), s.data.drop (j + 1),
      ?_, ?_, ?_, ?_, h5, h6, h7⟩
    · rw [← e2]
      exact e1
    · intro hnil
      have := congrArg List.length hnil
      simp only [List.length_take, List.length_nil] at this
      omega
    · intro hnil
      have := congrArg List.length hnil
      simp only [List.length_take, List.length_drop, List.length_nil] at this
      omega
    · intro hnil
      have := congrArg List.length hnil
      simp only [List.length_drop, List.length_nil] at this
      omega
  · rintro ⟨a, b, c, hl, ha, hb, hc, haa, hbb, hcc⟩
    have hal : 0 < a.length := List.length_pos.mpr ha
    have hbl : 0 < b.length := List.length_pos.mpr hb
    have hcl : 0 < c.length := List.length_pos.mpr hc
    unfold emailPattern
    simp only [List.any_eq_true, List.mem_range, Bool.and_eq_true, decide_eq_true_eq,
      beq_iff_eq, List.all_eq_true]
    have hlen : s.data.length = a.length + 1 + (b.length + 1 + c.length) := by
      rw [hl]
      simp only [List.length_append, List.length_cons]
      omega
    refine ⟨a.length, by omega, a.length + 1 + b.length, by omega, ?_⟩
    have g1 : s.data[a.length]? = some '@' := by
      rw [hl, List.getElem?_append_right (Nat.le_refl _), Nat.sub_self,
        List.getElem?_cons_zero]
    have g2 : s.data[a.length + 1 + b.length]? = some '.' := by
      rw [hl, List.getElem?_append_right (by omega)]
      have : a.length + 1 + b.length - a.length = b.length + 1 := by omega
      rw [this, List.getElem?_cons_succ, List.getElem?_append_right (Nat.le_refl _),
        Nat.sub_self, List.getElem?_cons_zero]
    have g3 : s.data.take a.length = a := by
      rw [hl]
      simp
    have g4 : s.data.drop (a.length + 1) = b ++ '.' :: c := by
      rw [hl, ← List.drop_drop]
      simp
    have g5 : (s.data.drop (a.length + 1)).take (a.length + 1 + b.length - (a.length + 1))
        = b := by
      rw [g4]
      have : a.length + 1 + b.length - (a.length + 1) = b.length := by omega
      rw [this]
      simp
    have g6 : s.data.drop (a.length + 1 + b.length + 1) = c := by
      have : a.length + 1 + b.length + 1 = (a.length + 1) + (b.length + 1) := by omega
      rw [this, ← List.drop_drop, g4, ← List.drop_drop]
      simp
    rw [g3, g5, g6]
    exact ⟨⟨⟨⟨⟨⟨⟨hal, by omega⟩, by omega⟩, g1⟩, g2⟩, haa⟩, hbb⟩, hcc⟩

/-- A character of the class is no white space and not `@`. -/
theorem isAddressChar_iff (x : Char) :
    isAddressChar x = true ↔ isWhiteSpace x = false ∧ x ≠ '@' := by
  simp [isAddressChar]

/-- The acceptance condition in words describes the same strings as the shape
of a pattern match. -/
theorem emailAccepted_iff_split (s : String) : EmailAccepted s ↔ AddressSplit s.data := by
  constructor
  · rintro ⟨hws, hcount, before, after, hs, hbne, p, q, hafter, hp, hq⟩
    subst hafter
    rw [hs] at hcount
    simp only [List.count_append, List.count_cons, beq_self_eq_true, if_true] at hcount
    have hdot : (('.' : Char) == '@') = false := by decide
    simp only [hdot, Bool.false_eq_true, if_false, Nat.add_zero] at hcount
    have hb0 : List.count '@' before = 0 := by omega
    have hp0 : List.count '@' p = 0 := by omega
    have hq0 : List.count '@' q = 0 := by omega
    have hmem : ∀ x, x ∈ before ∨ x ∈ p ∨ x ∈ q → x ∈ s.data := by
      intro x hx
      rw [hs]
      simp only [List.mem_append, List.mem_cons]
      rcases hx with h | h | h
      · exact Or.inl h
      · exact Or.inr (Or.inr (Or.inl h))
      · exact Or.inr (Or.inr (Or.inr (Or.inr h)))
    refine ⟨before, p, q, hs, hbne, hp, hq, ?_, ?_, ?_⟩
    · intro x hx
      exact (isAddressChar_iff x).mpr ⟨hws x (hmem x (Or.inl hx)),
        fun h => List.count_eq_zero.mp hb0 (h ▸ hx)⟩
    · intro x hx
      exact (isAddressChar_iff x).mpr ⟨hws x (hmem x (Or.inr (Or.inl hx))),
        fun h => List.count_eq_zero.mp hp0 (h ▸ hx)⟩
    · intro x hx
      exact (isAddressChar_iff x).mpr ⟨hws x (hmem x (Or.inr (Or.inr hx))),
        fun h => List.count_eq_zero.mp hq0 (h ▸ hx)⟩
  · rintro ⟨a, b, c, hl, ha, hb, hc, haa, hbb, hcc⟩
    have hcnt : ∀ l : List Char, (∀ x ∈ l, isAddressChar x = true) → List.count '@' l = 0 := by
      intro l hall
      rw [List.count_eq_zero]
      intro hmem
      exact ((isAddressChar_iff _).mp (hall _ hmem)).2 rfl
    refine ⟨?_, ?_, a, b ++ '.' :: c, hl, ha, b, c, rfl, hb, hc⟩
    · intro x hx
      rw [hl] at hx
      simp only [List.mem_append, List.mem_cons] at hx
      rcases hx with h | h | h | h | h
      · exact ((isAddressChar_iff x).mp (haa x h)).1
      · rw [h]; decide
      · exact ((isAddressChar_iff x).mp (hbb x h)).1
      · rw [h]; decide
      · exact ((isAddressChar_iff x).mp (hcc x h)).1
    · rw [hl]
      simp only [List.count_append, List.count_cons, beq_self_eq_true, if_true]
      have hdot : (('.' : Char) == '@') = false := by decide
      simp only [hdot, Bool.false_eq_true, if_false, Nat.add_zero]
      rw [hcnt a haa, hcnt b hbb, hcnt c hcc]

/-- A string without white space trims to itself. -/
theorem trim_of_no_whiteSpace (s : String) (h : ∀ x ∈ s.data, isWhiteSpace x = false) :
    trim s = s := by
  have hdrop : ∀ l : List Char, (∀ x ∈ l, isWhiteSpace x = false) →
      l.dropWhile isWhiteSpace = l := by
    intro l hl
    cases l with
    | nil => rfl
    | cons x xs => simp [List.dropWhile, hl x (List.mem_cons_self _ _)]
  unfold trim
  rw [hdrop s.data h, hdrop s.data.reverse (fun x hx => h x (List.mem_reverse.mp hx)),
    List.reverse_reverse]

/-- An accepted email value is not blank. -/
theorem not_blank_of_emailAccepted (v : String) (h : EmailAccepted v) :
    isBlank (some v) = false := by
  cases hb : isBlank (some v) with
  | false => rfl
  | true =>
    exfalso
    have hlen := (isBlank_some v).mp hb
    rw [trim_of_no_whiteSpace v h.1] at hlen
    obtain ⟨_, _, before, after, hs, _, _⟩ := h
    have hnil := (Typewriter.js_length_eq_zero v).mp hlen
    rw [hs] at hnil
    simp at hnil

/-- C23: for the `email` rule of `validationRules`, `validateFieldValue` returns
`true` on a string value exactly when the value, untrimmed, has no white
space, exactly one `@`, at least one character before it and, after it, a `.`
that is neither first nor last; every other non-blank value of a control of
type `email` gets the message `Please enter a valid email address`, which is
shown, and `false` is returned. -/
theorem email_check (c : FormController) (cur : List Field) (i : Nat) (f : Field)
    (v : String) (nr : String × Rules)
    (hform : c.form = some cur) (hf : cur[i]? = some f)
    (hnr : nr ∈ validationRules) (hemail : nr.1 = "email") :
    ((validateFieldValue c (some i) (some v) nr.2).result = Except.ok true ↔
      EmailAccepted v) ∧
    (isBlank (some v) = false → ¬ EmailAccepted v → f.type = "email" →
      errorMessage f (some v) nr.2 = Except.ok "Please enter a valid email address" ∧
      (validateFieldValue c (some i) (some v) nr.2).result = Except.ok false ∧
      displays (validateFieldValue c (some i) (some v) nr.2).controller i f.name
        "Please enter a valid email address" = true) := by
  have hrule : nr.2.required = true ∧ nr.2.minLength = none ∧
      nr.2.pattern = some emailPattern := by
    simp only [validationRules, List.mem_cons, List.mem_singleton, List.not_mem_nil,
      or_false] at hnr
    rcases hnr with h | h | h | h
    · subst h; exact absurd hemail (by decide)
    · subst h; exact ⟨rfl, rfl, rfl⟩
    · subst h; exact absurd hemail (by decide)
    · subst h; exact absurd hemail (by decide)
  obtain ⟨hr, hmin, hpat⟩ := hrule
  have hacc : emailPattern v = true ↔ EmailAccepted v :=
    (emailPattern_iff_split v).trans (emailAccepted_iff_split v).symm
  constructor
  · by_cases hb : isBlank (some v) = true
    · have hmsg : errorMessage f (some v) nr.2
          = Except.ok (getFieldLabel f.name ++ " is required") := by
        simp [errorMessage, hr, hb]
      rw [validateFieldValue_found c cur i f _ _ _ hform hf hmsg]
      have hne2 : getFieldLabel f.name ++ " is required" ≠ "" :=
        append_ne_empty _ _ (by decide)
      constructor
      · intro h
        injection h with h
        simp [hne2] at h
      · intro h
        rw [not_blank_of_emailAccepted v h] at hb
        exact absurd hb (by simp)
    · have hbf : isBlank (some v) = false := by
        cases h : isBlank (some v) with
        | false => rfl
        | true => exact absurd h hb
      by_cases hp : emailPattern v = true
      · have hmsg : errorMessage f (some v) nr.2 = Except.ok "" := by
          simp [errorMessage, hr, hbf, hmin, patternMessage, hpat, hp]
        rw [validateFieldValue_found c cur i f _ _ _ hform hf hmsg]
        exact ⟨fun _ => hacc.mp hp, fun _ => rfl⟩
      · have hpf : emailPattern v = false := by
          cases h : emailPattern v with
          | false => rfl
          | true => exact absurd h hp
        have hmsg : errorMessage f (some v) nr.2
            = Except.ok (if f.type = "email" then "Please enter a valid email address"
                else getFieldLabel f.name ++ " format is invalid") := by
          simp [errorMessage, hr, hbf, hmin, patternMessage, hpat, hpf]
        have hne2 : (if f.type = "email" then "Please enter a valid email address"
            else getFieldLabel f.name ++ " format is invalid") ≠ "" := by
          split
          · decide
          · exact append_ne_empty _ _ (by decide)
        rw [validateFieldValue_found c cur i f _ _ _ hform hf hmsg]
        constructor
        · intro h
          injection h with h
          simp [hne2] at h
        · intro h
          exact absurd (hacc.mpr h) hp
  · intro hbf hna htype
    have hpf : emailPattern v = false := by
      cases h : emailPattern v with
      | false => rfl
      | true => exact absurd (hacc.mp h) hna
    have hmsg : errorMessage f (some v) nr.2
        = Except.ok "Please enter a valid email address" := by
      simp [errorMessage, hr, hbf, hmin, patternMessage, hpat, hpf, htype]
    rw [validateFieldValue_found c cur i f _ _ _ hform hf hmsg]
    refine ⟨hmsg, ?_, displays_markField c cur i f _ hform hf⟩
    have hne2 : ("Please enter a valid email address" : String) ≠ "" := by decide
    simp [hne2]

/-- An instance of C23: the value `a@b` on the email control of the
demonstration form is rejected with the email message. -/
theorem email_check_witness :
    errorMessage (freshField "email" "email" "a@b.c") (some "a@b")
        { required := true, pattern := some emailPattern }
      = Except.ok "Please enter a valid email address" :=
  ((email_check demoForm
    [freshField "name" "text" "A", freshField "email" "email" "a@b.c",
     freshField "subject" "text" "   ", freshField "message" "textarea" "hello world!"]
    1 (freshField "email" "email" "a@b.c") "a@b"
    ("email", { required := true, pattern := some emailPattern }) rfl rfl
    (by simp [validationRules]) rfl).2 (by decide)
    (fun h => absurd ((emailPattern_iff_split "a@b").mpr
      ((emailAccepted_iff_split "a@b").mp h)) (by decide)) rfl).1

/-! ## Submission -/

/-- Showing an error leaves `isSubmitting`. -/
theorem showFieldError_isSubmitting (c : FormController) (i : Nat) (m : String) :
    (showFieldError c i m).isSubmitting = c.isSubmitting := by
  unfold showFieldError
  cases fieldAt c i <;> rfl

/-- Clearing an error leaves `isSubmitting`. -/
theorem clearFieldError_isSubmitting (c : FormController) (i : Nat) :
    (clearFieldError c i).isSubmitting = c.isSubmitting := by
  unfold clearFieldError
  cases fieldAt c i <;> rfl

/-- Validating a value leaves `isSubmitting`, also when it throws. -/
theorem validateFieldValue_isSubmitting (c : FormController) (field : Option Nat)
    (v : Option String) (r : Rules) :
    (validateFieldValue c field v r).controller.isSubmitting = c.isSubmitting := by
  unfold validateFieldValue
  cases field with
  | none => rfl
  | some i =>
    simp only
    cases fieldAt c i with
    | none => rfl
    | some f =>
      simp only
      cases errorMessage f v r with
      | error e => rfl
      | ok msg =>
        simp only
        split
        · exact showFieldError_isSubmitting c i msg
        · exact clearFieldError_isSubmitting c i

/-- The validation loop leaves `isSubmitting`, also when it throws. -/
theorem validateLoop_isSubmitting (formData : List Field) (L : List (String × Rules)) :
    ∀ (c : FormController) (b : Bool),
      (validateLoop formData L c b).controller.isSubmitting = c.isSubmitting := by
  induction L with
  | nil => intro c b; rfl
  | cons nr rest ih =>
    intro c b
    obtain ⟨n, r⟩ := nr
    have h := validateFieldValue_isSubmitting c (querySelectorByName (c.form.getD []) n)
      (formDataGet formData n) r
    unfold validateLoop
    cases hres : validateFieldValue c (querySelectorByName (c.form.getD []) n)
        (formDataGet formData n) r with
    | mk c1 res =>
      rw [hres] at h
      cases res with
      | error e => exact h
      | ok x => exact (ih c1 _).trans h

/-- The method `validateForm` leaves `isSubmitting`, also when it throws. -/
theorem validateForm_isSubmitting (c : FormController) :
    (validateForm c).controller.isSubmitting = c.isSubmitting := by
  unfold validateForm
  cases c.form with
  | none => rfl
  | some fs => exact validateLoop_isSubmitting fs validationRules c true

/-- The method `validateField` leaves `isSubmitting`, also when it throws. -/
theorem validateField_isSubmitting (c : FormController) (i : Nat) :
    (validateField c i).controller.isSubmitting = c.isSubmitting := by
  unfold validateField
  cases fieldAt c i with
  | none => rfl
  | some f =>
    simp only
    cases validationRules.find? (fun nr => nr.1 == f.name) with
    | none => rfl
    | some nr => exact validateFieldValue_isSubmitting c _ _ _

/-- The button state touches neither the controller nor the pending work. -/
theorem setSubmitButtonState_frame (p : Page) (b : Bool) :
    (setSubmitButtonState p b).page.controller = p.controller ∧
    (setSubmitButtonState p b).page.tasks = p.tasks := by
  unfold setSubmitButtonState
  cases p.submitBtn with
  | none => exact ⟨rfl, rfl⟩
  | some btn =>
    simp only
    cases btn.btnText with
    | none => exact ⟨rfl, rfl⟩
    | some _ =>
      simp only
      cases btn.btnLoading with
      | none => exact ⟨rfl, rfl⟩
      | some _ => exact ⟨rfl, rfl⟩

/-- The method `showSuccess` adds at most the callback that shows the form again. -/
theorem showSuccess_tasks (p : Page) :
    (showSuccess p).page.tasks = p.tasks ∨
    (showSuccess p).page.tasks = p.tasks ++ [Task.reshowForm] := by
  unfold showSuccess
  cases p.controller.form with
  | none => exact Or.inl rfl
  | some _ =>
    simp only
    cases p.successMessage with
    | none => exact Or.inl rfl
    | some _ => exact Or.inr rfl

/-- The method `resetForm` leaves the pending work. -/
theorem resetForm_tasks (p : Page) : (resetForm p).page.tasks = p.tasks := by
  unfold resetForm
  cases p.controller.form <;> rfl

/-- The second half of `submitForm` clears `isSubmitting` on every path and
adds at most the callback that shows the form again. -/
theorem resumeSubmit_effect (p : Page) :
    (resumeSubmit p).page.controller.isSubmitting = false ∧
    ((resumeSubmit p).page.tasks = p.tasks ∨
      (resumeSubmit p).page.tasks = p.tasks ++ [Task.reshowForm]) := by
  unfold resumeSubmit
  simp only
  constructor
  · rw [(setSubmitButtonState_frame _ _).1]
  · rw [(setSubmitButtonState_frame _ _).2]
    simp only
    have hshow := showSuccess_tasks p
    cases hs : showSuccess p with
    | mk q e =>
      rw [hs] at hshow
      cases e with
      | some e => simpa [showError] using hshow
      | none =>
        simp only
        have hr := resetForm_tasks q
        cases hth : (resetForm q).thrown with
        | none => simpa [hth, hr] using hshow
        | some e2 => simpa [hth, hr, showError] using hshow

/-- The first half of `submitForm` sets `isSubmitting` and leaves at most one
more submission waiting. -/
theorem submitForm_effect (p : Page) :
    (submitForm p).page.controller.isSubmitting = true ∧
    ((submitForm p).thrown ≠ none ∧ (submitForm p).page.tasks = p.tasks ∨
      (submitForm p).thrown = none ∧
        (submitForm p).page.tasks = p.tasks ++ [Task.resumeSubmit]) := by
  unfold submitForm
  simp only
  have hf := setSubmitButtonState_frame
    { p with controller := { p.controller with isSubmitting := true } } true
  cases hs : setSubmitButtonState
      { p with controller := { p.controller with isSubmitting := true } } true with
  | mk q e =>
    rw [hs] at hf
    have hc : q.controller = { p.controller with isSubmitting := true } := hf.1
    have ht : q.tasks = p.tasks := hf.2
    cases e with
    | some e =>
      exact ⟨by show q.controller.isSubmitting = true; rw [hc], Or.inl ⟨by simp, ht⟩⟩
    | none =>
      exact ⟨by show q.controller.isSubmitting = true; rw [hc],
        Or.inr ⟨rfl, by show q.tasks ++ [Task.resumeSubmit] = _; rw [ht]⟩⟩

/-- Removing the entry at a position lowers the count of exactly that entry. -/
theorem count_eraseIdx_of_getElem? (l : List Task) (i : Nat) (x y : Task)
    (h : l[i]? = some x) :
    l.count y = (l.eraseIdx i).count y + (if x = y then 1 else 0) := by
  induction l generalizing i with
  | nil => simp at h
  | cons a l ih =>
    cases i with
    | zero =>
      simp only [List.getElem?_cons_zero, Option.some.injEq] at h
      subst h
      simp [List.count_cons]
    | succ i =>
      simp only [List.getElem?_cons_succ] at h
      simp only [List.eraseIdx_cons_succ, List.count_cons]
      rw [ih i h]
      omega

/-- What the submit handler does on a controller that is not submitting: it
validates, and starts `submitForm` exactly when the validation returned `true`. -/
theorem handleSubmit_cases (p : Page) (h : p.controller.isSubmitting = false) :
    ((validateForm p.controller).result = Except.ok true ∧
      (handleSubmit p).page
        = (submitForm { p with controller := (validateForm p.controller).controller }).page) ∨
    ((validateForm p.controller).result ≠ Except.ok true ∧
      (handleSubmit p).page
        = { p with controller := (validateForm p.controller).controller }) := by
  unfold handleSubmit
  simp only [h, Bool.false_eq_true, if_false]
  cases validateForm p.controller with
  | mk c1 res =>
    cases res with
    | error e => exact Or.inr ⟨by simp, rfl⟩
    | ok b =>
      cases b with
      | true => exact Or.inl ⟨rfl, rfl⟩
      | false => exact Or.inr ⟨by simp, rfl⟩

/-- The submit handler keeps at most one submission in flight. -/
theorem handleSubmit_inFlight (p : Page)
    (hinv : inFlight p ≤ 1 ∧ (inFlight p = 1 → p.controller.isSubmitting = true)) :
    inFlight (handleSubmit p).page ≤ 1 ∧
    (inFlight (handleSubmit p).page = 1 →
      (handleSubmit p).page.controller.isSubmitting = true) := by
  rcases Bool.eq_false_or_eq_true p.controller.isSubmitting with hs | hs
  · have hp : handleSubmit p = ⟨p, none⟩ := by simp [handleSubmit, hs]
    rw [hp]
    exact hinv
  · have h0 : inFlight p = 0 := by
      have h1 := hinv.1
      have h2 := hinv.2
      by_contra hne
      have : inFlight p = 1 := by omega
      rw [h2 this] at hs
      exact absurd hs (by simp)
    rcases handleSubmit_cases p hs with ⟨_, hpage⟩ | ⟨_, hpage⟩
    · rw [hpage]
      obtain ⟨ht, hcases⟩ :=
        submitForm_effect { p with controller := (validateForm p.controller).controller }
      refine ⟨?_, fun _ => ht⟩
      rcases hcases with ⟨_, htk⟩ | ⟨_, htk⟩
      · unfold inFlight at h0 ⊢
        rw [htk]
        show List.count Task.resumeSubmit p.tasks ≤ 1
        omega
      · unfold inFlight at h0 ⊢
        rw [htk]
        show List.count Task.resumeSubmit (p.tasks ++ [Task.resumeSubmit]) ≤ 1
        simp [List.count_append, h0]
    · rw [hpage]
      have : inFlight { p with controller := (validateForm p.controller).controller }
          = inFlight p := rfl
      rw [this, h0]
      exact ⟨by omega, fun h => absurd h (by omega)⟩

/-- Running pending work keeps at most one submission in flight. -/
theorem runTask_inFlight (i : Nat) (p : Page)
    (hinv : inFlight p ≤ 1 ∧ (inFlight p = 1 → p.controller.isSubmitting = true)) :
    inFlight (runTask i p) ≤ 1 ∧
    (inFlight (runTask i p) = 1 → (runTask i p).controller.isSubmitting = true) := by
  unfold runTask
  cases hti : p.tasks[i]? with
  | none => exact hinv
  | some tk =>
    cases tk with
    | resumeSubmit =>
      simp only
      have hc := count_eraseIdx_of_getElem? p.tasks i Task.resumeSubmit Task.resumeSubmit hti
      simp only [if_true] at hc
      have h0 : List.count Task.resumeSubmit (p.tasks.eraseIdx i) = 0 := by
        have := hinv.1
        unfold inFlight at this
        omega
      obtain ⟨_, htk⟩ := resumeSubmit_effect { p with tasks := p.tasks.eraseIdx i }
      have hz : inFlight (resumeSubmit { p with tasks := p.tasks.eraseIdx i }).page = 0 := by
        unfold inFlight
        rcases htk with h | h
        · rw [h]; exact h0
        · rw [h]
          show List.count Task.resumeSubmit (p.tasks.eraseIdx i ++ [Task.reshowForm]) = 0
          simp [List.count_append, h0]
      rw [hz]
      exact ⟨by omega, fun h => absurd h (by omega)⟩
    | reshowForm =>
      simp only
      have hc := count_eraseIdx_of_getElem? p.tasks i Task.reshowForm Task.resumeSubmit hti
      simp only [reduceCtorEq, if_false, Nat.add_zero] at hc
      have hsame : ∀ q : Page, q.tasks = p.tasks.eraseIdx i → inFlight q = inFlight p := by
        intro q hq
        unfold inFlight
        rw [hq]
        exact hc.symm
      rw [hsame _ rfl]
      exact hinv

/-- An input event keeps the submissions in flight and `isSubmitting`. -/
theorem inputEvent_frame (p : Page) (i : Nat) (v : String) :
    inFlight (inputEvent p i v) = inFlight p ∧
    (inputEvent p i v).controller.isSubmitting = p.controller.isSubmitting := by
  refine ⟨rfl, ?_⟩
  unfold inputEvent
  simp only
  rw [clearFieldError_isSubmitting]

/-- A blur event keeps the submissions in flight and `isSubmitting`. -/
theorem blurEvent_frame (p : Page) (i : Nat) :
    inFlight (blurEvent p i) = inFlight p ∧
    (blurEvent p i).controller.isSubmitting = p.controller.isSubmitting := by
  refine ⟨rfl, ?_⟩
  unfold blurEvent
  simp only
  rw [validateField_isSubmitting]

/-- The submit handler does nothing while `isSubmitting` is set, neither
validation nor submission; `submitForm` sets `isSubmitting` on entry and, when
the submit button with its two children is there, waits at its `await`; its
second half clears `isSubmitting` on the success and on the failure path
alike; the handler starts `submitForm` exactly when `validateForm` returned
`true`; and on every page reached from one with no pending work, by submit
events, pending work, input and blur events, at most one submission is in
flight, with `isSubmitting` set while it is. -/
theorem submission_protocol (p : Page) :
    (p.controller.isSubmitting = true → handleSubmit p = ⟨p, none⟩) ∧
    (submitForm p).page.controller.isSubmitting = true ∧
    ((submitForm p).thrown = none →
      (submitForm p).page.tasks = p.tasks ++ [Task.resumeSubmit]) ∧
    (∀ b t l, p.submitBtn = some b → b.btnText = some t → b.btnLoading = some l →
      (submitForm p).thrown = none) ∧
    (resumeSubmit p).page.controller.isSubmitting = false ∧
    inFlight (resumeSubmit p).page = inFlight p ∧
    (p.controller.isSubmitting = false →
      ((handleSubmit p).page.controller.isSubmitting = true ↔
        (validateForm p.controller).result = Except.ok true)) ∧
    ((handleSubmit p).page.tasks ≠ p.tasks →
      (validateForm p.controller).result = Except.ok true ∧
      (handleSubmit p).page.tasks = p.tasks ++ [Task.resumeSubmit]) ∧
    (p.tasks = [] → ∀ u, PageReachable p u →
      inFlight u ≤ 1 ∧ (inFlight u = 1 → u.controller.isSubmitting = true)) := by
  refine ⟨?_, (submitForm_effect p).1, ?_, ?_, (resumeSubmit_effect p).1, ?_, ?_, ?_, ?_⟩
  · intro hs
    simp [handleSubmit, hs]
  · intro hth
    rcases (submitForm_effect p).2 with ⟨hne, _⟩ | ⟨_, htk⟩
    · exact absurd hth hne
    · exact htk
  · intro b t l hb ht hl
    simp [submitForm, setSubmitButtonState, hb, ht, hl]
  · unfold inFlight
    rcases (resumeSubmit_effect p).2 with h | h
    · rw [h]
    · rw [h]
      simp [List.count_append]
  · intro hs
    rcases handleSubmit_cases p hs with ⟨hv, hpage⟩ | ⟨hv, hpage⟩
    · rw [hpage]
      exact ⟨fun _ => hv, fun _ => (submitForm_effect _).1⟩
    · rw [hpage]
      constructor
      · intro h
        have h2 : (validateForm p.controller).controller.isSubmitting = true := h
        rw [validateForm_isSubmitting, hs] at h2
        exact absurd h2 (by simp)
      · intro h
        exact absurd h hv
  · intro hne
    rcases Bool.eq_false_or_eq_true p.controller.isSubmitting with hs | hs
    · have hp : handleSubmit p = ⟨p, none⟩ := by simp [handleSubmit, hs]
      rw [hp] at hne
      exact absurd rfl hne
    · rcases handleSubmit_cases p hs with ⟨hv, hpage⟩ | ⟨_, hpage⟩
      · rw [hpage] at hne ⊢
        rcases (submitForm_effect
          { p with controller := (validateForm p.controller).controller }).2
          with ⟨_, htk⟩ | ⟨_, htk⟩
        · exact absurd htk hne
        · exact ⟨hv, htk⟩
      · rw [hpage] at hne
        exact absurd rfl hne
  · intro hnil u hu
    induction hu with
    | start =>
      unfold inFlight
      rw [hnil]
      exact ⟨by simp, fun h => absurd h (by simp)⟩
    | submit _ ih => exact handleSubmit_inFlight _ ih
    | task i _ ih => exact runTask_inFlight i _ ih
    | input i v _ ih =>
      rw [(inputEvent_frame _ i v).1, (inputEvent_frame _ i v).2]
      exact ih
    | blur i _ ih =>
      rw [(blurEvent_frame _ i).1, (blurEvent_frame _ i).2]
      exact ih

/-- On the valid demonstration page a submit starts one submission; a second
submit while it is in flight changes nothing; when the submission completes
`isSubmitting` is cleared. -/
theorem submission_protocol_demo :
    (handleSubmit demoPage).page.tasks = [] ++ [Task.resumeSubmit] ∧
    handleSubmit (handleSubmit demoPage).page = ⟨(handleSubmit demoPage).page, none⟩ ∧
    (resumeSubmit (handleSubmit demoPage).page).page.controller.isSubmitting = false ∧
    inFlight (handleSubmit (handleSubmit demoPage).page).page ≤ 1 :=
  ⟨((submission_protocol demoPage).2.2.2.2.2.2.2.1 (by decide)).2,
   (submission_protocol (handleSubmit demoPage).page).1 (by decide),
   (submission_protocol (handleSubmit demoPage).page).2.2.2.2.1,
   ((submission_protocol demoPage).2.2.2.2.2.2.2.2 rfl _
      (PageReachable.submit (PageReachable.submit PageReachable.start))).1⟩

/-- A page with `isSubmitting` set and no pending work stays so under every
event: each submit is dropped by the guard of line 45 and nothing is left to
clear the flag. -/
theorem stuck_submitting (p : Page) (hs : p.controller.isSubmitting = true)
    (ht : p.tasks = []) (u : Page) (hu : PageReachable p u) :
    u.controller.isSubmitting = true ∧ u.tasks = [] := by
  induction hu with
  | start => exact ⟨hs, ht⟩
  | submit _ ih =>
    have hp : ∀ q : Page, q.controller.isSubmitting = true → handleSubmit q = ⟨q, none⟩ := by
      intro q hq
      simp [handleSubmit, hq]
    rw [hp _ ih.1]
    exact ih
  | task i _ ih =>
    have hp : ∀ q : Page, q.tasks = [] → runTask i q = q := by
      intro q hq
      simp [runTask, hq]
    rw [hp _ ih.2]
    exact ih
  | input i v _ ih =>
    exact ⟨by rw [(inputEvent_frame _ i v).2]; exact ih.1, ih.2⟩
  | blur i _ ih =>
    exact ⟨by rw [(blurEvent_frame _ i).2]; exact ih.1, ih.2⟩

/-- C24, the code at the failing input: the valid form on a page without
`#submitBtn`.  The form validates, so the submit handler calls `submitForm`,
which sets `isSubmitting` and then throws a `TypeError` in
`setSubmitButtonState(true)`, before its `try` block: the call is over with
nothing pending and `isSubmitting` still set, where the claim has it back to
`false`.  Every later submit event is dropped by the guard, and the flag
stays set on every page reached from there. -/
theorem submit_without_button_stays_submitting :
    noButtonPage.controller.isSubmitting = false ∧
    (validateForm noButtonPage.controller).result = Except.ok true ∧
    (submitForm { noButtonPage with
        controller := (validateForm noButtonPage.controller).controller }).thrown
      = some typeError ∧
    (handleSubmit noButtonPage).page.controller.isSubmitting = true ∧
    (handleSubmit noButtonPage).page.tasks = [] ∧
    handleSubmit (handleSubmit noButtonPage).page = ⟨(handleSubmit noButtonPage).page, none⟩ ∧
    (∀ u, PageReachable (handleSubmit noButtonPage).page u →
      u.controller.isSubmitting = true ∧ u.tasks = []) :=
  ⟨rfl, rfl, rfl, rfl, rfl, rfl,
   fun u hu => stuck_submitting (handleSubmit noButtonPage).page rfl rfl u hu⟩

end Forms

/-!
# Konami code: detection
-/

namespace Konami

/-- The value of a decimal digit character. -/
theorem digitChar_value (k : Nat) (hk : k < 10) : (Nat.digitChar k).toNat - 48 = k := by
  interval_cases k <;> rfl

/-- A decimal digit character is not a comma. -/
theorem digitChar_ne_comma (k : Nat) (hk : k < 10) : Nat.digitChar k ≠ ',' := by
  interval_cases k <;> decide

/-- Reading back the digits produced for `n` in front of `ds` continues from `n`. -/
theorem foldl_toDigitsCore (fuel : Nat) :
    ∀ (n : Nat) (ds : List Char), n < fuel →
      (Nat.toDigitsCore 10 fuel n ds).foldl (fun acc c => acc * 10 + (c.toNat - 48)) 0
        = ds.foldl (fun acc c => acc * 10 + (c.toNat - 48)) n := by
  induction fuel with
  | zero => intro n ds h; omega
  | succ fuel ih =>
    intro n ds h
    simp only [Nat.toDigitsCore]
    split
    · rename_i h0
      simp only [List.foldl_cons, Nat.zero_mul, Nat.zero_add]
      rw [digitChar_value _ (Nat.mod_lt _ (by decide))]
      have : n % 10 = n := Nat.mod_eq_of_lt (by omega)
      rw [this]
    · rename_i h0
      rw [ih (n / 10) _ (by omega)]
      simp only [List.foldl_cons]
      rw [digitChar_value _ (Nat.mod_lt _ (by decide))]
      have : n / 10 * 10 + n % 10 = n := by omega
      rw [this]

/-- The numeral of a number reads back as the number. -/
theorem numeralValue_toString (n : Nat) : numeralValue (toString n).data = n := by
  show (Nat.toDigitsCore 10 (n + 1) n []).foldl _ 0 = n
  rw [foldl_toDigitsCore (n + 1) n [] (by omega)]
  rfl

/-- Distinct numbers have distinct numerals. -/
theorem toString_injective (a b : Nat) (h : (toString a).data = (toString b).data) :
    a = b := by
  have := congrArg numeralValue h
  rwa [numeralValue_toString, numeralValue_toString] at this

/-- A comma among the digits produced in front of `ds` is a comma of `ds`. -/
theorem comma_mem_toDigitsCore (fuel : Nat) :
    ∀ (n : Nat) (ds : List Char), ',' ∈ Nat.toDigitsCore 10 fuel n ds → ',' ∈ ds := by
  induction fuel with
  | zero => intro n ds h; simpa [Nat.toDigitsCore] using h
  | succ fuel ih =>
    intro n ds h
    simp only [Nat.toDigitsCore] at h
    split at h
    · rcases List.mem_cons.mp h with h1 | h1
      · exact absurd h1.symm (digitChar_ne_comma _ (Nat.mod_lt _ (by decide)))
      · exact h1
    · rcases List.mem_cons.mp (ih _ _ h) with h1 | h1
      · exact absurd h1.symm (digitChar_ne_comma _ (Nat.mod_lt _ (by decide)))
      · exact h1

/-- A numeral holds no comma. -/
theorem comma_not_mem_toString (n : Nat) : ',' ∉ (toString n).data := by
  intro h
  have h2 : ',' ∈ Nat.toDigitsCore 10 (n + 1) n [] := h
  exact absurd (comma_mem_toDigitsCore _ _ _ h2) (by simp)

/-- Digits produced in front of a non-empty list are a non-empty list. -/
theorem toDigitsCore_ne_nil (fuel : Nat) :
    ∀ (n : Nat) (ds : List Char), ds ≠ [] → Nat.toDigitsCore 10 fuel n ds ≠ [] := by
  induction fuel with
  | zero => intro n ds h; simpa [Nat.toDigitsCore] using h
  | succ fuel ih =>
    intro n ds _
    simp only [Nat.toDigitsCore]
    split
    · simp
    · exact ih _ _ (by simp)

/-- A numeral is not empty. -/
theorem toString_ne_nil (n : Nat) : (toString n).data ≠ [] := by
  show Nat.toDigitsCore 10 (n + 1) n [] ≠ []
  simp only [Nat.toDigitsCore]
  split
  · simp
  · exact toDigitsCore_ne_nil _ _ _ (by simp)

/-- The characters of the string of an array with at least two entries. -/
theorem arrayToString_cons_cons (a b : Nat) (rest : List Nat) :
    (arrayToString (a :: b :: rest)).data
      = (toString a).data ++ ',' :: (arrayToString (b :: rest)).data := by
  simp [arrayToString, String.data_append]

/-- Two comma-free runs, each followed by a comma, split a list in one way only. -/
theorem split_at_comma (d1 : List Char) :
    ∀ (d2 r1 r2 : List Char), ',' ∉ d1 → ',' ∉ d2 →
      d1 ++ ',' :: r1 = d2 ++ ',' :: r2 → d1 = d2 ∧ r1 = r2 := by
  induction d1 with
  | nil =>
    intro d2 r1 r2 _ h2 h
    cases d2 with
    | nil => simpa using h
    | cons y d2 =>
      simp only [List.nil_append, List.cons_append, List.cons.injEq] at h
      exact absurd (h.1 ▸ List.mem_cons_self _ _) h2
  | cons x d1 ih =>
    intro d2 r1 r2 h1 h2 h
    cases d2 with
    | nil =>
      simp only [List.nil_append, List.cons_append, List.cons.injEq] at h
      exact absurd (h.1 ▸ List.mem_cons_self _ _) h1
    | cons y d2 =>
      simp only [List.cons_append, List.cons.injEq] at h
      obtain ⟨hd, hr⟩ := ih d2 r1 r2 (fun hm => h1 (List.mem_cons_of_mem _ hm))
        (fun hm => h2 (List.mem_cons_of_mem _ hm)) h.2
      exact ⟨by rw [h.1, hd], hr⟩

/-- Arrays of key codes with the same string are the same array. -/
theorem arrayToString_injective (l1 : List Nat) :
    ∀ l2 : List Nat, arrayToString l1 = arrayToString l2 → l1 = l2 := by
  induction l1 with
  | nil =>
    intro l2 h
    have hd := congrArg String.data h
    cases l2 with
    | nil => rfl
    | cons b t2 =>
      exfalso
      cases t2 with
      | nil => exact toString_ne_nil b hd.symm
      | cons c r2 =>
        rw [arrayToString_cons_cons] at hd
        have : (toString b).data ++ ',' :: (arrayToString (c :: r2)).data = [] := hd.symm
        simp at this
  | cons a t1 ih =>
    intro l2 h
    have hd := congrArg String.data h
    cases t1 with
    | nil =>
      cases l2 with
      | nil => exact absurd hd (toString_ne_nil a)
      | cons b t2 =>
        cases t2 with
        | nil =>
          have : (toString a).data = (toString b).data := hd
          rw [toString_injective a b this]
        | cons c r2 =>
          exfalso
          rw [arrayToString_cons_cons] at hd
          have hmem : ',' ∈ (toString a).data := by
            have : (toString a).data
                = (toString b).data ++ ',' :: (arrayToString (c :: r2)).data := hd
            rw [this]
            simp
          exact comma_not_mem_toString a hmem
    | cons a2 r1 =>
      rw [arrayToString_cons_cons] at hd
      cases l2 with
      | nil =>
        have : (toString a).data ++ ',' :: (arrayToString (a2 :: r1)).data = [] := hd
        simp at this
      | cons b t2 =>
        cases t2 with
        | nil =>
          exfalso
          have hmem : ',' ∈ (toString b).data := by
            have : (toString a).data ++ ',' :: (arrayToString (a2 :: r1)).data
                = (toString b).data := hd
            rw [← this]
            simp
          exact comma_not_mem_toString b hmem
        | cons c r2 =>
          rw [arrayToString_cons_cons] at hd
          obtain ⟨h1, h2⟩ := split_at_comma _ _ _ _ (comma_not_mem_toString a)
            (comma_not_mem_toString b) hd
          have hab := toString_injective a b h1
          have hrest := ih (c :: r2) (String.ext h2)
          rw [hab, hrest]

/-- Keeping the last ten of the kept last ten and one more key is keeping the
last ten of everything. -/
theorem sliceLast10_push (h : List Nat) (k : Nat) :
    sliceLast10 (sliceLast10 h ++ [k]) = sliceLast10 (h ++ [k]) := by
  unfold sliceLast10
  have h1 : h.drop (h.length - 10) ++ [k] = (h ++ [k]).drop (h.length - 10) := by
    rw [List.drop_append_of_le_length (by omega)]
  rw [h1, List.drop_drop]
  congr 1
  simp only [List.length_drop, List.length_append, List.length_singleton]
  omega

/-- The variable holds the last ten of the keys pressed so far. -/
theorem afterKeys_eq (keys : List Nat) : afterKeys keys = sliceLast10 keys := by
  induction keys using List.reverseRecOn with
  | nil => rfl
  | append_singleton keys k ih =>
    unfold afterKeys at ih ⊢
    rw [List.foldl_append]
    simp only [List.foldl_cons, List.foldl_nil]
    rw [ih]
    exact sliceLast10_push keys k

/-- C28: after any keys, the `keydown` listener leaves in `konamiSequence` the
last ten key codes pressed, the current one included, never more than ten; it
calls `triggerKonamiEffect` exactly when these are the ten codes
38, 38, 40, 40, 37, 39, 37, 39, 66, 65 in this order, that is, when the keys
pressed so far end with them. -/
theorem konami_detection (keys : List Nat) (k : Nat) :
    (keydown (afterKeys keys) k).1 = sliceLast10 (keys ++ [k]) ∧
    (keydown (afterKeys keys) k).1.length ≤ 10 ∧
    (afterKeys keys).length ≤ 10 ∧
    ((keydown (afterKeys keys) k).2 = true ↔
      sliceLast10 (keys ++ [k]) = [38, 38, 40, 40, 37, 39, 37, 39, 66, 65]) ∧
    ((keydown (afterKeys keys) k).2 = true ↔
      ∃ earlier, keys ++ [k] = earlier ++ [38, 38, 40, 40, 37, 39, 37, 39, 66, 65]) := by
  have hlen : ∀ l : List Nat, (sliceLast10 l).length ≤ 10 := by
    intro l
    unfold sliceLast10
    rw [List.length_drop]
    omega
  have hseq : (keydown (afterKeys keys) k).1 = sliceLast10 (keys ++ [k]) := by
    show sliceLast10 (afterKeys keys ++ [k]) = _
    rw [afterKeys_eq]
    exact sliceLast10_push keys k
  have hfire : (keydown (afterKeys keys) k).2 = true ↔
      sliceLast10 (keys ++ [k]) = konamiCode := by
    have h2 : (keydown (afterKeys keys) k).2
        = (arrayToString (keydown (afterKeys keys) k).1 == arrayToString konamiCode) := rfl
    rw [h2, hseq, beq_iff_eq]
    exact ⟨arrayToString_injective _ _, fun h => by rw [h]⟩
  refine ⟨hseq, by rw [hseq]; exact hlen _, by rw [afterKeys_eq]; exact hlen _, hfire, ?_⟩
  rw [hfire]
  constructor
  · intro h
    refine ⟨(keys ++ [k]).take ((keys ++ [k]).length - 10), ?_⟩
    have := List.take_append_drop ((keys ++ [k]).length - 10) (keys ++ [k])
    unfold sliceLast10 at h
    rw [h] at this
    exact this.symm
  · rintro ⟨earlier, h⟩
    unfold sliceLast10
    rw [h]
    have hl : (earlier ++ [38, 38, 40, 40, 37, 39, 37, 39, 66, 65]).length - 10
        = earlier.length := by
      simp
    rw [hl, List.drop_left]
    rfl

end Konami
